import Mathlib

/-!
# HID protocol core (`system/ulib/ddk/protocol/hid.c`)

A shallow embedding of the report-descriptor interpreter, the report size
table and the query functions of `hid.c`, followed by theorems about them.

Conventions of the embedding.

* A C array is a `List`; a `for` loop over the array is a recursion over the
  list that carries the loop index.  `sizes` has `HID_MAX_REPORT_IDS` slots.
* The descriptor is read through an offset (`buf`) and `desc[buf]?`; a read
  outside the buffer makes the function return `none`.
* Unsigned machine integers are `Nat` reduced modulo `2 ^ width` where C
  converts; `int64_t data` is kept as its 64-bit two's complement pattern.
* `mx_status_t` results are `ok n` for a non-negative value (`NO_ERROR` is
  `ok 0`, a byte count is `ok n`) and one constructor per error constant.
-/

namespace Hid

/-! ## Types of `ddk/protocol/input.h` and `magenta/types.h` -/

/-- One octet of a descriptor or of a report. -/
abbrev uint8_t := Fin 256

/-- Width of `input_report_size_t`.  Its typedef is in `ddk/protocol/input.h`;
the development is parametric in it: an unsigned 16-bit or an unsigned 32-bit
integer. -/
inductive size_width
  | u16
  | u32
  deriving DecidableEq, Repr

/-- Number of value bits of the size type. -/
def size_width.bits : size_width → Nat
  | .u16 => 16
  | .u32 => 32

/-- The declarations of `ddk/protocol/input.h` that `hid.c` depends on and
that are taken as parameters: the width of `input_report_size_t` and the
`sizeof` of the three request structures. -/
structure input_h where
  report_size : size_width
  sizeof_get_report_size : Nat
  sizeof_get_report : Nat
  sizeof_set_report : Nat
  deriving DecidableEq, Repr

/-- Conversion of a value to `input_report_size_t`. -/
def to_report_size (c : input_h) (n : Nat) : Nat :=
  n % 2 ^ c.report_size.bits

/-- The value of `sizeof(input_report_size_t)`. -/
def sizeof_report_size (c : input_h) : Nat :=
  c.report_size.bits / 8

/-- Modelled from the spec: `input_report_id_t` (declared in
`ddk/protocol/input.h`) is the spec's ReportId, a small unsigned integer
0-255, so a conversion to it keeps the low eight bits. -/
def to_report_id (n : Nat) : Nat :=
  n % 256

/-- The value of `sizeof(input_report_id_t)`, one octet. -/
def sizeof_report_id : Nat := 1

/-- The value of `sizeof(int)`. -/
def sizeof_int : Nat := 4

/-- The value of `sizeof(size_t)` on the 64-bit targets of the kernel. -/
def sizeof_size_t : Nat := 8

/-- The values of `input_report_type_t` that `hid.c` distinguishes; `other`
stands for any value that is none of the three constants. -/
inductive input_report_type_t
  | INPUT_REPORT_INPUT
  | INPUT_REPORT_OUTPUT
  | INPUT_REPORT_FEATURE
  | other
  deriving DecidableEq, Repr

/-- The protocol constants written by `hid_get_protocol`. -/
inductive input_proto
  | INPUT_PROTO_NONE
  | INPUT_PROTO_KBD
  | INPUT_PROTO_MOUSE
  deriving DecidableEq, Repr

/-- Result of a function returning `mx_status_t` or `ssize_t`: a non-negative
value, or one of the (pairwise distinct, negative) error constants. -/
inductive mx_status_t
  | ok (n : Nat)
  | ERR_NOT_SUPPORTED
  | ERR_NO_MEMORY
  | ERR_NOT_ENOUGH_BUFFER
  | ERR_INVALID_ARGS
  | ERR_CHANNEL_CLOSED
  deriving DecidableEq, Repr

/-- The status `NO_ERROR`, zero. -/
def NO_ERROR : mx_status_t := .ok 0

/-! ## `ddk/protocol/hid.h` -/

def HID_MAX_REPORT_IDS : Nat := 16

def HID_DEV_CLASS_OTHER : Nat := 0
def HID_DEV_CLASS_KBD : Nat := 1
def HID_DEV_CLASS_POINTER : Nat := 2
def HID_DEV_CLASS_KBD_POINTER : Nat := 3

/-- The struct `hid_report_size`: `id` is an `int16_t`, the three sizes are
`input_report_size_t` bit counts. -/
structure hid_report_size where
  id : Int
  in_size : Nat
  out_size : Nat
  feat_size : Nat
  deriving DecidableEq, Repr

/-- The fields of `mx_hid_device_t` that the descriptor interpreter and the
queries use.  `hid_report_desc_len` is the length of `hid_report_desc`. -/
structure mx_hid_device where
  boot_device : Bool
  dev_class : Nat
  hid_report_desc : List uint8_t
  num_reports : Nat
  sizes : List hid_report_size
  deriving DecidableEq, Repr

/-! ## `hid.c`: macros and item constants -/

def HID_FLAGS_DEAD : Nat := 1

/-- The macro `bits_to_bytes(n)`, `((n) + 7) / 8`, at an operand of type
`input_report_size_t`: a 16-bit operand is promoted to `int` and a 32-bit
operand stays `unsigned`, so in both cases the sum is formed on 32 bits. -/
def bits_to_bytes (n : Nat) : Nat :=
  (n + 7) % 2 ^ 32 / 8

def HID_ITEM_TYPE_MAIN : Nat := 0
def HID_ITEM_TYPE_GLOBAL : Nat := 1
def HID_ITEM_TYPE_LOCAL : Nat := 2

def HID_ITEM_MAIN_TAG_INPUT : Nat := 8
def HID_ITEM_MAIN_TAG_OUTPUT : Nat := 9
def HID_ITEM_MAIN_TAG_FEATURE : Nat := 11

def HID_ITEM_GLOBAL_TAG_REPORT_SIZE : Nat := 7
def HID_ITEM_GLOBAL_TAG_REPORT_ID : Nat := 8
def HID_ITEM_GLOBAL_TAG_REPORT_COUNT : Nat := 9
def HID_ITEM_GLOBAL_TAG_PUSH : Nat := 10
def HID_ITEM_GLOBAL_TAG_POP : Nat := 11

/-! ## `hid.c`: size table -/

/-- The loop of `hid_init_report_sizes`: every slot id becomes `-1`. -/
def hid_init_report_sizes (dev : mx_hid_device) : mx_hid_device :=
  { dev with sizes := dev.sizes.map fun e => { e with id := -1 } }

/-- The table part of `hid_create_device`: `calloc` zeroes the struct, the
class fields are stored and the slot ids are initialised. -/
def hid_create_device (boot_device : Bool) (dev_class : Nat) : mx_hid_device :=
  hid_init_report_sizes
    { boot_device := boot_device
      dev_class := dev_class
      hid_report_desc := []
      num_reports := 0
      sizes := List.replicate HID_MAX_REPORT_IDS ⟨0, 0, 0, 0⟩ }

/-- The loop of `hid_find_report_id` from slot `i` on; the list argument holds
the slots `i, i+1, ...` still to be visited. -/
def hid_find_report_id_loop (report_id : Nat) (dev : mx_hid_device) :
    Nat → List hid_report_size → Int × mx_hid_device
  | _, [] => (-1, dev)
  | i, e :: rest =>
    if e.id = (report_id : Int) then ((i : Int), dev)
    else if e.id = -1 then
      ((i : Int),
        { dev with
          sizes := dev.sizes.set i { e with id := (report_id : Int) }
          num_reports := dev.num_reports + 1 })
    else hid_find_report_id_loop report_id dev (i + 1) rest

/-- The function `hid_find_report_id`: index of the slot of `report_id`,
claiming the first unset slot on a miss; `-1` when neither exists. -/
def hid_find_report_id (report_id : Nat) (dev : mx_hid_device) : Int × mx_hid_device :=
  hid_find_report_id_loop report_id dev 0 dev.sizes

/-- The loop of `hid_get_report_size_by_id` over the slots still to visit. -/
def hid_get_report_size_by_id_loop (c : input_h) (id : Nat) (type : input_report_type_t) :
    List hid_report_size → Nat
  | [] => 0
  | e :: rest =>
    if e.id < 0 then 0
    else if e.id = (id : Int) then
      match type with
      | .INPUT_REPORT_INPUT => to_report_size c (bits_to_bytes e.in_size)
      | .INPUT_REPORT_OUTPUT => to_report_size c (bits_to_bytes e.out_size)
      | .INPUT_REPORT_FEATURE => to_report_size c (bits_to_bytes e.feat_size)
      | .other => hid_get_report_size_by_id_loop c id type rest
    else hid_get_report_size_by_id_loop c id type rest

/-- The function `hid_get_report_size_by_id`, with `BOOT_MOUSE_HACK` set: the
loop visits the slots below `num_reports`. -/
def hid_get_report_size_by_id (c : input_h) (hid : mx_hid_device) (id : Nat)
    (type : input_report_type_t) : Nat :=
  if hid.dev_class = HID_DEV_CLASS_POINTER then to_report_size c 3
  else hid_get_report_size_by_id_loop c id type (hid.sizes.take hid.num_reports)

/-! ## `hid.c`: the descriptor interpreter -/

/-- The struct `hid_item`; `data` is the bit pattern of the `int64_t`. -/
structure hid_item where
  bSize : Nat
  bType : Nat
  bTag : Nat
  data : Nat
  deriving DecidableEq, Repr

/-- Payload length selected by the low two bits of an item's first octet
(the first `switch` of `hid_parse_short_item`). -/
def item_bSize (b : uint8_t) : Nat :=
  match b.val &&& 0x3 with
  | 0 => 0
  | 1 => 1
  | 2 => 2
  | _ => 4

/-- Item type bits, `(*buf >> 2) & 0x3`. -/
def item_bType (b : uint8_t) : Nat :=
  (b.val >>> 2) &&& 0x3

/-- Item tag bits, `(*buf >> 4) & 0x0f`. -/
def item_bTag (b : uint8_t) : Nat :=
  (b.val >>> 4) &&& 0x0f

/-- The operand `*buf << (8*i)` of the payload loop as an `int64_t` pattern:
the octet is promoted to a 32-bit `int`, shifted there (a shift into the sign
bit wraps, as the compilers of the kernel do), and the `int` result is sign
extended to 64 bits for the `|=`. -/
def shifted_octet (b : uint8_t) (i : Nat) : Nat :=
  let v := (b.val <<< (8 * i)) % 2 ^ 32
  if 2 ^ 31 ≤ v then v + (2 ^ 64 - 2 ^ 32) else v

/-- The payload loop of `hid_parse_short_item`: `n` iterations remain, `i` is
the loop counter, `buf` the read offset, `data` the accumulator. -/
def hid_parse_payload (desc : List uint8_t) : Nat → Nat → Nat → Nat → Option (Nat × Nat)
  | 0, _, buf, data => some (buf, data)
  | n + 1, i, buf, data =>
    match desc[buf]? with
    | none => none
    | some b => hid_parse_payload desc n (i + 1) (buf + 1) (data ||| shifted_octet b i)

/-- The function `hid_parse_short_item` on the item at offset `buf`; `end` is
`desc.length`.  Returns the new offset and the item as left in `*item`; an
item cut short by the end of the buffer keeps the `data` it had. -/
def hid_parse_short_item (desc : List uint8_t) (buf : Nat) (item : hid_item) :
    Option (Nat × hid_item) :=
  match desc[buf]? with
  | none => none
  | some b =>
    if buf + item_bSize b ≥ desc.length then
      some (desc.length,
        { bSize := item_bSize b, bType := 0x03, bTag := item_bTag b, data := item.data })
    else
      match hid_parse_payload desc (item_bSize b) 0 (buf + 1) 0 with
      | none => none
      | some (buf', data) =>
        some (buf', { bSize := item_bSize b, bType := item_bType b, bTag := item_bTag b,
                      data := data })

/-- The locals of `hid_process_hid_report_desc` that live across iterations,
together with the device. -/
structure process_state where
  item : hid_item
  rpt_size : Nat
  rpt_count : Nat
  rpt_id : Nat
  dev : mx_hid_device
  deriving DecidableEq, Repr

/-- Outcome of one pass through the `switch` of the interpreter loop. -/
inductive process_step
  | ret (status : mx_status_t) (dev : mx_hid_device)
  | cont (st : process_state)
  deriving DecidableEq, Repr

/-- The three accumulators of a slot that a main item can add to. -/
inductive size_field
  | in_size
  | out_size
  | feat_size
  deriving DecidableEq, Repr

/-- The statement `dev->sizes[idx].F += inc` for the field `F`. -/
def add_to_field (c : input_h) (f : size_field) (inc : Nat) (e : hid_report_size) :
    hid_report_size :=
  match f with
  | .in_size => { e with in_size := to_report_size c (e.in_size + inc) }
  | .out_size => { e with out_size := to_report_size c (e.out_size + inc) }
  | .feat_size => { e with feat_size := to_report_size c (e.feat_size + inc) }

/-- The common body of the Input, Output and Feature cases: find or claim the
slot of the id register, fail when the table is full, else add `inc`. -/
def hid_process_main (c : input_h) (f : size_field) (inc : Nat) (st : process_state) :
    process_step :=
  let r := hid_find_report_id st.rpt_id st.dev
  if r.1 < 0 then .ret .ERR_NOT_SUPPORTED r.2
  else
    .cont { st with
      dev := { r.2 with sizes := r.2.sizes.modify (add_to_field c f inc) r.1.toNat } }

/-- The `switch (item.bType)` of `hid_process_hid_report_desc` for the item
just parsed (held in `st.item`). -/
def hid_process_item (c : input_h) (st : process_state) : process_step :=
  if st.item.bType = HID_ITEM_TYPE_MAIN then
    let inc := to_report_size c ((st.rpt_size * st.rpt_count) % 2 ^ 32)
    if st.item.bTag = HID_ITEM_MAIN_TAG_INPUT then hid_process_main c .in_size inc st
    else if st.item.bTag = HID_ITEM_MAIN_TAG_OUTPUT then hid_process_main c .out_size inc st
    else if st.item.bTag = HID_ITEM_MAIN_TAG_FEATURE then hid_process_main c .feat_size inc st
    else .cont st
  else if st.item.bType = HID_ITEM_TYPE_GLOBAL then
    if st.item.bTag = HID_ITEM_GLOBAL_TAG_REPORT_SIZE then
      .cont { st with rpt_size := st.item.data % 2 ^ 32 }
    else if st.item.bTag = HID_ITEM_GLOBAL_TAG_REPORT_ID then
      .cont { st with rpt_id := to_report_id st.item.data }
    else if st.item.bTag = HID_ITEM_GLOBAL_TAG_REPORT_COUNT then
      .cont { st with rpt_count := st.item.data % 2 ^ 32 }
    else if st.item.bTag = HID_ITEM_GLOBAL_TAG_PUSH ∨ st.item.bTag = HID_ITEM_GLOBAL_TAG_POP then
      .ret .ERR_NOT_SUPPORTED st.dev
    else .cont st
  else .cont st

/-- The `while (buf < end)` loop of `hid_process_hid_report_desc`, with an
iteration budget; `none` is a read outside the descriptor or a spent budget. -/
def hid_process_loop (c : input_h) (desc : List uint8_t) :
    Nat → Nat → process_state → Option (mx_status_t × mx_hid_device)
  | 0, buf, st => if buf < desc.length then none else some (NO_ERROR, st.dev)
  | fuel + 1, buf, st =>
    if buf < desc.length then
      match hid_parse_short_item desc buf st.item with
      | none => none
      | some (buf', item) =>
        match hid_process_item c { st with item := item } with
        | .ret status dev => some (status, dev)
        | .cont st' => hid_process_loop c desc fuel buf' st'
    else some (NO_ERROR, st.dev)

/-- The function `hid_process_hid_report_desc`: the registers start at zero,
`item` starts uninitialised (zero here; no field is read before
`hid_parse_short_item` has written it) and every iteration consumes at least
one octet, so `desc.length` iterations are a sufficient budget. -/
def hid_process_hid_report_desc (c : input_h) (dev : mx_hid_device) :
    Option (mx_status_t × mx_hid_device) :=
  hid_process_loop c dev.hid_report_desc dev.hid_report_desc.length 0
    { item := ⟨0, 0, 0, 0⟩, rpt_size := 0, rpt_count := 0, rpt_id := 0, dev := dev }

/-- A device as `hid_add_device` hands it to the interpreter: created by
`hid_create_device`, then given the descriptor fetched from the bus. -/
def fresh_device (boot_device : Bool) (dev_class : Nat) (desc : List uint8_t) :
    mx_hid_device :=
  { hid_create_device boot_device dev_class with hid_report_desc := desc }

/-! ## `hid.c`: queries -/

/-- What a query stored through `out_buf`: nothing, or the typed reply. -/
inductive out_data
  | untouched
  | proto (v : input_proto)
  | size (v : Nat)
  | bytes (l : List uint8_t)
  | ids (l : List Nat)
  | report_size (v : Nat)
  deriving DecidableEq, Repr

/-- The request header read through `in_buf` (`input_get_report_size_t`,
`input_get_report_t` and the head of `input_set_report_t`). -/
structure input_request where
  id : uint8_t
  type : input_report_type_t
  deriving DecidableEq, Repr

/-- The function `hid_get_protocol`: the protocol of the device class. -/
def hid_get_protocol (hid : mx_hid_device) (out_len : Nat) : mx_status_t × out_data :=
  if out_len < sizeof_int then (.ERR_INVALID_ARGS, .untouched)
  else if hid.dev_class = HID_DEV_CLASS_KBD ∨ hid.dev_class = HID_DEV_CLASS_KBD_POINTER then
    (.ok sizeof_int, .proto .INPUT_PROTO_KBD)
  else if hid.dev_class = HID_DEV_CLASS_POINTER then
    (.ok sizeof_int, .proto .INPUT_PROTO_MOUSE)
  else (.ok sizeof_int, .proto .INPUT_PROTO_NONE)

/-- The function `hid_get_hid_desc_size`: the descriptor length as a `size_t`. -/
def hid_get_hid_desc_size (hid : mx_hid_device) (out_len : Nat) : mx_status_t × out_data :=
  if out_len < sizeof_size_t then (.ERR_INVALID_ARGS, .untouched)
  else (.ok sizeof_size_t, .size hid.hid_report_desc.length)

/-- The function `hid_get_hid_desc`: a copy of the descriptor. -/
def hid_get_hid_desc (hid : mx_hid_device) (out_len : Nat) : mx_status_t × out_data :=
  if out_len < hid.hid_report_desc.length then (.ERR_INVALID_ARGS, .untouched)
  else (.ok hid.hid_report_desc.length, .bytes hid.hid_report_desc)

/-- The function `hid_get_num_reports`, with `BOOT_MOUSE_HACK` set; the pair is
the status and the final content of `*reply`. -/
def hid_get_num_reports (hid : mx_hid_device) (out_len : Nat) : mx_status_t × out_data :=
  if out_len < sizeof_size_t then (.ERR_INVALID_ARGS, .untouched)
  else if hid.dev_class = HID_DEV_CLASS_POINTER then (.ok sizeof_size_t, .size 1)
  else (.ok sizeof_size_t, .size hid.num_reports)

/-- The copy loop of `hid_get_report_ids` over the slots still to visit;
`none` is a failed `assert(hid->sizes[i].id >= 0)`. -/
def hid_get_report_ids_loop : List hid_report_size → Option (List Nat)
  | [] => some []
  | e :: rest =>
    if e.id ≥ 0 then
      match hid_get_report_ids_loop rest with
      | none => none
      | some l => some (to_report_id e.id.toNat :: l)
    else none

/-- The function `hid_get_report_ids`; `none` is a failed assertion. -/
def hid_get_report_ids (hid : mx_hid_device) (out_len : Nat) :
    Option (mx_status_t × out_data) :=
  if hid.dev_class = HID_DEV_CLASS_POINTER then
    if out_len < sizeof_report_id then some (.ERR_INVALID_ARGS, .untouched)
    else some (.ok sizeof_report_id, .ids [0])
  else if out_len < hid.num_reports * sizeof_report_id then
    some (.ERR_INVALID_ARGS, .untouched)
  else
    match hid_get_report_ids_loop (hid.sizes.take hid.num_reports) with
    | none => none
    | some l => some (.ok (hid.num_reports * sizeof_report_id), .ids l)

/-- The function `hid_get_report_size`: the reply is stored before it is
tested for zero. -/
def hid_get_report_size (c : input_h) (hid : mx_hid_device) (inp : input_request)
    (in_len out_len : Nat) : mx_status_t × out_data :=
  if in_len < c.sizeof_get_report_size then (.ERR_INVALID_ARGS, .untouched)
  else if out_len < sizeof_report_size c then (.ERR_INVALID_ARGS, .untouched)
  else
    let reply := hid_get_report_size_by_id c hid inp.id.val inp.type
    if reply = 0 then (.ERR_INVALID_ARGS, .report_size reply)
    else (.ok (sizeof_report_size c), .report_size reply)

/-- The scan of `hid_get_max_reportsize`: `reply` is the running `*reply`. -/
def hid_get_max_reportsize_loop (reply : Nat) : List hid_report_size → Nat
  | [] => reply
  | e :: rest =>
    if e.id ≥ 0 ∧ e.in_size > reply then hid_get_max_reportsize_loop e.in_size rest
    else hid_get_max_reportsize_loop reply rest

/-- The function `hid_get_max_reportsize`, with `BOOT_MOUSE_HACK` set; the
buffer is checked against `sizeof(int)`. -/
def hid_get_max_reportsize (c : input_h) (hid : mx_hid_device) (out_len : Nat) :
    mx_status_t × out_data :=
  if out_len < sizeof_int then (.ERR_INVALID_ARGS, .untouched)
  else
    let reply := to_report_size c (bits_to_bytes (hid_get_max_reportsize_loop 0 hid.sizes))
    if hid.dev_class = HID_DEV_CLASS_POINTER then
      (.ok (sizeof_report_size c), .report_size (to_report_size c 3))
    else (.ok (sizeof_report_size c), .report_size reply)

/-- The function `hid_get_report`: the checks in front of the commented-out
transfer. -/
def hid_get_report (c : input_h) (hid : mx_hid_device) (inp : input_request)
    (in_len out_len : Nat) : mx_status_t × out_data :=
  if in_len < c.sizeof_get_report then (.ERR_INVALID_ARGS, .untouched)
  else
    let needed := hid_get_report_size_by_id c hid inp.id.val inp.type
    if needed = 0 then (.ERR_INVALID_ARGS, .untouched)
    else if out_len < needed then (.ERR_NOT_ENOUGH_BUFFER, .untouched)
    else (.ERR_NOT_SUPPORTED, .untouched)

/-- The function `hid_set_report`: the checks in front of the commented-out
transfer. -/
def hid_set_report (c : input_h) (hid : mx_hid_device) (inp : input_request)
    (in_len : Nat) : mx_status_t :=
  if in_len < c.sizeof_set_report then .ERR_INVALID_ARGS
  else
    let needed := hid_get_report_size_by_id c hid inp.id.val inp.type
    if needed = 0 then .ERR_INVALID_ARGS
    else if in_len - c.sizeof_set_report < needed then .ERR_INVALID_ARGS
    else .ERR_NOT_SUPPORTED

/-- The request codes dispatched by `hid_ioctl_instance`; `other` is any code
without a `case`. -/
inductive ioctl_op
  | IOCTL_INPUT_GET_PROTOCOL
  | IOCTL_INPUT_GET_REPORT_DESC_SIZE
  | IOCTL_INPUT_GET_REPORT_DESC
  | IOCTL_INPUT_GET_NUM_REPORTS
  | IOCTL_INPUT_GET_REPORT_IDS
  | IOCTL_INPUT_GET_REPORT_SIZE
  | IOCTL_INPUT_GET_MAX_REPORTSIZE
  | IOCTL_INPUT_GET_REPORT
  | IOCTL_INPUT_SET_REPORT
  | other
  deriving DecidableEq, Repr

/-- Modelled from the spec: `mx_hid_fifo_t` (declared in `ddk/common/hid.h`)
is the spec's ReportFifo, a bounded byte queue owned by one reader instance;
`buf` holds the queued octets, oldest first. -/
structure mx_hid_fifo where
  buf : List uint8_t
  deriving DecidableEq, Repr

/-- The struct `mx_hid_instance`: `root` is the device the pointer refers to
(`none` while it is still `NULL`), `flags` the flag word, `fifo` the
instance's FIFO and `readable` the `DEV_STATE_READABLE` signal of its device
node (`dev`). -/
structure mx_hid_instance where
  root : Option mx_hid_device
  flags : Nat
  fifo : mx_hid_fifo
  readable : Bool
  deriving DecidableEq, Repr

/-- The queries called with a `NULL` root: a length check that precedes the
first dereference of `hid` returns `ERR_INVALID_ARGS`; `none` is the
dereference (in `hid_get_hid_desc` and `hid_get_report_ids` it comes first). -/
def hid_ioctl_null_root (c : input_h) (op : ioctl_op) (in_len out_len : Nat) :
    Option (mx_status_t × out_data) :=
  match op with
  | .IOCTL_INPUT_GET_PROTOCOL =>
    if out_len < sizeof_int then some (.ERR_INVALID_ARGS, .untouched) else none
  | .IOCTL_INPUT_GET_REPORT_DESC_SIZE =>
    if out_len < sizeof_size_t then some (.ERR_INVALID_ARGS, .untouched) else none
  | .IOCTL_INPUT_GET_REPORT_DESC => none
  | .IOCTL_INPUT_GET_NUM_REPORTS =>
    if out_len < sizeof_size_t then some (.ERR_INVALID_ARGS, .untouched) else none
  | .IOCTL_INPUT_GET_REPORT_IDS => none
  | .IOCTL_INPUT_GET_REPORT_SIZE =>
    if in_len < c.sizeof_get_report_size then some (.ERR_INVALID_ARGS, .untouched)
    else if out_len < sizeof_report_size c then some (.ERR_INVALID_ARGS, .untouched)
    else none
  | .IOCTL_INPUT_GET_MAX_REPORTSIZE =>
    if out_len < sizeof_int then some (.ERR_INVALID_ARGS, .untouched) else none
  | .IOCTL_INPUT_GET_REPORT =>
    if in_len < c.sizeof_get_report then some (.ERR_INVALID_ARGS, .untouched) else none
  | .IOCTL_INPUT_SET_REPORT =>
    if in_len < c.sizeof_set_report then some (.ERR_INVALID_ARGS, .untouched) else none
  | .other => some (.ERR_NOT_SUPPORTED, .untouched)

/-- The function `hid_ioctl_instance`.  The outer `none` is a dereference of a
`NULL` root inside the query called, or a failed assertion. -/
def hid_ioctl_instance (c : input_h) (hid : mx_hid_instance) (op : ioctl_op)
    (inp : input_request) (in_len out_len : Nat) : Option (mx_status_t × out_data) :=
  if hid.flags &&& HID_FLAGS_DEAD ≠ 0 then some (.ERR_CHANNEL_CLOSED, .untouched)
  else
    match hid.root with
    | none => hid_ioctl_null_root c op in_len out_len
    | some root =>
      match op with
      | .IOCTL_INPUT_GET_PROTOCOL => some (hid_get_protocol root out_len)
      | .IOCTL_INPUT_GET_REPORT_DESC_SIZE => some (hid_get_hid_desc_size root out_len)
      | .IOCTL_INPUT_GET_REPORT_DESC => some (hid_get_hid_desc root out_len)
      | .IOCTL_INPUT_GET_NUM_REPORTS => some (hid_get_num_reports root out_len)
      | .IOCTL_INPUT_GET_REPORT_IDS => hid_get_report_ids root out_len
      | .IOCTL_INPUT_GET_REPORT_SIZE => some (hid_get_report_size c root inp in_len out_len)
      | .IOCTL_INPUT_GET_MAX_REPORTSIZE => some (hid_get_max_reportsize c root out_len)
      | .IOCTL_INPUT_GET_REPORT => some (hid_get_report c root inp in_len out_len)
      | .IOCTL_INPUT_SET_REPORT => some (hid_set_report c root inp in_len, .untouched)
      | .other => some (.ERR_NOT_SUPPORTED, .untouched)

/-! ## `hid.c`: reader instances, delivery, detach and attach -/

/-- The FIFO functions of `ddk/common/hid.h` that `hid.c` calls, taken as
parameters: `read fifo count` is `mx_hid_fifo_read` (its result, the octets
it stored in the caller's buffer and the FIFO it leaves), `write fifo buf`
is `mx_hid_fifo_write` (its result and the FIFO it leaves) and `size` is
`mx_hid_fifo_size`. -/
structure fifo_h where
  read : mx_hid_fifo → Nat → mx_status_t × List uint8_t × mx_hid_fifo
  write : mx_hid_fifo → List uint8_t → mx_status_t × mx_hid_fifo
  size : mx_hid_fifo → Nat

/-- The test `wrote <= 0` on an `ssize_t` result: zero or an error constant. -/
def status_le_zero : mx_status_t → Bool
  | .ok 0 => true
  | .ok (_ + 1) => false
  | _ => true

/-- The function `hid_read_instance`: the status, the octets stored in the
caller's buffer and the instance afterwards. -/
def hid_read_instance (ops : fifo_h) (hid : mx_hid_instance) (count : Nat) :
    mx_status_t × List uint8_t × mx_hid_instance :=
  if hid.flags &&& HID_FLAGS_DEAD ≠ 0 then (.ERR_CHANNEL_CLOSED, [], hid)
  else
    let r := ops.read hid.fifo count
    let left := ops.size r.2.2
    (r.1, r.2.1,
      { hid with fifo := r.2.2, readable := if left = 0 then false else hid.readable })

/-- The body of the loop of `hid_io_closed` for one registered instance. -/
def hid_io_closed_instance (inst : mx_hid_instance) : mx_hid_instance :=
  { inst with flags := inst.flags ||| HID_FLAGS_DEAD, readable := true }

/-- The loop of `hid_io_closed` over `instance_list`, in list order. -/
def hid_io_closed : List mx_hid_instance → List mx_hid_instance
  | [] => []
  | inst :: rest => hid_io_closed_instance inst :: hid_io_closed rest

/-- The body of the loop of `hid_io_read` for one registered instance. -/
def hid_io_read_instance (ops : fifo_h) (buf : List uint8_t) (inst : mx_hid_instance) :
    mx_hid_instance :=
  let was_empty := ops.size inst.fifo = 0
  let w := ops.write inst.fifo buf
  if status_le_zero w.1 then { inst with fifo := w.2 }
  else { inst with fifo := w.2, readable := if was_empty then true else inst.readable }

/-- The loop of `hid_io_read` over `instance_list`, in list order. -/
def hid_io_read (ops : fifo_h) : List mx_hid_instance → List uint8_t → List mx_hid_instance
  | [], _ => []
  | inst :: rest, buf => hid_io_read_instance ops buf inst :: hid_io_read ops rest buf

/-- The function `hid_cleanup_device`: the descriptor is freed. -/
def hid_cleanup_device (dev : mx_hid_device) : mx_hid_device :=
  { dev with hid_report_desc := [] }

/-- What the collaborators of `hid_add_device` return: the status of each
call, and the descriptor `get_descriptor` stores in the device. -/
structure bus_replies where
  device_get_protocol : mx_status_t
  set_protocol : mx_status_t
  set_report : mx_status_t
  get_descriptor : mx_status_t
  descriptor : List uint8_t
  device_add : mx_status_t
  set_idle : mx_status_t
  iotxn_alloc : mx_status_t
  deriving DecidableEq, Repr

/-- The calls `hid_add_device` makes to its collaborators. -/
inductive bus_call
  | device_get_protocol
  | set_protocol
  | set_report
  | get_descriptor
  | device_init
  | device_add
  | set_idle
  | iotxn_alloc
  | iotxn_queue
  deriving DecidableEq, Repr

/-- The function `hid_queue_iotxn`: its status and the calls it makes. -/
def hid_queue_iotxn (bus : bus_replies) : mx_status_t × List bus_call :=
  if bus.iotxn_alloc ≠ NO_ERROR then (bus.iotxn_alloc, [.iotxn_alloc])
  else (NO_ERROR, [.iotxn_alloc, .iotxn_queue])

/-- The part of `hid_add_device` from the descriptor fetch on; `calls` are the
collaborator calls made so far.  `none` only if the interpreter faults. -/
def hid_add_device_fetch (c : input_h) (bus : bus_replies) (dev : mx_hid_device)
    (calls : List bus_call) : Option (mx_status_t × List bus_call × mx_hid_device) :=
  let dev1 := { dev with hid_report_desc := bus.descriptor }
  if bus.get_descriptor ≠ NO_ERROR then
    some (bus.get_descriptor, calls ++ [.get_descriptor], hid_cleanup_device dev1)
  else
    match hid_process_hid_report_desc c dev1 with
    | none => none
    | some (status, dev2) =>
      if status ≠ NO_ERROR then
        some (status, calls ++ [.get_descriptor], hid_cleanup_device dev2)
      else if bus.device_add ≠ NO_ERROR then
        some (bus.device_add, calls ++ [.get_descriptor, .device_init, .device_add],
          hid_cleanup_device dev2)
      else
        some (NO_ERROR,
          calls ++ [.get_descriptor, .device_init, .device_add, .set_idle]
            ++ (hid_queue_iotxn bus).2,
          dev2)

/-- The function `hid_add_device` over the replies of its collaborators: the
status, the collaborator calls in order, and the device afterwards. -/
def hid_add_device (c : input_h) (bus : bus_replies) (dev : mx_hid_device) :
    Option (mx_status_t × List bus_call × mx_hid_device) :=
  if bus.device_get_protocol ≠ NO_ERROR then
    some (.ERR_NOT_SUPPORTED, [.device_get_protocol], dev)
  else if dev.boot_device then
    if bus.set_protocol ≠ NO_ERROR then
      some (.ERR_NOT_SUPPORTED, [.device_get_protocol, .set_protocol], dev)
    else if dev.dev_class = HID_DEV_CLASS_KBD then
      hid_add_device_fetch c bus dev [.device_get_protocol, .set_protocol, .set_report]
    else hid_add_device_fetch c bus dev [.device_get_protocol, .set_protocol]
  else hid_add_device_fetch c bus dev [.device_get_protocol]

/-! ## `hid.c`: opening and closing reader instances -/

/-- Modelled from the spec: `mx_hid_fifo_init` (`ddk/common/hid.h`, outside
`src/`) leaves the FIFO empty. -/
def mx_hid_fifo_init : mx_hid_fifo := ⟨[]⟩

/-- Modelled from the spec: `mx_hid_fifo_read` (`ddk/common/hid.h`, outside
`src/`) removes from the front and returns what is available, up to `count`
octets; on an empty FIFO it returns zero octets. -/
def mx_hid_fifo_read (fifo : mx_hid_fifo) (count : Nat) :
    mx_status_t × List uint8_t × mx_hid_fifo :=
  (.ok (min count fifo.buf.length), fifo.buf.take count, ⟨fifo.buf.drop count⟩)

/-- Modelled from the spec: `mx_hid_fifo_size` (`ddk/common/hid.h`, outside
`src/`) is the current octet count of the FIFO. -/
def mx_hid_fifo_size (fifo : mx_hid_fifo) : Nat :=
  fifo.buf.length

/-- The FIFO functions with `mx_hid_fifo_write`, whose overflow policy the spec
leaves open, taken as a parameter. -/
def fifo_with_write (write : mx_hid_fifo → List uint8_t → mx_status_t × mx_hid_fifo) :
    fifo_h :=
  ⟨mx_hid_fifo_read, write, mx_hid_fifo_size⟩

/-- Modelled from the spec: `list_add_tail` (the list macros are outside
`src/`) puts the node of the instance at the end of the registry. -/
def list_add_tail (instance_list : List mx_hid_instance) (inst : mx_hid_instance) :
    List mx_hid_instance :=
  instance_list ++ [inst]

/-- Modelled from the spec: `list_delete` (the list macros are outside `src/`)
removes from the registry the node it is given; the node is named by its
position in the registry. -/
def list_delete (instance_list : List mx_hid_instance) (node : Nat) :
    List mx_hid_instance :=
  instance_list.eraseIdx node

/-- The function `hid_create_instance`; `calloc_ok` tells whether `calloc`
returned memory.  The new instance is all zero (no root, no flag, signal
clear) with an initialised FIFO. -/
def hid_create_instance (calloc_ok : Bool) : mx_status_t × Option mx_hid_instance :=
  if calloc_ok then (NO_ERROR, some ⟨none, 0, mx_hid_fifo_init, false⟩)
  else (.ERR_NO_MEMORY, none)

/-- The function `hid_cleanup_instance` on the registry `instance_list` of the
instance's root: the registry afterwards (the instance itself is freed).
`node` is the position of `dev->node` in the registry, `none` when the node
was never added to a list.  The result `none` is a fault: the dereference of
a `NULL` root in `mtx_lock(&dev->root->instance_lock)`, or `list_delete` on a
node that is in no list, whose links `calloc` left `NULL`. -/
def hid_cleanup_instance (instance_list : List mx_hid_instance) (dev : mx_hid_instance)
    (node : Option Nat) : Option (List mx_hid_instance) :=
  if dev.flags &&& HID_FLAGS_DEAD = 0 then
    match dev.root with
    | none => none
    | some _ =>
      match node with
      | none => none
      | some i => some (list_delete instance_list i)
  else some instance_list

/-- The function `hid_open_device` on the device `hid` with registry
`instance_list`; `device_add_instance` is the status that call returns.  The
result is the status, the instance stored in `*dev_out` and the registry
afterwards; `none` is a fault inside `hid_cleanup_instance`, which is called
on the new instance before its node is added to the registry. -/
def hid_open_device (hid : mx_hid_device) (instance_list : List mx_hid_instance)
    (calloc_ok : Bool) (device_add_instance : mx_status_t) :
    Option (mx_status_t × Option mx_hid_instance × List mx_hid_instance) :=
  match (hid_create_instance calloc_ok).2 with
  | none => some (.ERR_NO_MEMORY, none, instance_list)
  | some inst =>
    if device_add_instance ≠ NO_ERROR then
      match hid_cleanup_instance instance_list inst none with
      | none => none
      | some l => some (device_add_instance, none, l)
    else
      some (NO_ERROR, some { inst with root := some hid },
        list_add_tail instance_list { inst with root := some hid })

/-! ## `hid.c`: the mutexes -/

/-- The mutexes that `hid.c` locks: `instance_lock` of the device, and the
`fifo.lock` of a reader instance, where `i` names the instance. -/
inductive lock_id
  | instance_lock
  | fifo_lock (i : Nat)
  deriving DecidableEq, Repr

/-- A call of `mtx_lock` or of `mtx_unlock`. -/
inductive lock_event
  | mtx_lock (l : lock_id)
  | mtx_unlock (l : lock_id)
  deriving DecidableEq, Repr

/-- The mutex calls of the loop of `hid_io_read`, in program order; the
argument names the registered instances in registry order. -/
def hid_io_read_loop_locks : List Nat → List lock_event
  | [] => []
  | i :: rest =>
    .mtx_lock (.fifo_lock i) :: .mtx_unlock (.fifo_lock i) :: hid_io_read_loop_locks rest

/-- The mutex calls of `hid_io_read`, in program order. -/
def hid_io_read_locks (registry : List Nat) : List lock_event :=
  [.mtx_lock .instance_lock] ++ hid_io_read_loop_locks registry
    ++ [.mtx_unlock .instance_lock]

/-- The mutex calls of `hid_io_closed`, in program order (its loop makes
none). -/
def hid_io_closed_locks : List lock_event :=
  [.mtx_lock .instance_lock, .mtx_unlock .instance_lock]

/-- The mutex calls of `hid_read_instance` on the instance named `i`. -/
def hid_read_instance_locks (i : Nat) (hid : mx_hid_instance) : List lock_event :=
  if hid.flags &&& HID_FLAGS_DEAD ≠ 0 then []
  else [.mtx_lock (.fifo_lock i), .mtx_unlock (.fifo_lock i)]

/-- The mutex calls of `hid_cleanup_instance`; `none` is the dereference of a
`NULL` root in the argument of `mtx_lock`. -/
def hid_cleanup_instance_locks (dev : mx_hid_instance) : Option (List lock_event) :=
  if dev.flags &&& HID_FLAGS_DEAD = 0 then
    match dev.root with
    | none => none
    | some _ => some [.mtx_lock .instance_lock, .mtx_unlock .instance_lock]
  else some []

/-- The mutex calls of `hid_open_device`, those of the `hid_cleanup_instance`
it calls included; `none` is a fault inside that call. -/
def hid_open_device_locks (calloc_ok : Bool) (device_add_instance : mx_status_t) :
    Option (List lock_event) :=
  match (hid_create_instance calloc_ok).2 with
  | none => some []
  | some inst =>
    if device_add_instance ≠ NO_ERROR then hid_cleanup_instance_locks inst
    else some [.mtx_lock .instance_lock, .mtx_unlock .instance_lock]

/-! ## Descriptors as sequences of short items -/

/-- A short item of a descriptor: its first octet and the payload octets
that follow it. -/
structure short_item where
  pfx : uint8_t
  payload : List uint8_t
  deriving DecidableEq, Repr

/-- The octets of an item in descriptor order. -/
def short_item.bytes (x : short_item) : List uint8_t :=
  x.pfx :: x.payload

/-- An item is complete when it has as many payload octets as its first
octet declares. -/
def short_item.complete (x : short_item) : Prop :=
  x.payload.length = item_bSize x.pfx

instance (x : short_item) : Decidable x.complete :=
  inferInstanceAs (Decidable (x.payload.length = item_bSize x.pfx))

/-- The descriptor made of the given items, in order. -/
def encode : List short_item → List uint8_t
  | [] => []
  | x :: xs => x.bytes ++ encode xs

/-- A trailing fragment: empty, or a first octet followed by fewer payload
octets than it declares. -/
def truncated (frag : List uint8_t) : Prop :=
  match frag with
  | [] => True
  | b :: pl => pl.length < item_bSize b

instance (frag : List uint8_t) : Decidable (truncated frag) := by
  unfold truncated; split <;> infer_instance

/-- The value the payload loop accumulates over the payload octets, starting
at loop counter `i` with accumulator `data`. -/
def payload_data : Nat → Nat → List uint8_t → Nat
  | _, data, [] => data
  | i, data, b :: rest => payload_data (i + 1) (data ||| shifted_octet b i) rest

/-- The `hid_item` that `hid_parse_short_item` produces for a complete item. -/
def item_of (x : short_item) : hid_item :=
  { bSize := item_bSize x.pfx, bType := item_bType x.pfx, bTag := item_bTag x.pfx,
    data := payload_data 0 0 x.payload }

/-- The interpreter loop at the level of items: the `switch` applied to each
item in turn until one of them returns. -/
def run_items (c : input_h) : List short_item → process_state → process_step
  | [], st => .cont st
  | x :: xs, st =>
    match hid_process_item c { st with item := item_of x } with
    | .ret status dev => .ret status dev
    | .cont st' => run_items c xs st'

/-- The state in which `hid_process_hid_report_desc` enters its loop. -/
def initial_state (dev : mx_hid_device) : process_state :=
  { item := ⟨0, 0, 0, 0⟩, rpt_size := 0, rpt_count := 0, rpt_id := 0, dev := dev }

/-- The header parameters with a 16-bit `input_report_size_t` and two-octet
request headers (an id octet and a type octet). -/
def cfg16 : input_h := ⟨.u16, 2, 2, 2⟩

/-- The header parameters with a 32-bit `input_report_size_t`. -/
def cfg32 : input_h := ⟨.u32, 2, 2, 2⟩

/-! ## The size table as a list of slots -/

/-- Find-or-claim followed by the addition, as one pass over the slots:
the new slots and the increment of `num_reports`, or `none` when no slot
holds the id and none is unset. -/
def slots_add (c : input_h) (r : Nat) (f : size_field) (inc : Nat) :
    List hid_report_size → Option (List hid_report_size × Nat)
  | [] => none
  | e :: rest =>
    if e.id = (r : Int) then some (add_to_field c f inc e :: rest, 0)
    else if e.id = -1 then some (add_to_field c f inc { e with id := (r : Int) } :: rest, 1)
    else
      match slots_add c r f inc rest with
      | none => none
      | some p => some (e :: p.1, p.2)

/-- The value of the accumulator `f` of a slot. -/
def field_of (f : size_field) (e : hid_report_size) : Nat :=
  match f with
  | .in_size => e.in_size
  | .out_size => e.out_size
  | .feat_size => e.feat_size

/-- The accumulator that a report type selects in `hid_get_report_size_by_id`. -/
def field_of_type : input_report_type_t → Option size_field
  | .INPUT_REPORT_INPUT => some .in_size
  | .INPUT_REPORT_OUTPUT => some .out_size
  | .INPUT_REPORT_FEATURE => some .feat_size
  | .other => none

/-- Bits recorded for report id `r` and accumulator `f` in a list of
allocated entries: those of the first entry with that id, zero without one. -/
def entry_bits (r : Nat) (f : size_field) : List hid_report_size → Nat
  | [] => 0
  | e :: rest => if e.id = (r : Int) then field_of f e else entry_bits r f rest

/-- The slot of a table that was never claimed. -/
def unset_slot : hid_report_size := ⟨-1, 0, 0, 0⟩

/-- The slot list of a table whose allocated entries are `es`: the entries,
then unset slots up to `HID_MAX_REPORT_IDS`. -/
def table_of (es : List hid_report_size) : List hid_report_size :=
  es ++ List.replicate (HID_MAX_REPORT_IDS - es.length) unset_slot

/-- Adding `inc` to accumulator `f` of report id `r` in a list of allocated
entries: the first entry with that id is updated, without one a new entry is
appended. -/
def entries_add (c : input_h) (r : Nat) (f : size_field) (inc : Nat) :
    List hid_report_size → List hid_report_size
  | [] => [add_to_field c f inc ⟨(r : Int), 0, 0, 0⟩]
  | e :: es =>
    if e.id = (r : Int) then add_to_field c f inc e :: es
    else e :: entries_add c r f inc es

/-! ## Reading a descriptor: registers and main items -/

/-- The three global registers of the interpreter. -/
structure registers where
  rpt_size : Nat
  rpt_count : Nat
  rpt_id : Nat
  deriving DecidableEq, Repr

/-- An item is a Global item with the given tag. -/
def is_global (x : short_item) (tag : Nat) : Prop :=
  item_bType x.pfx = HID_ITEM_TYPE_GLOBAL ∧ item_bTag x.pfx = tag

instance (x : short_item) (tag : Nat) : Decidable (is_global x tag) :=
  inferInstanceAs (Decidable (_ ∧ _))

/-- An item is a Push or a Pop global item. -/
def is_push_pop (x : short_item) : Prop :=
  is_global x HID_ITEM_GLOBAL_TAG_PUSH ∨ is_global x HID_ITEM_GLOBAL_TAG_POP

instance (x : short_item) : Decidable (is_push_pop x) :=
  inferInstanceAs (Decidable (_ ∨ _))

/-- The accumulator an Input, Output or Feature main item adds to; `none`
for every other item. -/
def main_field (x : short_item) : Option size_field :=
  if item_bType x.pfx = HID_ITEM_TYPE_MAIN then
    if item_bTag x.pfx = HID_ITEM_MAIN_TAG_INPUT then some .in_size
    else if item_bTag x.pfx = HID_ITEM_MAIN_TAG_OUTPUT then some .out_size
    else if item_bTag x.pfx = HID_ITEM_MAIN_TAG_FEATURE then some .feat_size
    else none
  else none

/-- Effect of one item on the registers: Report Size, Report ID and Report
Count global items store their payload value, every other item keeps them. -/
def registers.step (r : registers) (x : short_item) : registers :=
  if is_global x HID_ITEM_GLOBAL_TAG_REPORT_SIZE then
    { r with rpt_size := (item_of x).data % 2 ^ 32 }
  else if is_global x HID_ITEM_GLOBAL_TAG_REPORT_ID then
    { r with rpt_id := to_report_id (item_of x).data }
  else if is_global x HID_ITEM_GLOBAL_TAG_REPORT_COUNT then
    { r with rpt_count := (item_of x).data % 2 ^ 32 }
  else r

/-- An Input, Output or Feature item met while reading a descriptor: the id
register at that item, the kind, and `report_size * report_count` of the
registers at that item (the exact product). -/
structure main_event where
  id : Nat
  field : size_field
  bits : Nat
  deriving DecidableEq, Repr

/-- The Input, Output and Feature items of a sequence of items, in order,
each with the register values current at it. -/
def main_events : registers → List short_item → List main_event
  | _, [] => []
  | r, x :: xs =>
    match main_field x with
    | some f => ⟨r.rpt_id, f, r.rpt_size * r.rpt_count⟩ :: main_events r xs
    | none => main_events (r.step x) xs

/-- The registers at the start of `hid_process_hid_report_desc`. -/
def registers.zero : registers := ⟨0, 0, 0⟩

/-- The sum over the main items of kind `f` processed while the id register
was `r` of `report_size * report_count`. -/
def report_bits (evs : List main_event) (r : Nat) (f : size_field) : Nat :=
  ((evs.filter fun e => e.id = r ∧ e.field = f).map fun e => e.bits).sum

/-- The number of distinct report ids under which main items occur. -/
def distinct_ids (evs : List main_event) : Nat :=
  (evs.map fun e => e.id).toFinset.card

/-! ## The table invariant and the reach of the interpreter -/

/-- The registers held in an interpreter state. -/
def regs_of (st : process_state) : registers :=
  ⟨st.rpt_size, st.rpt_count, st.rpt_id⟩

/-- The table invariant after the main items `evs` have been processed: the
slots are the allocated entries followed by unset slots, `num_reports` counts
the entries, the entries carry pairwise distinct ids, namely the ids of `evs`,
and every accumulator holds the sum of its increments reduced to the size
type. -/
def table_inv (c : input_h) (dev : mx_hid_device) (evs : List main_event) : Prop :=
  ∃ es : List hid_report_size,
    dev.sizes = table_of es ∧
    es.length ≤ HID_MAX_REPORT_IDS ∧
    dev.num_reports = es.length ∧
    es.length = distinct_ids evs ∧
    (es.map fun e => e.id).Nodup ∧
    (∀ x : Int, x ∈ (es.map fun e => e.id) ↔ ∃ ev ∈ evs, x = (ev.id : Int)) ∧
    (∀ ev ∈ evs, ev.id < 256) ∧
    ∀ r f, entry_bits r f es = report_bits evs r f % 2 ^ c.report_size.bits

/-- The device a pass of the interpreter leaves behind, whether it returned
or ran on. -/
def process_step.dev : process_step → mx_hid_device
  | .ret _ dev => dev
  | .cont st => st.dev

/-- The items in front of the first Push/Pop item: those the interpreter can
reach. -/
def reached_items (items : List short_item) : List short_item :=
  items.takeWhile fun x => decide (¬ is_push_pop x)

/-! ## Reference devices and the replies of the queries -/

/-- A device of class `cls` whose table holds exactly one entry: report id 0
with 24 input bits and no output or feature bits. -/
def one_report_device (b : Bool) (cls : Nat) (desc : List uint8_t) : mx_hid_device :=
  { boot_device := b, dev_class := cls, hid_report_desc := desc, num_reports := 1,
    sizes := table_of [⟨0, 24, 0, 0⟩] }

/-- A pointer-class device whose table is full: sixteen entries with the ids
1, ..., 16 and 8 input bits each. -/
def full_pointer_device : mx_hid_device :=
  { boot_device := true, dev_class := HID_DEV_CLASS_POINTER, hid_report_desc := [],
    num_reports := 16,
    sizes := (List.range 16).map fun i => ⟨(i : Int) + 1, 8, 0, 0⟩ }

/-- The size of the reply of a query served by `hid_ioctl_instance`, which
the caller's output buffer has to hold. -/
def reply_size (c : input_h) (root : mx_hid_device) (op : ioctl_op) (inp : input_request) :
    Nat :=
  match op with
  | .IOCTL_INPUT_GET_PROTOCOL => sizeof_int
  | .IOCTL_INPUT_GET_REPORT_DESC_SIZE => sizeof_size_t
  | .IOCTL_INPUT_GET_REPORT_DESC => root.hid_report_desc.length
  | .IOCTL_INPUT_GET_NUM_REPORTS => sizeof_size_t
  | .IOCTL_INPUT_GET_REPORT_IDS =>
    if root.dev_class = HID_DEV_CLASS_POINTER then sizeof_report_id
    else root.num_reports * sizeof_report_id
  | .IOCTL_INPUT_GET_REPORT_SIZE => sizeof_report_size c
  | .IOCTL_INPUT_GET_MAX_REPORTSIZE => sizeof_report_size c
  | .IOCTL_INPUT_GET_REPORT => hid_get_report_size_by_id c root inp.id.val inp.type
  | .IOCTL_INPUT_SET_REPORT => 0
  | .other => 0

/-- The slots of a table that hold an id, in slot order. -/
def allocated (sizes : List hid_report_size) : List hid_report_size :=
  sizes.filter fun e => decide (e.id ≠ -1)

/-! ## Reachable tables, traces and ignored items -/

/-- The table of `d` consists of the allocated entries `es`, in slot order,
followed by unset slots; `num_reports` counts them and their ids are
non-negative and pairwise distinct. -/
def table_rep (d : mx_hid_device) (es : List hid_report_size) : Prop :=
  d.sizes = table_of es ∧ es.length ≤ HID_MAX_REPORT_IDS ∧ d.num_reports = es.length ∧
  (∀ e ∈ es, 0 ≤ e.id) ∧ (es.map fun e => e.id).Nodup

/-- The tables reachable from the one built by `hid_create_device` by calls to
`hid_find_report_id` with report ids 0..255. -/
inductive find_reachable : mx_hid_device → Prop
  | create (b : Bool) (cls : Nat) : find_reachable (hid_create_device b cls)
  | find (d : mx_hid_device) (r : Nat) :
      find_reachable d → r < 256 → find_reachable (hid_find_report_id r d).2

/-- The relation `table_evolves c d d'`: the device `d'` is reached from `d`
by any number of `hid_find_report_id` calls and passes through the `switch`
of the interpreter (for any item and any register values). -/
inductive table_evolves (c : input_h) : mx_hid_device → mx_hid_device → Prop
  | refl (d : mx_hid_device) : table_evolves c d d
  | find (d d' : mx_hid_device) (r : Nat) :
      table_evolves c d d' → table_evolves c d (hid_find_report_id r d').2
  | item (d : mx_hid_device) (st : process_state) :
      table_evolves c d st.dev → table_evolves c d (hid_process_item c st).dev

/-- Every slot of `d` that holds an id holds the same id in `d'`. -/
def ids_kept (d d' : mx_hid_device) : Prop :=
  ∀ (i : Nat) (e : hid_report_size), d.sizes[i]? = some e → e.id ≠ -1 →
    ∃ e', d'.sizes[i]? = some e' ∧ e'.id = e.id

/-- The devices the interpreter loop leaves behind after each of its
iterations, in order (same recursion as `hid_process_loop`). -/
def hid_process_devs_loop (c : input_h) (desc : List uint8_t) :
    Nat → Nat → process_state → List mx_hid_device
  | 0, _, _ => []
  | fuel + 1, buf, st =>
    if buf < desc.length then
      match hid_parse_short_item desc buf st.item with
      | none => []
      | some (buf', item) =>
        match hid_process_item c { st with item := item } with
        | .ret _ dev => [dev]
        | .cont st' => st'.dev :: hid_process_devs_loop c desc fuel buf' st'
    else []

/-- The devices `hid_process_hid_report_desc` leaves behind after each
iteration of its loop. -/
def hid_process_devs (c : input_h) (dev : mx_hid_device) : List mx_hid_device :=
  hid_process_devs_loop c dev.hid_report_desc dev.hid_report_desc.length 0 (initial_state dev)

/-- The status and device with which the interpreter ends when the item-level
loop ends in the given way. -/
def process_step.outcome : process_step → mx_status_t × mx_hid_device
  | .ret status dev => (status, dev)
  | .cont st => (NO_ERROR, st.dev)

/-- An item the interpreter ignores: a Local item, an item of the Reserved
type, a Main item whose tag is not Input/Output/Feature, or a Global item
whose tag is not Report Size/Report ID/Report Count/Push/Pop. -/
def is_ignored (x : short_item) : Prop :=
  item_bType x.pfx = HID_ITEM_TYPE_LOCAL ∨ item_bType x.pfx = 3 ∨
  (item_bType x.pfx = HID_ITEM_TYPE_MAIN ∧
    item_bTag x.pfx ≠ HID_ITEM_MAIN_TAG_INPUT ∧ item_bTag x.pfx ≠ HID_ITEM_MAIN_TAG_OUTPUT ∧
    item_bTag x.pfx ≠ HID_ITEM_MAIN_TAG_FEATURE) ∨
  (item_bType x.pfx = HID_ITEM_TYPE_GLOBAL ∧
    item_bTag x.pfx ≠ HID_ITEM_GLOBAL_TAG_REPORT_SIZE ∧
    item_bTag x.pfx ≠ HID_ITEM_GLOBAL_TAG_REPORT_ID ∧
    item_bTag x.pfx ≠ HID_ITEM_GLOBAL_TAG_REPORT_COUNT ∧
    item_bTag x.pfx ≠ HID_ITEM_GLOBAL_TAG_PUSH ∧ item_bTag x.pfx ≠ HID_ITEM_GLOBAL_TAG_POP)

instance (x : short_item) : Decidable (is_ignored x) := by
  unfold is_ignored; infer_instance

/-- The little-endian unsigned value of payload octets `b0, b1, ...`: the sum
of `b_i * 256 ^ i`. -/
def le_value : List uint8_t → Nat
  | [] => 0
  | b :: rest => b.val + 256 * le_value rest

/-- The value of an `int64_t` bit pattern as a signed integer. -/
def int64_value (pattern : Nat) : Int :=
  if pattern % 2 ^ 64 < 2 ^ 63 then (pattern % 2 ^ 64 : Nat) else (pattern % 2 ^ 64 : Nat) - 2 ^ 64

/-- The outcome of a pass of the interpreter with the descriptor field of the
device it carries replaced by `desc`. -/
def process_step.set_desc (desc : List uint8_t) : process_step → process_step
  | .ret status dev => .ret status { dev with hid_report_desc := desc }
  | .cont st => .cont { st with dev := { st.dev with hid_report_desc := desc } }

/-- A Report Size item with the four payload octets `00 00 00 80`. -/
def high_octet_item : short_item := ⟨0x77, [0x00, 0x00, 0x00, 0x80]⟩

/-- A call made on an open reader instance: a delivery of a payload by
`hid_io_read`, or a `hid_read_instance` asking for `count` octets. -/
inductive reader_op
  | deliver (buf : List uint8_t)
  | read (count : Nat)
  deriving DecidableEq, Repr

/-- The instance after one call. -/
def run_reader_op (ops : fifo_h) (inst : mx_hid_instance) : reader_op → mx_hid_instance
  | .deliver buf => hid_io_read_instance ops buf inst
  | .read count => (hid_read_instance ops inst count).2.2

/-- The instance after a sequence of calls, in order. -/
def run_reader_ops (ops : fifo_h) (inst : mx_hid_instance) (calls : List reader_op) :
    mx_hid_instance :=
  calls.foldl (run_reader_op ops) inst

/-- The readiness invariant of an instance: the signal is set if and only if
the FIFO holds octets. -/
def readable_iff_data (ops : fifo_h) (inst : mx_hid_instance) : Prop :=
  inst.readable = true ↔ 0 < ops.size inst.fifo

/-- Whether a mutex is the lock of a FIFO. -/
def lock_id.is_fifo : lock_id → Bool
  | .fifo_lock _ => true
  | .instance_lock => false

/-- The lock discipline of a sequence of mutex calls made while `held` is
held: a mutex is locked either while nothing is held, or it is a FIFO lock
and only `instance_lock` is held; a mutex that is unlocked is held; and at
the end nothing is held. -/
def lock_discipline : List lock_id → List lock_event → Prop
  | held, [] => held = []
  | held, .mtx_lock l :: rest =>
    (held = [] ∨ (l.is_fifo = true ∧ ∀ h ∈ held, h.is_fifo = false)) ∧
      lock_discipline (l :: held) rest
  | held, .mtx_unlock l :: rest => l ∈ held ∧ lock_discipline (held.erase l) rest

/-- Every call of the sequence is on the mutex `l`. -/
def only_lock (l : lock_id) (calls : List lock_event) : Prop :=
  ∀ e ∈ calls, e = .mtx_lock l ∨ e = .mtx_unlock l

/-- A thread: the mutexes it holds and the mutex calls it has yet to make. -/
structure thread where
  held : List lock_id
  rest : List lock_event
  deriving DecidableEq, Repr

/-- Thread `i` makes its next mutex call: `mtx_lock` goes through when no
thread holds the mutex (the mutexes are `mtx_plain`), `mtx_unlock` always;
`none` when the thread is blocked, finished or absent. -/
def thread_step (ts : List thread) (i : Nat) : Option (List thread) :=
  match ts[i]? with
  | none => none
  | some t =>
    match t.rest with
    | [] => none
    | .mtx_lock l :: rest =>
      if ts.any (fun u => decide (l ∈ u.held)) then none
      else some (ts.set i ⟨l :: t.held, rest⟩)
    | .mtx_unlock l :: rest => some (ts.set i ⟨t.held.erase l, rest⟩)

/-- The states of the threads reachable from `ts0` by interleaved steps. -/
inductive reachable (ts0 : List thread) : List thread → Prop
  | start : reachable ts0 ts0
  | step (ts ts' : List thread) (i : Nat) :
      reachable ts0 ts → thread_step ts i = some ts' → reachable ts0 ts'

/-- The mutex calls of a sequence of calls of `hid_io_read`, `hid_io_closed`,
`hid_read_instance`, `hid_open_device` and `hid_cleanup_instance` that
return. -/
inductive core_calls : List lock_event → Prop
  | done : core_calls []
  | deliver (registry : List Nat) (t : List lock_event) :
      core_calls t → core_calls (hid_io_read_locks registry ++ t)
  | detach (t : List lock_event) : core_calls t → core_calls (hid_io_closed_locks ++ t)
  | read (i : Nat) (hid : mx_hid_instance) (t : List lock_event) :
      core_calls t → core_calls (hid_read_instance_locks i hid ++ t)
  | close (dev : mx_hid_instance) (tr t : List lock_event) :
      hid_cleanup_instance_locks dev = some tr → core_calls t → core_calls (tr ++ t)
  | opened (calloc_ok : Bool) (status : mx_status_t) (tr t : List lock_event) :
      hid_open_device_locks calloc_ok status = some tr → core_calls t → core_calls (tr ++ t)

/-! ## Example descriptors -/

/-- The descriptor `95 03 75 08 81 02`: Report Count 3, Report Size 8, Input. -/
def example_items : List short_item :=
  [⟨0x95, [0x03]⟩, ⟨0x75, [0x08]⟩, ⟨0x81, [0x02]⟩]

/-- Report Size `0x10000`, Report Count `0x10000`, Input: a report of `2 ^ 32`
bits. -/
def overflow_items : List short_item :=
  [⟨0x77, [0x00, 0x00, 0x01, 0x00]⟩, ⟨0x97, [0x00, 0x00, 0x01, 0x00]⟩, ⟨0x81, [0x02]⟩]

/-- Seventeen Input items, each under its own report id 1, ..., 17. -/
def seventeen_ids_items : List short_item :=
  [
    ⟨0x85, [1]⟩, ⟨0x81, [0x02]⟩, ⟨0x85, [2]⟩, ⟨0x81, [0x02]⟩, ⟨0x85, [3]⟩, ⟨0x81, [0x02]⟩,
    ⟨0x85, [4]⟩, ⟨0x81, [0x02]⟩, ⟨0x85, [5]⟩, ⟨0x81, [0x02]⟩, ⟨0x85, [6]⟩, ⟨0x81, [0x02]⟩,
    ⟨0x85, [7]⟩, ⟨0x81, [0x02]⟩, ⟨0x85, [8]⟩, ⟨0x81, [0x02]⟩, ⟨0x85, [9]⟩, ⟨0x81, [0x02]⟩,
    ⟨0x85, [10]⟩, ⟨0x81, [0x02]⟩, ⟨0x85, [11]⟩, ⟨0x81, [0x02]⟩, ⟨0x85, [12]⟩, ⟨0x81, [0x02]⟩,
    ⟨0x85, [13]⟩, ⟨0x81, [0x02]⟩, ⟨0x85, [14]⟩, ⟨0x81, [0x02]⟩, ⟨0x85, [15]⟩, ⟨0x81, [0x02]⟩,
    ⟨0x85, [16]⟩, ⟨0x81, [0x02]⟩, ⟨0x85, [17]⟩, ⟨0x81, [0x02]⟩
  ]

/-- An example of the FIFO functions: a queue of at most four octets; a write
that does not fit stores nothing and returns 0. -/
def small_fifo : fifo_h where
  read f count := (.ok (min count f.buf.length), f.buf.take count, ⟨f.buf.drop count⟩)
  write f buf :=
    if f.buf.length + buf.length ≤ 4 then (.ok buf.length, ⟨f.buf ++ buf⟩) else (.ok 0, f)
  size f := f.buf.length

/-- A reader instance whose FIFO of four octets is full. -/
def full_reader : mx_hid_instance := ⟨none, 0, ⟨[1, 2, 3, 4]⟩, true⟩

/-- A reader instance whose FIFO is empty. -/
def idle_reader : mx_hid_instance := ⟨none, 0, ⟨[]⟩, false⟩

/-- Replies of a bus on which only the descriptor fetch fails. -/
def failing_fetch_bus : bus_replies :=
  ⟨NO_ERROR, NO_ERROR, NO_ERROR, .ERR_NO_MEMORY, [], NO_ERROR, NO_ERROR, NO_ERROR⟩

/-- The interpreter state holding a just parsed Input item `81 02` on a fresh
device. -/
def input_item_state : process_state :=
  { initial_state (hid_create_device false HID_DEV_CLASS_OTHER) with
    item := item_of ⟨0x81, [0x02]⟩ }

/-- Two threads about to run: one delivers to the instances 0 and 1, the other
reads from instance 0. -/
def deliver_and_read : List thread :=
  [⟨[], hid_io_read_locks [0, 1]⟩, ⟨[], hid_read_instance_locks 0 idle_reader⟩]

/-- The state of `deliver_and_read` after the delivering thread has locked
`instance_lock` and the FIFO lock of instance 0: the reading thread is
blocked. -/
def deliver_holds_fifo : List thread :=
  [⟨[.fifo_lock 0, .instance_lock],
      [.mtx_unlock (.fifo_lock 0), .mtx_lock (.fifo_lock 1), .mtx_unlock (.fifo_lock 1),
        .mtx_unlock .instance_lock]⟩,
    ⟨[], [.mtx_lock (.fifo_lock 0), .mtx_unlock (.fifo_lock 0)]⟩]

theorem item_bSize_le (b : uint8_t) : item_bSize b ≤ 4 := by
  unfold item_bSize; split <;> omega

theorem encode_append (xs ys : List short_item) :
    encode (xs ++ ys) = encode xs ++ encode ys := by
  induction xs with
  | nil => rfl
  | cons x xs ih => simp [encode, ih]

theorem length_le_encode (xs : List short_item) : xs.length ≤ (encode xs).length := by
  induction xs with
  | nil => simp [encode]
  | cons x xs ih => simp [encode, short_item.bytes]; omega

theorem getElem?_append_cons_length {α : Type} (pre tl : List α) (b : α) :
    (pre ++ b :: tl)[pre.length]? = some b := by
  rw [List.getElem?_append_right (le_refl _)]
  simp

/-- The payload loop reads exactly the payload octets placed at its offset. -/
theorem hid_parse_payload_append (pre pl rest : List uint8_t) (i data : Nat) :
    hid_parse_payload (pre ++ pl ++ rest) pl.length i pre.length data
      = some (pre.length + pl.length, payload_data i data pl) := by
  induction pl generalizing pre i data with
  | nil => simp [hid_parse_payload, payload_data]
  | cons b pl ih =>
    have h1 : (pre ++ b :: pl ++ rest)[pre.length]? = some b := by
      rw [List.append_assoc]
      exact getElem?_append_cons_length pre (pl ++ rest) b
    simp only [List.length_cons, hid_parse_payload, h1, payload_data]
    have h2 := ih (pre ++ [b]) (i + 1) (data ||| shifted_octet b i)
    simp only [List.append_assoc, List.singleton_append, List.length_append,
      List.length_singleton] at h2
    simp only [List.append_assoc, List.cons_append] at h2 ⊢
    rw [h2]
    congr 2
    omega

/-- Parsing at the offset of a complete item yields that item and the offset
just behind it, whatever follows. -/
theorem hid_parse_short_item_complete (pre rest : List uint8_t) (x : short_item)
    (hx : x.complete) (item : hid_item) :
    hid_parse_short_item (pre ++ x.bytes ++ rest) pre.length item
      = some (pre.length + x.bytes.length, item_of x) := by
  unfold short_item.complete at hx
  have h1 : (pre ++ x.bytes ++ rest)[pre.length]? = some x.pfx := by
    rw [List.append_assoc]
    exact getElem?_append_cons_length pre (x.payload ++ rest) x.pfx
  have h2 : ¬ (pre.length + item_bSize x.pfx ≥ (pre ++ x.bytes ++ rest).length) := by
    simp [short_item.bytes]; omega
  have h3 := hid_parse_payload_append (pre ++ [x.pfx]) x.payload rest 0 0
  simp only [List.length_append, List.length_singleton, List.append_assoc,
    List.singleton_append] at h3
  unfold hid_parse_short_item
  simp only [h1, h2, if_false]
  rw [← hx]
  simp only [short_item.bytes, List.append_assoc, List.cons_append] at h3 ⊢
  rw [h3]
  simp [item_of, hx]
  omega

/-- Parsing at the offset of a trailing fragment yields a Reserved item and
the end offset, and keeps the `data` of the previous item. -/
theorem hid_parse_short_item_truncated (pre pl : List uint8_t) (b : uint8_t)
    (h : pl.length < item_bSize b) (item : hid_item) :
    hid_parse_short_item (pre ++ b :: pl) pre.length item
      = some ((pre ++ b :: pl).length,
          { bSize := item_bSize b, bType := 0x03, bTag := item_bTag b, data := item.data }) := by
  have h1 : (pre ++ b :: pl)[pre.length]? = some b :=
    getElem?_append_cons_length pre pl b
  have h2 : pre.length + item_bSize b ≥ (pre ++ b :: pl).length := by
    simp; omega
  unfold hid_parse_short_item
  simp only [h1, h2, if_true]

/-- At or past the end of the descriptor the loop returns `NO_ERROR`. -/
theorem hid_process_loop_at_end (c : input_h) (desc : List uint8_t) (fuel buf : Nat)
    (st : process_state) (h : desc.length ≤ buf) :
    hid_process_loop c desc fuel buf st = some (NO_ERROR, st.dev) := by
  have h' : ¬ buf < desc.length := by omega
  cases fuel <;> simp [hid_process_loop, h']

/-- A Reserved item changes nothing but the `item` local. -/
theorem hid_process_item_reserved (c : input_h) (st : process_state)
    (h : st.item.bType = 3) : hid_process_item c st = .cont st := by
  simp [hid_process_item, h, HID_ITEM_TYPE_MAIN, HID_ITEM_TYPE_GLOBAL]

/-- The loop over the octets of complete items is the item-level loop. -/
theorem hid_process_loop_items (c : input_h) (items : List short_item)
    (hc : ∀ x ∈ items, x.complete) (pre rest : List uint8_t) (k : Nat) (st : process_state) :
    hid_process_loop c (pre ++ encode items ++ rest) (items.length + k) pre.length st =
      match run_items c items st with
      | .ret status dev => some (status, dev)
      | .cont st' =>
        hid_process_loop c (pre ++ encode items ++ rest) k
          (pre.length + (encode items).length) st' := by
  induction items generalizing pre st with
  | nil => simp [run_items, encode]
  | cons x xs ih =>
    have hx : x.complete := hc x (List.mem_cons_self _ _)
    have hxs : ∀ y ∈ xs, y.complete := fun y hy => hc y (List.mem_cons_of_mem _ hy)
    have hfuel : (x :: xs).length + k = (xs.length + k) + 1 := by
      simp only [List.length_cons]; omega
    have hdesc : pre ++ encode (x :: xs) ++ rest = pre ++ x.bytes ++ (encode xs ++ rest) := by
      simp [encode, List.append_assoc]
    have hlt : pre.length < (pre ++ x.bytes ++ (encode xs ++ rest)).length := by
      simp [short_item.bytes]
    rw [hfuel, hdesc]
    simp only [hid_process_loop, hlt, if_true,
      hid_parse_short_item_complete pre (encode xs ++ rest) x hx st.item, run_items]
    cases hstep : hid_process_item c { st with item := item_of x } with
    | ret status dev => simp
    | cont st' =>
      have h := ih hxs (pre ++ x.bytes) st'
      simp only [List.length_append, List.append_assoc] at h ⊢
      simp only [encode, List.length_append, List.append_assoc]
      rw [h]
      cases run_items c xs st' with
      | ret status dev => simp
      | cont st2 =>
        simp only
        congr 1
        omega

/-- The interpreter on complete items followed by a trailing fragment: the
item-level loop decides the result, the fragment contributes nothing. -/
theorem hid_process_loop_encode (c : input_h) (items : List short_item)
    (hc : ∀ x ∈ items, x.complete) (frag : List uint8_t) (hf : truncated frag)
    (st : process_state) :
    hid_process_loop c (encode items ++ frag) (encode items ++ frag).length 0 st =
      match run_items c items st with
      | .ret status dev => some (status, dev)
      | .cont st' => some (NO_ERROR, st'.dev) := by
  have hlen : (encode items ++ frag).length
      = items.length + ((encode items).length - items.length + frag.length) := by
    have := length_le_encode items
    simp; omega
  have h := hid_process_loop_items c items hc [] frag
    ((encode items).length - items.length + frag.length) st
  simp only [List.nil_append, List.length_nil, Nat.zero_add] at h
  rw [hlen, h]
  cases run_items c items st with
  | ret status dev => rfl
  | cont st' =>
    simp only
    cases frag with
    | nil => exact hid_process_loop_at_end c _ _ _ st' (by simp)
    | cons b pl =>
      have hf' : pl.length < item_bSize b := hf
      have hfuel : (encode items).length - items.length + (b :: pl).length
          = ((encode items).length - items.length + pl.length) + 1 := by simp; omega
      have hlt : (encode items).length < (encode items ++ b :: pl).length := by simp
      rw [hfuel]
      simp only [hid_process_loop, hlt, if_true,
        hid_parse_short_item_truncated (encode items) pl b hf' st'.item]
      rw [hid_process_item_reserved c _ rfl]
      simp only
      exact hid_process_loop_at_end c _ _ _ _ (le_refl _)

/-- Every octet sequence is a sequence of complete items followed by a
trailing fragment. -/
theorem exists_items (desc : List uint8_t) :
    ∃ items frag, desc = encode items ++ frag ∧ (∀ x ∈ items, x.complete) ∧ truncated frag := by
  suffices H : ∀ n (d : List uint8_t), d.length ≤ n →
      ∃ items frag, d = encode items ++ frag ∧ (∀ x ∈ items, x.complete) ∧ truncated frag from
    H desc.length desc (le_refl _)
  intro n
  induction n with
  | zero =>
    intro d hd
    have : d = [] := List.length_eq_zero.mp (by omega)
    subst this
    exact ⟨[], [], rfl, by simp, trivial⟩
  | succ n ih =>
    intro d hd
    cases d with
    | nil => exact ⟨[], [], rfl, by simp, trivial⟩
    | cons b tl =>
      by_cases hb : tl.length < item_bSize b
      · exact ⟨[], b :: tl, rfl, by simp, hb⟩
      · have hlen : (tl.drop (item_bSize b)).length ≤ n := by
          simp only [List.length_cons] at hd
          simp only [List.length_drop]; omega
        obtain ⟨items, frag, he, hc, hf⟩ := ih (tl.drop (item_bSize b)) hlen
        refine ⟨⟨b, tl.take (item_bSize b)⟩ :: items, frag, ?_, ?_, hf⟩
        · simp only [encode, short_item.bytes, List.cons_append, List.append_assoc]
          rw [← he, List.take_append_drop]
        · intro x hx
          rcases List.mem_cons.mp hx with rfl | hx
          · simp only [short_item.complete, List.length_take]; omega
          · exact hc x hx

/-! ## The table operations on slot lists -/

theorem modify_append_cons {α : Type} (f : α → α) (pre tl : List α) (e : α) :
    (pre ++ e :: tl).modify f pre.length = pre ++ f e :: tl := by
  induction pre with
  | nil => rfl
  | cons a pre ih => simp [ih]

theorem set_append_cons {α : Type} (pre tl : List α) (e e' : α) :
    (pre ++ e :: tl).set pre.length e' = pre ++ e' :: tl := by
  induction pre with
  | nil => rfl
  | cons a pre ih => simp [ih]

/-- The loop of `hid_find_report_id` followed by the addition to the slot it
returns is `slots_add` on the slots still to visit. -/
theorem hid_find_report_id_loop_spec (c : input_h) (r : Nat) (f : size_field) (inc : Nat)
    (dev : mx_hid_device) (rest pre : List hid_report_size) (h : dev.sizes = pre ++ rest) :
    match slots_add c r f inc rest with
    | none => hid_find_report_id_loop r dev pre.length rest = (-1, dev)
    | some p =>
      0 ≤ (hid_find_report_id_loop r dev pre.length rest).1 ∧
      { (hid_find_report_id_loop r dev pre.length rest).2 with
        sizes := (hid_find_report_id_loop r dev pre.length rest).2.sizes.modify
          (add_to_field c f inc) (hid_find_report_id_loop r dev pre.length rest).1.toNat }
        = { dev with sizes := pre ++ p.1, num_reports := dev.num_reports + p.2 } := by
  induction rest generalizing pre with
  | nil => simp [slots_add, hid_find_report_id_loop]
  | cons e rest ih =>
    by_cases h1 : e.id = (r : Int)
    · simp only [slots_add, hid_find_report_id_loop]
      rw [if_pos h1, if_pos h1]
      refine ⟨by simp, ?_⟩
      simp only [Int.toNat_ofNat, h]
      rw [modify_append_cons]
      rfl
    · by_cases h2 : e.id = -1
      · simp only [slots_add, hid_find_report_id_loop]
        rw [if_neg h1, if_pos h2, if_neg h1, if_pos h2]
        refine ⟨by simp, ?_⟩
        simp only [Int.toNat_ofNat, h]
        rw [set_append_cons, modify_append_cons]
      · have h' : dev.sizes = (pre ++ [e]) ++ rest := by simp [h]
        have := ih (pre ++ [e]) h'
        simp only [List.length_append, List.length_singleton] at this
        simp only [slots_add, hid_find_report_id_loop]
        rw [if_neg h1, if_neg h2, if_neg h1, if_neg h2]
        cases hs : slots_add c r f inc rest with
        | none => simpa [hs] using this
        | some p => simpa [hs] using this

/-- The Input, Output and Feature cases of the interpreter in terms of
`slots_add`. -/
theorem hid_process_main_eq (c : input_h) (f : size_field) (inc : Nat) (st : process_state) :
    hid_process_main c f inc st =
      match slots_add c st.rpt_id f inc st.dev.sizes with
      | none => .ret .ERR_NOT_SUPPORTED st.dev
      | some p =>
        .cont { st with
          dev := { st.dev with sizes := p.1, num_reports := st.dev.num_reports + p.2 } } := by
  have h := hid_find_report_id_loop_spec c st.rpt_id f inc st.dev st.dev.sizes [] rfl
  unfold hid_process_main hid_find_report_id
  simp only [List.length_nil, List.nil_append] at h
  cases hs : slots_add c st.rpt_id f inc st.dev.sizes with
  | none =>
    simp only [hs] at h
    simp [h]
  | some p =>
    simp only [hs] at h
    obtain ⟨h0, h1⟩ := h
    have h0' : ¬ (hid_find_report_id_loop st.rpt_id st.dev 0 st.dev.sizes).1 < 0 := by omega
    simp only [h0', if_false]
    rw [h1]

theorem add_to_field_id (c : input_h) (f : size_field) (inc : Nat) (e : hid_report_size) :
    (add_to_field c f inc e).id = e.id := by
  cases f <;> rfl

theorem field_of_add_to_field (c : input_h) (f g : size_field) (inc : Nat)
    (e : hid_report_size) :
    field_of g (add_to_field c f inc e)
      = if g = f then to_report_size c (field_of f e + inc) else field_of g e := by
  cases f <;> cases g <;> simp [field_of, add_to_field]

/-- On a table with entries `es` and `k` unset slots behind them, `slots_add`
updates or appends in `es`, and fails only when the id is new and `k = 0`. -/
theorem slots_add_table (c : input_h) (r : Nat) (f : size_field) (inc : Nat)
    (es : List hid_report_size) (k : Nat) (hes : ∀ e ∈ es, e.id ≠ -1) :
    slots_add c r f inc (es ++ List.replicate k unset_slot) =
      if (r : Int) ∈ (es.map fun e => e.id) then
        some (entries_add c r f inc es ++ List.replicate k unset_slot, 0)
      else if k = 0 then none
      else some (entries_add c r f inc es ++ List.replicate (k - 1) unset_slot, 1) := by
  induction es with
  | nil =>
    cases k with
    | zero => simp [slots_add]
    | succ k =>
      have h1 : ¬ unset_slot.id = (r : Int) := by
        simp only [unset_slot]; omega
      have h2 : unset_slot.id = -1 := rfl
      simp only [List.nil_append, List.replicate_succ, slots_add, List.map_nil,
        List.not_mem_nil, if_false, entries_add]
      rw [if_neg h1, if_pos h2]
      simp [unset_slot]
  | cons e es ih =>
    have he : e.id ≠ -1 := hes e (List.mem_cons_self _ _)
    have hes' : ∀ e' ∈ es, e'.id ≠ -1 := fun e' h => hes e' (List.mem_cons_of_mem _ h)
    by_cases h1 : e.id = (r : Int)
    · simp only [List.cons_append, slots_add, entries_add, List.map_cons, List.mem_cons,
        List.append_eq]
      rw [if_pos h1, if_pos (Or.inl h1.symm), if_pos h1]
      rfl
    · have h1' : ¬ (r : Int) = e.id := fun h => h1 h.symm
      simp only [List.cons_append, slots_add, entries_add, List.map_cons, List.mem_cons,
        List.append_eq]
      rw [if_neg h1, if_neg he, if_neg h1, ih hes']
      by_cases h3 : (r : Int) ∈ (es.map fun e => e.id)
      · simp [h3]
      · by_cases h4 : k = 0
        · simp [h3, h4, h1']
        · simp [h3, h4, h1']

theorem entries_add_ids (c : input_h) (r : Nat) (f : size_field) (inc : Nat)
    (es : List hid_report_size) :
    ((entries_add c r f inc es).map fun e => e.id) =
      if (r : Int) ∈ (es.map fun e => e.id) then (es.map fun e => e.id)
      else (es.map fun e => e.id) ++ [(r : Int)] := by
  induction es with
  | nil => simp [entries_add, add_to_field_id]
  | cons e es ih =>
    by_cases h1 : e.id = (r : Int)
    · simp [entries_add, h1, add_to_field_id]
    · have h1' : ¬ (r : Int) = e.id := fun h => h1 h.symm
      simp only [entries_add, if_neg h1, List.map_cons, ih, List.mem_cons, h1', false_or]
      split <;> simp

theorem entry_bits_entries_add (c : input_h) (r : Nat) (f : size_field) (inc : Nat)
    (es : List hid_report_size) (r' : Nat) (f' : size_field) :
    entry_bits r' f' (entries_add c r f inc es) =
      if r' = r ∧ f' = f then to_report_size c (entry_bits r f es + inc)
      else entry_bits r' f' es := by
  induction es with
  | nil =>
    by_cases hr : r' = r
    · subst hr
      by_cases hf : f' = f
      · subst hf; cases f' <;> simp [entries_add, entry_bits, add_to_field, field_of]
      · cases f <;> cases f' <;> simp_all [entries_add, entry_bits, add_to_field, field_of]
    · have : ¬ (r : Int) = (r' : Int) := by omega
      simp [entries_add, entry_bits, add_to_field_id, hr, this]
  | cons e es ih =>
    by_cases h1 : e.id = (r : Int)
    · simp only [entries_add, if_pos h1, entry_bits, add_to_field_id, h1]
      by_cases hr : r' = r
      · subst hr
        simp only [if_true, true_and, field_of_add_to_field]
      · have : ¬ (r : Int) = (r' : Int) := by omega
        simp [hr, this]
    · simp only [entries_add, if_neg h1, entry_bits, ih]
      by_cases hr : r' = r
      · subst hr
        simp [h1]
      · simp [hr]

/-! ## The table invariant -/

theorem distinct_ids_append_singleton (evs : List main_event) (ev : main_event) :
    distinct_ids (evs ++ [ev]) =
      if ev.id ∈ (evs.map fun e => e.id) then distinct_ids evs else distinct_ids evs + 1 := by
  unfold distinct_ids
  have h : (List.map (fun e => e.id) (evs ++ [ev])).toFinset
      = insert ev.id (List.map (fun e => e.id) evs).toFinset := by
    ext x; simp [or_comm]
  rw [h]
  by_cases hm : ev.id ∈ (evs.map fun e => e.id)
  · rw [if_pos hm, Finset.insert_eq_of_mem (List.mem_toFinset.mpr hm)]
  · rw [if_neg hm, Finset.card_insert_of_not_mem (fun h' => hm (List.mem_toFinset.mp h'))]

theorem distinct_ids_append_le (evs evs' : List main_event) :
    distinct_ids evs ≤ distinct_ids (evs ++ evs') := by
  unfold distinct_ids
  apply Finset.card_le_card
  intro x hx
  simp only [List.mem_toFinset, List.map_append, List.mem_append] at hx ⊢
  exact Or.inl hx

theorem report_bits_append_singleton (evs : List main_event) (ev : main_event) (r : Nat)
    (f : size_field) :
    report_bits (evs ++ [ev]) r f =
      report_bits evs r f + if ev.id = r ∧ ev.field = f then ev.bits else 0 := by
  unfold report_bits
  by_cases h : ev.id = r ∧ ev.field = f
  · simp [List.filter_append, List.filter_cons, h]
  · simp [List.filter_append, List.filter_cons, h]

theorem to_report_size_add (c : input_h) (a b : Nat) :
    to_report_size c (a % 2 ^ c.report_size.bits + to_report_size c (b % 2 ^ 32))
      = (a + b) % 2 ^ c.report_size.bits := by
  unfold to_report_size
  cases h : c.report_size <;> simp only [size_width.bits] <;> omega

/-- One main item keeps the table invariant when the number of distinct ids
stays within the table, and makes the find-or-claim fail otherwise. -/
theorem table_inv_step (c : input_h) (dev : mx_hid_device) (evs : List main_event)
    (ev : main_event) (hinv : table_inv c dev evs) (hid : ev.id < 256) :
    (distinct_ids (evs ++ [ev]) ≤ HID_MAX_REPORT_IDS →
      ∃ p, slots_add c ev.id ev.field (to_report_size c (ev.bits % 2 ^ 32)) dev.sizes = some p ∧
        table_inv c { dev with sizes := p.1, num_reports := dev.num_reports + p.2 }
          (evs ++ [ev])) ∧
    (HID_MAX_REPORT_IDS < distinct_ids (evs ++ [ev]) →
      slots_add c ev.id ev.field (to_report_size c (ev.bits % 2 ^ 32)) dev.sizes = none) := by
  obtain ⟨es, hs, hlen, hn, hd, hnd, hids, hlt, hbits⟩ := hinv
  have hes : ∀ e ∈ es, e.id ≠ -1 := by
    intro e he
    obtain ⟨ev', _, h'⟩ := (hids e.id).mp (List.mem_map.mpr ⟨e, he, rfl⟩)
    omega
  have hmem : (ev.id : Int) ∈ (es.map fun e => e.id) ↔ ev.id ∈ (evs.map fun e => e.id) := by
    rw [hids]
    constructor
    · rintro ⟨ev', hev', h'⟩
      exact List.mem_map.mpr ⟨ev', hev', by omega⟩
    · intro h
      obtain ⟨ev', hev', h'⟩ := List.mem_map.mp h
      exact ⟨ev', hev', by omega⟩
  have hsa := slots_add_table c ev.id ev.field (to_report_size c (ev.bits % 2 ^ 32)) es
    (HID_MAX_REPORT_IDS - es.length) hes
  have hbits' : ∀ r f,
      entry_bits r f (entries_add c ev.id ev.field (to_report_size c (ev.bits % 2 ^ 32)) es)
        = report_bits (evs ++ [ev]) r f % 2 ^ c.report_size.bits := by
    intro r f
    rw [entry_bits_entries_add, report_bits_append_singleton]
    by_cases h : r = ev.id ∧ f = ev.field
    · obtain ⟨rfl, rfl⟩ := h
      simp only [and_self, if_true, hbits, to_report_size_add]
    · have h' : ¬ (ev.id = r ∧ ev.field = f) := fun ⟨a, b⟩ => h ⟨a.symm, b.symm⟩
      rw [if_neg h, if_neg h', Nat.add_zero, hbits]
  have hids_new := entries_add_ids c ev.id ev.field (to_report_size c (ev.bits % 2 ^ 32)) es
  have hlen_new : (entries_add c ev.id ev.field (to_report_size c (ev.bits % 2 ^ 32)) es).length
      = ((entries_add c ev.id ev.field (to_report_size c (ev.bits % 2 ^ 32)) es).map
          fun e => e.id).length := by simp
  have hlt' : ∀ ev' ∈ evs ++ [ev], ev'.id < 256 := by
    intro ev' h'
    rcases List.mem_append.mp h' with h' | h'
    · exact hlt ev' h'
    · simp only [List.mem_singleton] at h'; subst h'; exact hid
  rw [distinct_ids_append_singleton]
  by_cases hm : (ev.id : Int) ∈ (es.map fun e => e.id)
  · have hm' := hmem.mp hm
    rw [if_pos hm] at hsa hids_new
    rw [if_pos hm']
    rw [hids_new, List.length_map] at hlen_new
    constructor
    · intro _
      refine ⟨_, by rw [hs]; exact hsa, _, ?_, ?_, ?_, ?_, ?_, ?_, hlt', hbits'⟩
      · simp only [table_of, hlen_new]
      · omega
      · simp only [Nat.add_zero, hn, hlen_new]
      · rw [hlen_new, hd, distinct_ids_append_singleton, if_pos hm']
      · rw [hids_new]; exact hnd
      · intro x
        rw [hids_new, hids]
        constructor
        · rintro ⟨ev', h1, h2⟩
          exact ⟨ev', List.mem_append_left _ h1, h2⟩
        · rintro ⟨ev', h1, h2⟩
          rcases List.mem_append.mp h1 with h1 | h1
          · exact ⟨ev', h1, h2⟩
          · simp only [List.mem_singleton] at h1
            subst h1
            exact (hids x).mp (h2 ▸ hm)
    · intro h; omega
  · have hm' : ¬ ev.id ∈ (evs.map fun e => e.id) := fun h => hm (hmem.mpr h)
    rw [if_neg hm] at hsa hids_new
    rw [if_neg hm']
    rw [hids_new, List.length_append, List.length_map, List.length_singleton] at hlen_new
    constructor
    · intro hle
      have hk : ¬ HID_MAX_REPORT_IDS - es.length = 0 := by omega
      rw [if_neg hk] at hsa
      refine ⟨_, by rw [hs]; exact hsa, _, ?_, ?_, ?_, ?_, ?_, ?_, hlt', hbits'⟩
      · simp only [table_of, hlen_new]
        congr 2
      · omega
      · simp only [hn, hlen_new]
      · rw [hlen_new, hd, distinct_ids_append_singleton, if_neg hm']
      · rw [hids_new]
        exact List.Nodup.append hnd (List.nodup_singleton _)
          (by simp only [List.disjoint_singleton]; exact hm)
      · intro x
        rw [hids_new, List.mem_append, hids]
        constructor
        · rintro (⟨ev', h1, h2⟩ | h)
          · exact ⟨ev', List.mem_append_left _ h1, h2⟩
          · simp only [List.mem_singleton] at h
            exact ⟨ev, by simp, h⟩
        · rintro ⟨ev', h1, h2⟩
          rcases List.mem_append.mp h1 with h1 | h1
          · exact Or.inl ⟨ev', h1, h2⟩
          · simp only [List.mem_singleton] at h1
            subst h1
            exact Or.inr (by simp [h2])
    · intro hgt
      have hk : HID_MAX_REPORT_IDS - es.length = 0 := by omega
      rw [if_pos hk] at hsa
      rw [hs]
      exact hsa

/-! ## The item-level loop and the table -/

theorem hid_process_item_main (c : input_h) (x : short_item) (st : process_state)
    (f : size_field) (h : main_field x = some f) :
    hid_process_item c { st with item := item_of x } =
      hid_process_main c f (to_report_size c ((st.rpt_size * st.rpt_count) % 2 ^ 32))
        { st with item := item_of x } := by
  unfold main_field at h
  unfold hid_process_item
  simp only [item_of] at *
  split_ifs at h <;> simp_all

theorem hid_process_item_push_pop (c : input_h) (x : short_item) (st : process_state)
    (h : is_push_pop x) :
    hid_process_item c { st with item := item_of x } = .ret .ERR_NOT_SUPPORTED st.dev := by
  unfold is_push_pop is_global at h
  unfold hid_process_item
  simp only [item_of, HID_ITEM_TYPE_MAIN, HID_ITEM_TYPE_GLOBAL, HID_ITEM_GLOBAL_TAG_PUSH,
    HID_ITEM_GLOBAL_TAG_POP, HID_ITEM_GLOBAL_TAG_REPORT_SIZE, HID_ITEM_GLOBAL_TAG_REPORT_ID,
    HID_ITEM_GLOBAL_TAG_REPORT_COUNT] at *
  rcases h with ⟨h1, h2⟩ | ⟨h1, h2⟩ <;> simp [h1, h2]

theorem hid_process_item_other (c : input_h) (x : short_item) (st : process_state)
    (h1 : main_field x = none) (h2 : ¬ is_push_pop x) :
    hid_process_item c { st with item := item_of x } =
      .cont { item := item_of x
              rpt_size := ((regs_of st).step x).rpt_size
              rpt_count := ((regs_of st).step x).rpt_count
              rpt_id := ((regs_of st).step x).rpt_id
              dev := st.dev } := by
  unfold main_field at h1
  unfold is_push_pop is_global at h2
  unfold hid_process_item registers.step is_global regs_of
  simp only [item_of, HID_ITEM_TYPE_MAIN, HID_ITEM_TYPE_GLOBAL, HID_ITEM_GLOBAL_TAG_PUSH,
    HID_ITEM_GLOBAL_TAG_POP, HID_ITEM_GLOBAL_TAG_REPORT_SIZE, HID_ITEM_GLOBAL_TAG_REPORT_ID,
    HID_ITEM_GLOBAL_TAG_REPORT_COUNT, HID_ITEM_MAIN_TAG_INPUT, HID_ITEM_MAIN_TAG_OUTPUT,
    HID_ITEM_MAIN_TAG_FEATURE] at *
  by_cases ht0 : item_bType x.pfx = 0
  · simp only [ht0, if_true] at h1 ⊢
    split_ifs at h1
    simp_all
  · by_cases ht1 : item_bType x.pfx = 1
    · simp only [ht1, true_and] at h2 ⊢
      push_neg at h2
      obtain ⟨h3, h4⟩ := h2
      by_cases t7 : item_bTag x.pfx = 7
      · simp [t7]
      · by_cases t8 : item_bTag x.pfx = 8
        · simp [t8]
        · by_cases t9 : item_bTag x.pfx = 9
          · simp [t9]
          · simp [t7, t8, t9, h3, h4]
    · simp only [ht0, ht1, if_false, false_and]

theorem registers_step_id_lt (r : registers) (x : short_item) (h : r.rpt_id < 256) :
    (r.step x).rpt_id < 256 := by
  unfold registers.step to_report_id
  split_ifs
  all_goals first | exact h | exact Nat.mod_lt _ (by norm_num)

theorem registers_step_main (r : registers) (x : short_item) (f : size_field)
    (h : main_field x = some f) : r.step x = r := by
  unfold main_field at h
  unfold registers.step is_global
  simp only [HID_ITEM_TYPE_MAIN, HID_ITEM_TYPE_GLOBAL] at *
  split_ifs at h
  all_goals simp_all

/-- The item-level loop on items without Push/Pop, started from a table that
satisfies the invariant for the main items `evs0` already processed: with at
most `HID_MAX_REPORT_IDS` distinct ids in total it runs to the end and
re-establishes the invariant for all main items; with more it returns
`ERR_NOT_SUPPORTED`, leaving a table that satisfies the invariant for the
main items before the failing one. -/
theorem run_items_spec (c : input_h) (items : List short_item)
    (hpp : ∀ x ∈ items, ¬ is_push_pop x) (st : process_state) (evs0 : List main_event)
    (hinv : table_inv c st.dev evs0) (hid : st.rpt_id < 256) :
    (distinct_ids (evs0 ++ main_events (regs_of st) items) ≤ HID_MAX_REPORT_IDS →
      ∃ st', run_items c items st = .cont st' ∧
        table_inv c st'.dev (evs0 ++ main_events (regs_of st) items) ∧
        st'.dev.dev_class = st.dev.dev_class ∧
        st'.dev.hid_report_desc = st.dev.hid_report_desc ∧
        st'.dev.boot_device = st.dev.boot_device) ∧
    (HID_MAX_REPORT_IDS < distinct_ids (evs0 ++ main_events (regs_of st) items) →
      ∃ d evs1 ev rest, run_items c items st = .ret .ERR_NOT_SUPPORTED d ∧
        evs0 ++ main_events (regs_of st) items = evs1 ++ ev :: rest ∧
        distinct_ids evs1 = HID_MAX_REPORT_IDS ∧
        ev.id ∉ (evs1.map fun e => e.id) ∧
        table_inv c d evs1 ∧
        d.dev_class = st.dev.dev_class ∧
        d.hid_report_desc = st.dev.hid_report_desc ∧
        d.boot_device = st.dev.boot_device) := by
  induction items generalizing st evs0 with
  | nil =>
    simp only [main_events, List.append_nil, run_items]
    refine ⟨fun _ => ⟨st, rfl, hinv, rfl, rfl, rfl⟩, fun h => ?_⟩
    obtain ⟨es, _, hlen, _, hd, _⟩ := hinv
    omega
  | cons x xs ih =>
    have hx : ¬ is_push_pop x := hpp x (List.mem_cons_self _ _)
    have hxs : ∀ y ∈ xs, ¬ is_push_pop y := fun y hy => hpp y (List.mem_cons_of_mem _ hy)
    cases hf : main_field x with
    | none =>
      have hstep := hid_process_item_other c x st hf hx
      simp only [main_events, hf, run_items, hstep]
      have := ih hxs
        { item := item_of x
          rpt_size := ((regs_of st).step x).rpt_size
          rpt_count := ((regs_of st).step x).rpt_count
          rpt_id := ((regs_of st).step x).rpt_id
          dev := st.dev } evs0 hinv (registers_step_id_lt (regs_of st) x hid)
      exact this
    | some f =>
      have hstep := hid_process_item_main c x st f hf
      have hev : evs0 ++ main_events (regs_of st) (x :: xs)
          = (evs0 ++ [⟨st.rpt_id, f, st.rpt_size * st.rpt_count⟩])
              ++ main_events (regs_of st) xs := by
        simp [main_events, hf, regs_of]
      have hts := table_inv_step c st.dev evs0 ⟨st.rpt_id, f, st.rpt_size * st.rpt_count⟩
        hinv hid
      simp only at hts
      rw [hev]
      simp only [run_items, hstep, hid_process_main_eq]
      by_cases hle : distinct_ids (evs0 ++ [⟨st.rpt_id, f, st.rpt_size * st.rpt_count⟩])
          ≤ HID_MAX_REPORT_IDS
      · obtain ⟨p, hp, hinv'⟩ := hts.1 hle
        simp only [hp]
        have := ih hxs
          { item := item_of x, rpt_size := st.rpt_size, rpt_count := st.rpt_count,
            rpt_id := st.rpt_id,
            dev := { st.dev with sizes := p.1, num_reports := st.dev.num_reports + p.2 } }
          (evs0 ++ [⟨st.rpt_id, f, st.rpt_size * st.rpt_count⟩]) hinv' hid
        exact this
      · have hgt : HID_MAX_REPORT_IDS
            < distinct_ids (evs0 ++ [⟨st.rpt_id, f, st.rpt_size * st.rpt_count⟩]) := by omega
        have hnone := hts.2 hgt
        simp only [hnone]
        have hmono := distinct_ids_append_le
          (evs0 ++ [⟨st.rpt_id, f, st.rpt_size * st.rpt_count⟩]) (main_events (regs_of st) xs)
        have hsing := distinct_ids_append_singleton evs0
          ⟨st.rpt_id, f, st.rpt_size * st.rpt_count⟩
        obtain ⟨es, _, hlen, _, hd, _⟩ := id hinv
        have hnm : ¬ st.rpt_id ∈ (evs0.map fun e => e.id) := by
          intro hm
          rw [if_pos hm] at hsing
          omega
        rw [if_neg hnm] at hsing
        refine ⟨fun h => by omega, fun _ => ⟨st.dev, evs0,
          ⟨st.rpt_id, f, st.rpt_size * st.rpt_count⟩, main_events (regs_of st) xs, rfl, ?_,
          by omega, hnm, hinv, rfl, rfl, rfl⟩⟩
        simp

/-- The table built by `hid_create_device` satisfies the invariant for no
main item processed. -/
theorem fresh_table_inv (c : input_h) (b : Bool) (cls : Nat) (desc : List uint8_t) :
    table_inv c (fresh_device b cls desc) [] := by
  refine ⟨[], rfl, by decide, rfl, by decide, by simp, ?_, by simp, ?_⟩
  · intro x; simp
  · intro r f; simp [entry_bits, report_bits]

/-- The interpreter on a device whose descriptor consists of complete items
and a trailing fragment is the item-level loop from the initial state. -/
theorem hid_process_encode (c : input_h) (dev : mx_hid_device) (items : List short_item)
    (frag : List uint8_t) (hd : dev.hid_report_desc = encode items ++ frag)
    (hc : ∀ x ∈ items, x.complete) (hf : truncated frag) :
    hid_process_hid_report_desc c dev =
      match run_items c items (initial_state dev) with
      | .ret status dev' => some (status, dev')
      | .cont st' => some (NO_ERROR, st'.dev) := by
  unfold hid_process_hid_report_desc
  rw [hd]
  exact hid_process_loop_encode c items hc frag hf (initial_state dev)

theorem run_items_append (c : input_h) (xs ys : List short_item) (st : process_state) :
    run_items c (xs ++ ys) st =
      match run_items c xs st with
      | .ret status dev => .ret status dev
      | .cont st' => run_items c ys st' := by
  induction xs generalizing st with
  | nil => rfl
  | cons x xs ih =>
    simp only [List.cons_append, run_items]
    cases hid_process_item c { st with item := item_of x } with
    | ret status dev => rfl
    | cont st' => exact ih st'

/-- The size query on a table whose first `num_reports` slots are the
allocated entries `es`. -/
theorem hid_get_report_size_by_id_loop_entries (c : input_h) (r : Nat)
    (k : input_report_type_t) (f : size_field) (hk : field_of_type k = some f)
    (es : List hid_report_size) (hes : ∀ e ∈ es, 0 ≤ e.id) :
    hid_get_report_size_by_id_loop c r k es
      = to_report_size c (bits_to_bytes (entry_bits r f es)) := by
  induction es with
  | nil =>
    simp only [hid_get_report_size_by_id_loop, entry_bits, bits_to_bytes, to_report_size]
    norm_num
  | cons e es ih =>
    have he : ¬ e.id < 0 := by
      have := hes e (List.mem_cons_self _ _); omega
    have ih' := ih (fun e' h => hes e' (List.mem_cons_of_mem _ h))
    simp only [hid_get_report_size_by_id_loop, entry_bits]
    rw [if_neg he]
    by_cases h1 : e.id = (r : Int)
    · rw [if_pos h1, if_pos h1]
      cases k with
      | other => simp [field_of_type] at hk
      | _ =>
        simp only [field_of_type, Option.some.injEq] at hk
        subst hk
        rfl
    · rw [if_neg h1, if_neg h1, ih']

theorem take_table_of (es : List hid_report_size) : (table_of es).take es.length = es := by
  simp [table_of]

/-- The size query on a device that satisfies the table invariant. -/
theorem hid_get_report_size_by_id_inv (c : input_h) (dev : mx_hid_device)
    (evs : List main_event) (hinv : table_inv c dev evs)
    (hcls : dev.dev_class ≠ HID_DEV_CLASS_POINTER) (r : Nat) (k : input_report_type_t)
    (f : size_field) (hk : field_of_type k = some f) :
    hid_get_report_size_by_id c dev r k
      = to_report_size c (bits_to_bytes (report_bits evs r f % 2 ^ c.report_size.bits)) := by
  obtain ⟨es, hs, hlen, hn, hd, hnd, hids, hlt, hbits⟩ := hinv
  have hes : ∀ e ∈ es, 0 ≤ e.id := by
    intro e he
    obtain ⟨ev', _, h'⟩ := (hids e.id).mp (List.mem_map.mpr ⟨e, he, rfl⟩)
    omega
  unfold hid_get_report_size_by_id
  rw [if_neg hcls, hs, hn, take_table_of,
    hid_get_report_size_by_id_loop_entries c r k f hk es hes, hbits]

theorem bits_to_bytes_exact (c : input_h) (n : Nat) (h1 : n < 2 ^ c.report_size.bits)
    (h2 : n + 7 < 2 ^ 32) :
    to_report_size c (bits_to_bytes (n % 2 ^ c.report_size.bits)) = (n + 7) / 8 := by
  unfold to_report_size bits_to_bytes
  rw [Nat.mod_eq_of_lt h1, Nat.mod_eq_of_lt h2]
  apply Nat.mod_eq_of_lt
  cases h : c.report_size <;> simp only [h, size_width.bits] at h1 ⊢ <;> omega

/-! ## Parsing well-formed descriptors (C1) -/

/-- C1 (as amended).  For every descriptor that is a sequence of complete
short items without Push/Pop whose Input/Output/Feature items occur under at
most 16 distinct report ids, parsing on a freshly created non-pointer device
returns `NO_ERROR`, and afterwards the size query for every report id `r` and
kind `k` returns `bits_to_bytes` of `S` reduced to the size type, where `S` is
the sum of `report_size * report_count` over the kind-`k` main items processed
under id `r`; this is `ceil(S / 8)` whenever `S` fits the size type and
`S + 7` does not wrap at 32 bits. -/
theorem parse_well_formed_sizes (c : input_h) (b : Bool) (cls : Nat)
    (items : List short_item) (hc : ∀ x ∈ items, x.complete)
    (hpp : ∀ x ∈ items, ¬ is_push_pop x)
    (hids : distinct_ids (main_events registers.zero items) ≤ HID_MAX_REPORT_IDS)
    (hcls : cls ≠ HID_DEV_CLASS_POINTER) :
    ∃ dev', hid_process_hid_report_desc c (fresh_device b cls (encode items))
        = some (NO_ERROR, dev') ∧
      ∀ (r : Nat) (k : input_report_type_t) (f : size_field), field_of_type k = some f →
        hid_get_report_size_by_id c dev' r k
          = to_report_size c (bits_to_bytes
              (report_bits (main_events registers.zero items) r f % 2 ^ c.report_size.bits)) ∧
        (report_bits (main_events registers.zero items) r f < 2 ^ c.report_size.bits →
          report_bits (main_events registers.zero items) r f + 7 < 2 ^ 32 →
          hid_get_report_size_by_id c dev' r k
            = (report_bits (main_events registers.zero items) r f + 7) / 8) := by
  have hproc := hid_process_encode c (fresh_device b cls (encode items)) items []
    (by simp [fresh_device]) hc trivial
  have hspec := (run_items_spec c items hpp (initial_state (fresh_device b cls (encode items)))
    [] (fresh_table_inv c b cls (encode items)) (by simp [initial_state])).1
  simp only [List.nil_append] at hspec
  obtain ⟨st', hrun, hinv, hclass, _, _⟩ := hspec hids
  rw [hrun] at hproc
  refine ⟨st'.dev, hproc, ?_⟩
  intro r k f hk
  have hcls' : st'.dev.dev_class ≠ HID_DEV_CLASS_POINTER := by
    rw [hclass]; exact hcls
  have hq := hid_get_report_size_by_id_inv c st'.dev _ hinv hcls' r k f hk
  refine ⟨hq, fun h1 h2 => ?_⟩
  rw [hq]
  exact bits_to_bytes_exact c _ h1 h2

/-- Witness of `parse_well_formed_sizes`: the descriptor `95 03 75 08 81 02`
parses to one entry (id 0) with 24 input bits, queried as 3 bytes. -/
theorem parse_well_formed_sizes_witness :
    ((∀ x ∈ example_items, x.complete) ∧ (∀ x ∈ example_items, ¬ is_push_pop x) ∧
      distinct_ids (main_events registers.zero example_items) ≤ HID_MAX_REPORT_IDS ∧
      HID_DEV_CLASS_OTHER ≠ HID_DEV_CLASS_POINTER) ∧
    (∃ dev', hid_process_hid_report_desc cfg16
          (fresh_device false HID_DEV_CLASS_OTHER (encode example_items))
        = some (NO_ERROR, dev') ∧
      ∀ (r : Nat) (k : input_report_type_t) (f : size_field), field_of_type k = some f →
        hid_get_report_size_by_id cfg16 dev' r k
          = to_report_size cfg16 (bits_to_bytes
              (report_bits (main_events registers.zero example_items) r f
                % 2 ^ cfg16.report_size.bits)) ∧
        (report_bits (main_events registers.zero example_items) r f
            < 2 ^ cfg16.report_size.bits →
          report_bits (main_events registers.zero example_items) r f + 7 < 2 ^ 32 →
          hid_get_report_size_by_id cfg16 dev' r k
            = (report_bits (main_events registers.zero example_items) r f + 7) / 8)) ∧
    encode example_items = [0x95, 0x03, 0x75, 0x08, 0x81, 0x02] ∧
    report_bits (main_events registers.zero example_items) 0 .in_size = 24 ∧
    (hid_process_hid_report_desc cfg16
        (fresh_device false HID_DEV_CLASS_OTHER (encode example_items))).map
      (fun p => (p.1, p.2.num_reports, p.2.sizes.head?,
        hid_get_report_size_by_id cfg16 p.2 0 .INPUT_REPORT_INPUT))
      = some (NO_ERROR, 1, some ⟨0, 24, 0, 0⟩, 3) :=
  ⟨⟨by decide, by decide, by decide, by decide⟩,
    parse_well_formed_sizes cfg16 false HID_DEV_CLASS_OTHER example_items
      (by decide) (by decide) (by decide) (by decide),
    by decide, by decide, by decide⟩

/-- C1 (counterexample to the claim as stated).  The descriptor
`77 00 00 01 00 97 00 00 01 00 81 02` is a sequence of complete items without
Push/Pop under one report id; its Input item contributes `S = 2 ^ 32` bits.
Parsing returns `NO_ERROR`, but the product wraps and the queried input size
is 0 for a 16-bit and for a 32-bit size type, not `ceil(S / 8) = 2 ^ 29`. -/
theorem parse_sizes_wrap_counterexample :
    (∀ x ∈ overflow_items, x.complete) ∧ (∀ x ∈ overflow_items, ¬ is_push_pop x) ∧
    distinct_ids (main_events registers.zero overflow_items) ≤ HID_MAX_REPORT_IDS ∧
    report_bits (main_events registers.zero overflow_items) 0 .in_size = 2 ^ 32 ∧
    (hid_process_hid_report_desc cfg16
        (fresh_device false HID_DEV_CLASS_OTHER (encode overflow_items))).map
      (fun p => (p.1, hid_get_report_size_by_id cfg16 p.2 0 .INPUT_REPORT_INPUT))
      = some (NO_ERROR, 0) ∧
    (hid_process_hid_report_desc cfg32
        (fresh_device false HID_DEV_CLASS_OTHER (encode overflow_items))).map
      (fun p => (p.1, hid_get_report_size_by_id cfg32 p.2 0 .INPUT_REPORT_INPUT))
      = some (NO_ERROR, 0) ∧
    (report_bits (main_events registers.zero overflow_items) 0 .in_size + 7) / 8 ≠ 0 := by
  refine ⟨by decide, by decide, by decide, by decide, by decide, by decide, by decide⟩

/-! ## Push and Pop (C2) -/

theorem hid_process_item_ret_status (c : input_h) (st : process_state) (status : mx_status_t)
    (dev : mx_hid_device) (h : hid_process_item c st = .ret status dev) :
    status = .ERR_NOT_SUPPORTED := by
  unfold hid_process_item hid_process_main at h
  simp only at h
  split_ifs at h
  all_goals simp_all

/-- Every status the item-level loop returns early is `ERR_NOT_SUPPORTED`. -/
theorem run_items_ret_status (c : input_h) (items : List short_item) (st : process_state)
    (status : mx_status_t) (dev : mx_hid_device)
    (h : run_items c items st = .ret status dev) : status = .ERR_NOT_SUPPORTED := by
  induction items generalizing st with
  | nil => simp [run_items] at h
  | cons x xs ih =>
    simp only [run_items] at h
    cases hstep : hid_process_item c { st with item := item_of x } with
    | ret status' dev' =>
      rw [hstep] at h
      simp only [process_step.ret.injEq] at h
      rw [← h.1]
      exact hid_process_item_ret_status c _ _ _ hstep
    | cont st' =>
      rw [hstep] at h
      exact ih st' h

/-- C2 (as amended).  For every descriptor in which some complete item - one
whose declared payload lies inside the buffer - at an item position is a
Global item with tag Push or Pop, whatever octets follow it,
`hid_process_hid_report_desc` returns `ERR_NOT_SUPPORTED`. -/
theorem push_pop_not_supported (c : input_h) (dev : mx_hid_device) (items : List short_item)
    (x : short_item) (rest : List uint8_t)
    (hd : dev.hid_report_desc = encode items ++ x.bytes ++ rest)
    (hc : ∀ y ∈ items, y.complete) (hx : x.complete) (hpp : is_push_pop x) :
    ∃ dev', hid_process_hid_report_desc c dev = some (.ERR_NOT_SUPPORTED, dev') := by
  have henc : encode (items ++ [x]) = encode items ++ x.bytes := by
    simp [encode_append, encode]
  have hc' : ∀ y ∈ items ++ [x], y.complete := by
    intro y hy
    rcases List.mem_append.mp hy with hy | hy
    · exact hc y hy
    · simp only [List.mem_singleton] at hy; subst hy; exact hx
  have hlen : dev.hid_report_desc.length
      = (items ++ [x]).length + (dev.hid_report_desc.length - (items ++ [x]).length) := by
    have := length_le_encode (items ++ [x])
    rw [henc] at this
    rw [hd]
    simp only [List.length_append] at this ⊢
    omega
  have h := hid_process_loop_items c (items ++ [x]) hc' [] rest
    (dev.hid_report_desc.length - (items ++ [x]).length) (initial_state dev)
  simp only [List.nil_append, List.length_nil, henc, ← hd] at h
  unfold hid_process_hid_report_desc
  rw [hlen]
  have h' : hid_process_loop c dev.hid_report_desc
      ((items ++ [x]).length + (dev.hid_report_desc.length - (items ++ [x]).length)) 0
      (initial_state dev) = _ := h
  unfold initial_state at h'
  rw [h']
  rw [run_items_append]
  cases hrun : run_items c items (initial_state dev) with
  | ret status d =>
    have := run_items_ret_status c items _ status d hrun
    subst this
    unfold initial_state at hrun
    simp only [hrun]
    exact ⟨d, rfl⟩
  | cont st' =>
    unfold initial_state at hrun
    simp only [hrun, run_items, hid_process_item_push_pop c x st' hpp]
    exact ⟨st'.dev, rfl⟩

/-- Witness of `push_pop_not_supported`: a Push item (`a4`) behind an Input
item and in front of further octets. -/
theorem push_pop_not_supported_witness :
    ((fresh_device false HID_DEV_CLASS_OTHER [0x81, 0x02, 0xa4, 0x05, 0x01]).hid_report_desc
        = encode [⟨0x81, [0x02]⟩] ++ (⟨0xa4, []⟩ : short_item).bytes ++ [0x05, 0x01] ∧
      (∀ y ∈ [(⟨0x81, [0x02]⟩ : short_item)], y.complete) ∧
      (⟨0xa4, []⟩ : short_item).complete ∧ is_push_pop ⟨0xa4, []⟩) ∧
    ∃ dev', hid_process_hid_report_desc cfg16
        (fresh_device false HID_DEV_CLASS_OTHER [0x81, 0x02, 0xa4, 0x05, 0x01])
      = some (.ERR_NOT_SUPPORTED, dev') :=
  ⟨⟨by decide, by decide, by decide, by decide⟩,
    push_pop_not_supported cfg16
      (fresh_device false HID_DEV_CLASS_OTHER [0x81, 0x02, 0xa4, 0x05, 0x01])
      [⟨0x81, [0x02]⟩] ⟨0xa4, []⟩ [0x05, 0x01] (by decide) (by decide) (by decide) (by decide)⟩

/-- C2 (counterexample to the claim as stated).  In the one-octet descriptor
`a5` the item at position 0, the last octet of the buffer, is a Global item
with tag Push whose first octet declares one payload octet; the interpreter
turns it into a Reserved item and returns `NO_ERROR`. -/
theorem push_at_end_counterexample :
    item_bType 0xa5 = HID_ITEM_TYPE_GLOBAL ∧ item_bTag 0xa5 = HID_ITEM_GLOBAL_TAG_PUSH ∧
    item_bSize 0xa5 = 1 ∧
    (hid_process_hid_report_desc cfg16 (fresh_device false HID_DEV_CLASS_OTHER [0xa5])).map
      (fun p => p.1) = some NO_ERROR ∧
    (hid_process_hid_report_desc cfg32 (fresh_device false HID_DEV_CLASS_OTHER [0xa5])).map
      (fun p => p.1) = some NO_ERROR := by
  refine ⟨by decide, by decide, by decide, by decide, by decide⟩

/-! ## More than sixteen report ids (C3) -/

/-- C3.  For every descriptor of complete short items without Push/Pop, parsed
on a freshly created device: when its Input/Output/Feature items occur under
more than 16 distinct report ids the result is `ERR_NOT_SUPPORTED` (the
too-many-reports error), raised at the first main item whose id is the 17th
distinct one, with all 16 slots allocated; with at most 16 distinct ids the
result is `NO_ERROR`. -/
theorem too_many_report_ids (c : input_h) (b : Bool) (cls : Nat) (items : List short_item)
    (hc : ∀ x ∈ items, x.complete) (hpp : ∀ x ∈ items, ¬ is_push_pop x) :
    (HID_MAX_REPORT_IDS < distinct_ids (main_events registers.zero items) →
      ∃ dev' evs1 ev rest,
        hid_process_hid_report_desc c (fresh_device b cls (encode items))
          = some (.ERR_NOT_SUPPORTED, dev') ∧
        main_events registers.zero items = evs1 ++ ev :: rest ∧
        distinct_ids evs1 = HID_MAX_REPORT_IDS ∧
        ev.id ∉ (evs1.map fun e => e.id) ∧
        dev'.num_reports = HID_MAX_REPORT_IDS) ∧
    (distinct_ids (main_events registers.zero items) ≤ HID_MAX_REPORT_IDS →
      ∃ dev', hid_process_hid_report_desc c (fresh_device b cls (encode items))
        = some (NO_ERROR, dev')) := by
  have hproc := hid_process_encode c (fresh_device b cls (encode items)) items []
    (by simp [fresh_device]) hc trivial
  have hspec := run_items_spec c items hpp (initial_state (fresh_device b cls (encode items)))
    [] (fresh_table_inv c b cls (encode items)) (by simp [initial_state])
  simp only [List.nil_append] at hspec
  constructor
  · intro hgt
    obtain ⟨d, evs1, ev, rest, hrun, hsplit, hcard, hnew, hinv, _⟩ := hspec.2 hgt
    rw [hrun] at hproc
    refine ⟨d, evs1, ev, rest, hproc, hsplit, hcard, hnew, ?_⟩
    obtain ⟨es, _, _, hn, hd, _⟩ := hinv
    omega
  · intro hle
    obtain ⟨st', hrun, _⟩ := hspec.1 hle
    rw [hrun] at hproc
    exact ⟨st'.dev, hproc⟩

/-- Witness of `too_many_report_ids`: seventeen Input items under the report
ids 1, ..., 17 make the interpreter fail. -/
theorem too_many_report_ids_witness :
    ((∀ x ∈ seventeen_ids_items, x.complete) ∧ (∀ x ∈ seventeen_ids_items, ¬ is_push_pop x) ∧
      HID_MAX_REPORT_IDS < distinct_ids (main_events registers.zero seventeen_ids_items)) ∧
    ∃ dev' evs1 ev rest,
      hid_process_hid_report_desc cfg16
          (fresh_device false HID_DEV_CLASS_OTHER (encode seventeen_ids_items))
        = some (.ERR_NOT_SUPPORTED, dev') ∧
      main_events registers.zero seventeen_ids_items = evs1 ++ ev :: rest ∧
      distinct_ids evs1 = HID_MAX_REPORT_IDS ∧
      ev.id ∉ (evs1.map fun e => e.id) ∧
      dev'.num_reports = HID_MAX_REPORT_IDS :=
  ⟨⟨by decide, by decide, by decide⟩,
    (too_many_report_ids cfg16 false HID_DEV_CLASS_OTHER seventeen_ids_items
      (by decide) (by decide)).1 (by decide)⟩

/-! ## Descriptors without a Report ID item (C4) -/

theorem mem_reached_items (items : List short_item) (x : short_item)
    (h : x ∈ reached_items items) : x ∈ items ∧ ¬ is_push_pop x := by
  unfold reached_items at h
  refine ⟨(List.takeWhile_prefix _).subset h, ?_⟩
  have := List.mem_takeWhile_imp h
  simpa using this

/-- The device left behind depends only on the items in front of the first
Push/Pop item. -/
theorem run_items_dev_reached (c : input_h) (items : List short_item) (st : process_state) :
    (run_items c items st).dev = (run_items c (reached_items items) st).dev := by
  induction items generalizing st with
  | nil => rfl
  | cons x xs ih =>
    by_cases hpp : is_push_pop x
    · have h1 : reached_items (x :: xs) = [] := by
        simp [reached_items, List.takeWhile_cons, hpp]
      rw [h1]
      simp only [run_items, hid_process_item_push_pop c x st hpp, process_step.dev]
    · have h1 : reached_items (x :: xs) = x :: reached_items xs := by
        simp [reached_items, List.takeWhile_cons, hpp]
      rw [h1]
      simp only [run_items]
      cases hid_process_item c { st with item := item_of x } with
      | ret status dev => rfl
      | cont st' => exact ih st'

/-- The interpreter returns some status together with the device the
item-level loop leaves behind. -/
theorem hid_process_result_dev (c : input_h) (dev : mx_hid_device) (items : List short_item)
    (frag : List uint8_t) (hd : dev.hid_report_desc = encode items ++ frag)
    (hc : ∀ x ∈ items, x.complete) (hf : truncated frag) :
    ∃ status, hid_process_hid_report_desc c dev
      = some (status, (run_items c items (initial_state dev)).dev) := by
  rw [hid_process_encode c dev items frag hd hc hf]
  cases run_items c items (initial_state dev) with
  | ret status dev' => exact ⟨status, rfl⟩
  | cont st' => exact ⟨NO_ERROR, rfl⟩

/-- The interpreter returns on every descriptor: the iteration budget
`desc.length` is never spent and no read leaves the buffer. -/
theorem hid_process_total (c : input_h) (dev : mx_hid_device) :
    ∃ status dev', hid_process_hid_report_desc c dev = some (status, dev') := by
  obtain ⟨items, frag, hdesc, hc, hf⟩ := exists_items dev.hid_report_desc
  obtain ⟨status, h⟩ := hid_process_result_dev c dev items frag hdesc hc hf
  exact ⟨status, _, h⟩

/-- The result of the interpreter loop does not depend on the content of the
`item` local on entry, which C leaves uninitialised. -/
theorem hid_process_loop_initial_item (c : input_h) (desc : List uint8_t)
    (st : process_state) (item : hid_item) :
    hid_process_loop c desc desc.length 0 { st with item := item }
      = hid_process_loop c desc desc.length 0 st := by
  obtain ⟨items, frag, hdesc, hc, hf⟩ := exists_items desc
  rw [hdesc, hid_process_loop_encode c items hc frag hf,
    hid_process_loop_encode c items hc frag hf]
  cases items with
  | nil => rfl
  | cons x xs => rfl

theorem main_events_id_const (items : List short_item) (r : registers)
    (h : ∀ x ∈ items, ¬ is_global x HID_ITEM_GLOBAL_TAG_REPORT_ID) :
    ∀ ev ∈ main_events r items, ev.id = r.rpt_id := by
  induction items generalizing r with
  | nil => simp [main_events]
  | cons x xs ih =>
    have hx := h x (List.mem_cons_self _ _)
    have hxs : ∀ y ∈ xs, ¬ is_global y HID_ITEM_GLOBAL_TAG_REPORT_ID :=
      fun y hy => h y (List.mem_cons_of_mem _ hy)
    have hstep : (r.step x).rpt_id = r.rpt_id := by
      unfold registers.step
      split_ifs <;> rfl
    intro ev hev
    simp only [main_events] at hev
    cases hf : main_field x with
    | none =>
      rw [hf] at hev
      rw [← hstep]
      exact ih (r.step x) hxs ev hev
    | some f =>
      rw [hf] at hev
      rcases List.mem_cons.mp hev with rfl | hev
      · rfl
      · exact ih r hxs ev hev

theorem main_events_ne_nil (items : List short_item) (r : registers) (x : short_item)
    (hx : x ∈ items) (hm : main_field x ≠ none) : main_events r items ≠ [] := by
  induction items generalizing r with
  | nil => simp at hx
  | cons y ys ih =>
    simp only [main_events]
    cases hf : main_field y with
    | some f => simp
    | none =>
      simp only
      rcases List.mem_cons.mp hx with rfl | hx
      · exact absurd hf hm
      · exact ih (r.step y) hx

theorem distinct_ids_const (evs : List main_event) (a : Nat) (h : ∀ ev ∈ evs, ev.id = a)
    (hne : evs ≠ []) : distinct_ids evs = 1 := by
  unfold distinct_ids
  have : (evs.map fun e => e.id).toFinset = {a} := by
    ext x
    simp only [List.mem_toFinset, List.mem_map, Finset.mem_singleton]
    constructor
    · rintro ⟨ev, hev, rfl⟩; exact h ev hev
    · rintro rfl
      cases evs with
      | nil => exact absurd rfl hne
      | cons ev evs => exact ⟨ev, List.mem_cons_self _ _, h ev (List.mem_cons_self _ _)⟩
  rw [this, Finset.card_singleton]

/-- C4 (as amended).  For every descriptor - complete items, then possibly a
trailing fragment - that contains no Report ID global item and at least one
complete Input/Output/Feature item that is reached (not preceded by a Push or
Pop item), parsing on a freshly created device allocates exactly one entry:
slot 0, which carries the id 0, the initial value of the id register; all
other slots keep the unset id `-1`. -/
theorem no_report_id_entry (c : input_h) (b : Bool) (cls : Nat) (items : List short_item)
    (frag : List uint8_t) (hc : ∀ x ∈ items, x.complete) (hf : truncated frag)
    (hnid : ∀ x ∈ items, ¬ is_global x HID_ITEM_GLOBAL_TAG_REPORT_ID)
    (hmain : ∃ x ∈ reached_items items, main_field x ≠ none) :
    ∃ status dev', hid_process_hid_report_desc c (fresh_device b cls (encode items ++ frag))
        = some (status, dev') ∧
      dev'.num_reports = 1 ∧
      (dev'.sizes.map fun e => e.id) = 0 :: List.replicate (HID_MAX_REPORT_IDS - 1) (-1) := by
  obtain ⟨status, hproc⟩ := hid_process_result_dev c
    (fresh_device b cls (encode items ++ frag)) items frag (by simp [fresh_device]) hc hf
  refine ⟨status, _, hproc, ?_⟩
  rw [run_items_dev_reached]
  have hpp : ∀ x ∈ reached_items items, ¬ is_push_pop x :=
    fun x hx => (mem_reached_items items x hx).2
  have hnid' : ∀ x ∈ reached_items items, ¬ is_global x HID_ITEM_GLOBAL_TAG_REPORT_ID :=
    fun x hx => hnid x (mem_reached_items items x hx).1
  obtain ⟨x, hx, hm⟩ := hmain
  have hconst := main_events_id_const (reached_items items) registers.zero hnid'
  have hne := main_events_ne_nil (reached_items items) registers.zero x hx hm
  have hcard := distinct_ids_const _ 0 hconst hne
  have hspec := (run_items_spec c (reached_items items) hpp
    (initial_state (fresh_device b cls (encode items ++ frag))) []
    (fresh_table_inv c b cls (encode items ++ frag)) (by simp [initial_state])).1
  simp only [List.nil_append] at hspec
  have hz : regs_of (initial_state (fresh_device b cls (encode items ++ frag)))
      = registers.zero := rfl
  rw [hz] at hspec
  obtain ⟨st', hrun, hinv, _⟩ := hspec (by rw [hcard]; decide)
  rw [hrun]
  simp only [process_step.dev]
  obtain ⟨es, hs, hlen, hn, hd, hnd, hids, hlt, hbits⟩ := hinv
  rw [hcard] at hd
  match es, hd with
  | [e], _ =>
    have he : e.id = 0 := by
      obtain ⟨ev, hev, h'⟩ := (hids e.id).mp (by simp)
      rw [h', hconst ev hev]
      rfl
    refine ⟨by rw [hn]; rfl, ?_⟩
    rw [hs]
    simp [table_of, he, unset_slot]

/-- Witness of `no_report_id_entry`: the descriptor `95 03 75 08 81 02`. -/
theorem no_report_id_entry_witness :
    ((∀ x ∈ example_items, x.complete) ∧ truncated [] ∧
      (∀ x ∈ example_items, ¬ is_global x HID_ITEM_GLOBAL_TAG_REPORT_ID) ∧
      (∃ x ∈ reached_items example_items, main_field x ≠ none)) ∧
    ∃ status dev',
      hid_process_hid_report_desc cfg16
          (fresh_device false HID_DEV_CLASS_OTHER (encode example_items ++ []))
        = some (status, dev') ∧
      dev'.num_reports = 1 ∧
      (dev'.sizes.map fun e => e.id) = 0 :: List.replicate (HID_MAX_REPORT_IDS - 1) (-1) :=
  ⟨⟨by decide, by decide, by decide, by decide⟩,
    no_report_id_entry cfg16 false HID_DEV_CLASS_OTHER example_items []
      (by decide) (by decide) (by decide) (by decide)⟩

/-- C4 (counterexample to the claim as stated).  After parsing
`95 03 75 08 81 02`, which has no Report ID item, from a fresh table, the one
allocated entry is slot 0 and its id is 0, a real report id, not the unset
sentinel `-1`. -/
theorem entry_id_not_unset_counterexample :
    (∀ x ∈ example_items, ¬ is_global x HID_ITEM_GLOBAL_TAG_REPORT_ID) ∧
    encode example_items = [0x95, 0x03, 0x75, 0x08, 0x81, 0x02] ∧
    (hid_process_hid_report_desc cfg16
        (fresh_device false HID_DEV_CLASS_OTHER [0x95, 0x03, 0x75, 0x08, 0x81, 0x02])).map
      (fun p => (p.1, p.2.num_reports, p.2.sizes.map fun e => e.id))
      = some (NO_ERROR, 1, 0 :: List.replicate 15 (-1)) ∧
    (hid_process_hid_report_desc cfg32
        (fresh_device false HID_DEV_CLASS_OTHER [0x95, 0x03, 0x75, 0x08, 0x81, 0x02])).map
      (fun p => (p.1, p.2.num_reports, p.2.sizes.map fun e => e.id))
      = some (NO_ERROR, 1, 0 :: List.replicate 15 (-1)) ∧
    (0 : Int) ≠ unset_slot.id := by
  refine ⟨by decide, by decide, by decide, by decide, by decide⟩

/-! ## Pointer-class devices (C5, C6) -/

theorem to_report_size_three (c : input_h) : to_report_size c 3 = 3 := by
  unfold to_report_size
  cases c.report_size <;> rfl

theorem hid_get_report_size_by_id_pointer (c : input_h) (hid : mx_hid_device)
    (h : hid.dev_class = HID_DEV_CLASS_POINTER) (id : Nat) (type : input_report_type_t) :
    hid_get_report_size_by_id c hid id type = 3 := by
  unfold hid_get_report_size_by_id
  rw [if_pos h, to_report_size_three]

/-- The queries of a device of class pointer, whatever its size table holds:
with a buffer of `sizeof(size_t)` octets the report-count query yields 1, with
one of `sizeof(input_report_id_t)` the report-id-list query yields exactly the
id 0, with one of `sizeof(int)` the max-report-size query yields 3, and with
one of `sizeof(input_report_size_t)` the report-size query for the input kind
yields 3. -/
theorem pointer_queries (c : input_h) (hid : mx_hid_device)
    (hcls : hid.dev_class = HID_DEV_CLASS_POINTER) :
    (∀ out_len, sizeof_size_t ≤ out_len →
      hid_get_num_reports hid out_len = (.ok sizeof_size_t, .size 1)) ∧
    (∀ out_len, sizeof_report_id ≤ out_len →
      hid_get_report_ids hid out_len = some (.ok sizeof_report_id, .ids [0])) ∧
    (∀ out_len, sizeof_int ≤ out_len →
      hid_get_max_reportsize c hid out_len = (.ok (sizeof_report_size c), .report_size 3)) ∧
    (∀ (inp : input_request) (in_len out_len : Nat),
      inp.type = .INPUT_REPORT_INPUT → c.sizeof_get_report_size ≤ in_len →
      sizeof_report_size c ≤ out_len →
      hid_get_report_size c hid inp in_len out_len
        = (.ok (sizeof_report_size c), .report_size 3)) := by
  refine ⟨?_, ?_, ?_, ?_⟩
  · intro out_len h
    unfold hid_get_num_reports
    rw [if_neg (by omega), if_pos hcls]
  · intro out_len h
    unfold hid_get_report_ids
    rw [if_pos hcls, if_neg (by omega)]
  · intro out_len h
    unfold hid_get_max_reportsize
    rw [if_neg (by omega)]
    simp only [hcls, if_true, to_report_size_three]
  · intro inp in_len out_len _ h1 h2
    unfold hid_get_report_size
    rw [if_neg (by omega), if_neg (by omega)]
    simp only [hid_get_report_size_by_id_pointer c hid hcls]
    rfl

/-- Witness of `pointer_queries`: a pointer device whose table is full. -/
theorem pointer_queries_witness :
    full_pointer_device.dev_class = HID_DEV_CLASS_POINTER ∧
    ((∀ out_len, sizeof_size_t ≤ out_len →
      hid_get_num_reports full_pointer_device out_len = (.ok sizeof_size_t, .size 1)) ∧
    (∀ out_len, sizeof_report_id ≤ out_len →
      hid_get_report_ids full_pointer_device out_len = some (.ok sizeof_report_id, .ids [0])) ∧
    (∀ out_len, sizeof_int ≤ out_len →
      hid_get_max_reportsize cfg16 full_pointer_device out_len
        = (.ok (sizeof_report_size cfg16), .report_size 3)) ∧
    (∀ (inp : input_request) (in_len out_len : Nat),
      inp.type = .INPUT_REPORT_INPUT → cfg16.sizeof_get_report_size ≤ in_len →
      sizeof_report_size cfg16 ≤ out_len →
      hid_get_report_size cfg16 full_pointer_device inp in_len out_len
        = (.ok (sizeof_report_size cfg16), .report_size 3))) :=
  ⟨by decide, pointer_queries cfg16 full_pointer_device (by decide)⟩

/-- The max-report-size query of a pointer device for every buffer length: the
test is `out_len < sizeof(int)`. -/
theorem hid_get_max_reportsize_pointer (c : input_h) (hid : mx_hid_device)
    (hcls : hid.dev_class = HID_DEV_CLASS_POINTER) (out_len : Nat) :
    hid_get_max_reportsize c hid out_len
      = if out_len < sizeof_int then (.ERR_INVALID_ARGS, .untouched)
        else (.ok (sizeof_report_size c), .report_size 3) := by
  unfold hid_get_max_reportsize
  split_ifs
  · rfl
  · simp only [hcls, if_true, to_report_size_three]

/-- Claim C5, evaluated on a pointer device whose table is full, with a 16-bit
`input_report_size_t`: the reply of the max-report-size query is one
`input_report_size_t`, 2 octets, yet with an output buffer of 2 or of 3 octets
`hid_get_max_reportsize` returns `ERR_INVALID_ARGS` and stores nothing,
because it tests `out_len < sizeof(int)`; from 4 octets on it yields 3.  The
report-size query, which tests `out_len < sizeof(input_report_size_t)`, yields
3 with the same 2-octet buffer, and the report-count and report-id-list
queries yield 1 and the id 0 with buffers that just hold their replies. -/
theorem pointer_max_reportsize_short_buffer :
    full_pointer_device.dev_class = HID_DEV_CLASS_POINTER ∧
    reply_size cfg16 full_pointer_device .IOCTL_INPUT_GET_MAX_REPORTSIZE
      ⟨0, .INPUT_REPORT_INPUT⟩ = 2 ∧
    hid_get_max_reportsize cfg16 full_pointer_device 2 = (.ERR_INVALID_ARGS, .untouched) ∧
    hid_get_max_reportsize cfg16 full_pointer_device 3 = (.ERR_INVALID_ARGS, .untouched) ∧
    hid_get_max_reportsize cfg16 full_pointer_device 4 = (.ok 2, .report_size 3) ∧
    hid_get_report_size cfg16 full_pointer_device ⟨0, .INPUT_REPORT_INPUT⟩ 2 2
      = (.ok 2, .report_size 3) ∧
    hid_get_num_reports full_pointer_device 8 = (.ok 8, .size 1) ∧
    hid_get_report_ids full_pointer_device 1 = some (.ok 1, .ids [0]) := by
  refine ⟨by decide, by decide, by decide, by decide, by decide, by decide, by decide,
    by decide⟩

theorem hid_get_report_size_by_id_one_report (c : input_h) (ref : mx_hid_device)
    (hcls : ref.dev_class ≠ HID_DEV_CLASS_POINTER) (hn : ref.num_reports = 1)
    (hs : ref.sizes = table_of [⟨0, 24, 0, 0⟩]) (id : Nat) (type : input_report_type_t) :
    hid_get_report_size_by_id c ref id type
      = if id = 0 ∧ type = .INPUT_REPORT_INPUT then 3 else 0 := by
  unfold hid_get_report_size_by_id
  rw [if_neg hcls, hs, hn]
  have h24 : to_report_size c (bits_to_bytes 24) = 3 := by
    unfold to_report_size bits_to_bytes
    cases c.report_size <;> rfl
  have h0 : to_report_size c (bits_to_bytes 0) = 0 := by
    unfold to_report_size bits_to_bytes
    cases c.report_size <;> rfl
  by_cases hid0 : id = 0
  · subst hid0
    cases type <;>
      simp [table_of, hid_get_report_size_by_id_loop, h24, h0, HID_MAX_REPORT_IDS]
  · have : ¬ ((0 : Int) = (id : Int)) := by omega
    simp [table_of, hid_get_report_size_by_id_loop, HID_MAX_REPORT_IDS, this, hid0]

/-- C6 (as amended).  A pointer-class device with an arbitrary table answers
the report-count, report-id-list and max-report-size queries, and the
report-size, get-report and set-report queries for (id 0, input), with the
same status and output as a non-pointer device whose table holds exactly the
entry {id 0, input 24 bits}.  For every other id or kind the pointer device
still uses a size of 3 bytes where the one-report device uses 0. -/
theorem pointer_like_one_report (c : input_h) (p ref : mx_hid_device)
    (hp : p.dev_class = HID_DEV_CLASS_POINTER)
    (hcls : ref.dev_class ≠ HID_DEV_CLASS_POINTER) (hn : ref.num_reports = 1)
    (hs : ref.sizes = table_of [⟨0, 24, 0, 0⟩]) :
    (∀ out_len, hid_get_num_reports p out_len = hid_get_num_reports ref out_len) ∧
    (∀ out_len, hid_get_report_ids p out_len = hid_get_report_ids ref out_len) ∧
    (∀ out_len, hid_get_max_reportsize c p out_len = hid_get_max_reportsize c ref out_len) ∧
    (∀ (inp : input_request) (in_len out_len : Nat),
      inp.id = 0 → inp.type = .INPUT_REPORT_INPUT →
      hid_get_report_size c p inp in_len out_len = hid_get_report_size c ref inp in_len out_len ∧
      hid_get_report c p inp in_len out_len = hid_get_report c ref inp in_len out_len ∧
      hid_set_report c p inp in_len = hid_set_report c ref inp in_len) ∧
    (∀ (id : Nat) (type : input_report_type_t),
      hid_get_report_size_by_id c p id type = 3 ∧
      (¬ (id = 0 ∧ type = .INPUT_REPORT_INPUT) →
        hid_get_report_size_by_id c ref id type = 0)) := by
  have hby := hid_get_report_size_by_id_one_report c ref hcls hn hs
  have hpt := hid_get_report_size_by_id_pointer c p hp
  refine ⟨?_, ?_, ?_, ?_, ?_⟩
  · intro out_len
    unfold hid_get_num_reports
    rw [if_pos hp, if_neg hcls, hn]
  · intro out_len
    unfold hid_get_report_ids
    rw [if_pos hp, if_neg hcls, hn, hs]
    by_cases h : out_len < sizeof_report_id
    · have h' : out_len < 1 * sizeof_report_id := by omega
      rw [if_pos h, if_pos h']
    · have h' : ¬ out_len < 1 * sizeof_report_id := by omega
      rw [if_neg h, if_neg h']
      rfl
  · intro out_len
    unfold hid_get_max_reportsize
    rw [if_pos hp, if_neg hcls, hs]
    by_cases h : out_len < sizeof_int
    · rw [if_pos h, if_pos h]
    · rw [if_neg h, if_neg h]
      have : to_report_size c
          (bits_to_bytes (hid_get_max_reportsize_loop 0 (table_of [⟨0, 24, 0, 0⟩]))) = 3 := by
        have h24 : hid_get_max_reportsize_loop 0 (table_of [⟨0, 24, 0, 0⟩]) = 24 := by decide
        rw [h24]
        unfold to_report_size bits_to_bytes
        cases c.report_size <;> rfl
      simp only [this, to_report_size_three]
  · intro inp in_len out_len hid0 hty
    have h3 : hid_get_report_size_by_id c ref inp.id.val inp.type = 3 := by
      rw [hby]; simp [hid0, hty]
    refine ⟨?_, ?_, ?_⟩
    · unfold hid_get_report_size
      simp only [hpt, h3]
    · unfold hid_get_report
      simp only [hpt, h3]
    · unfold hid_set_report
      simp only [hpt, h3]
  · intro id type
    refine ⟨hpt id type, fun h => ?_⟩
    rw [hby, if_neg h]

/-- Witness of `pointer_like_one_report`: the full pointer device against the
one-report device of class other. -/
theorem pointer_like_one_report_witness :
    (full_pointer_device.dev_class = HID_DEV_CLASS_POINTER ∧
      (one_report_device false HID_DEV_CLASS_OTHER []).dev_class ≠ HID_DEV_CLASS_POINTER ∧
      (one_report_device false HID_DEV_CLASS_OTHER []).num_reports = 1 ∧
      (one_report_device false HID_DEV_CLASS_OTHER []).sizes = table_of [⟨0, 24, 0, 0⟩]) ∧
    (hid_get_num_reports full_pointer_device 8
        = hid_get_num_reports (one_report_device false HID_DEV_CLASS_OTHER []) 8 ∧
      hid_get_report_size cfg16 full_pointer_device ⟨0, .INPUT_REPORT_INPUT⟩ 2 2
        = hid_get_report_size cfg16 (one_report_device false HID_DEV_CLASS_OTHER [])
            ⟨0, .INPUT_REPORT_INPUT⟩ 2 2) :=
  ⟨⟨by decide, by decide, by decide, by decide⟩,
    (pointer_like_one_report cfg16 full_pointer_device
      (one_report_device false HID_DEV_CLASS_OTHER []) (by decide) (by decide) (by decide)
      (by decide)).1 8,
    ((pointer_like_one_report cfg16 full_pointer_device
      (one_report_device false HID_DEV_CLASS_OTHER []) (by decide) (by decide) (by decide)
      (by decide)).2.2.2.1 ⟨0, .INPUT_REPORT_INPUT⟩ 2 2 rfl rfl).1⟩

/-- C6 (counterexample to the claim as stated).  A size query for report id 1
(input kind), and one for the output kind of id 0, succeed with 3 bytes on a
pointer device but fail with `ERR_INVALID_ARGS` on the one-report device; the
get-report and set-report queries differ in the same way. -/
theorem pointer_not_one_report_counterexample :
    hid_get_report_size cfg16 full_pointer_device ⟨1, .INPUT_REPORT_INPUT⟩ 2 2
      = (.ok 2, .report_size 3) ∧
    hid_get_report_size cfg16 (one_report_device false HID_DEV_CLASS_OTHER [])
        ⟨1, .INPUT_REPORT_INPUT⟩ 2 2
      = (.ERR_INVALID_ARGS, .report_size 0) ∧
    hid_get_report_size cfg16 full_pointer_device ⟨0, .INPUT_REPORT_OUTPUT⟩ 2 2
      = (.ok 2, .report_size 3) ∧
    hid_get_report_size cfg16 (one_report_device false HID_DEV_CLASS_OTHER [])
        ⟨0, .INPUT_REPORT_OUTPUT⟩ 2 2
      = (.ERR_INVALID_ARGS, .report_size 0) ∧
    hid_get_report cfg16 full_pointer_device ⟨1, .INPUT_REPORT_INPUT⟩ 2 3
      = (.ERR_NOT_SUPPORTED, .untouched) ∧
    hid_get_report cfg16 (one_report_device false HID_DEV_CLASS_OTHER [])
        ⟨1, .INPUT_REPORT_INPUT⟩ 2 3
      = (.ERR_INVALID_ARGS, .untouched) ∧
    hid_set_report cfg16 full_pointer_device ⟨1, .INPUT_REPORT_INPUT⟩ 5 = .ERR_NOT_SUPPORTED ∧
    hid_set_report cfg16 (one_report_device false HID_DEV_CLASS_OTHER [])
        ⟨1, .INPUT_REPORT_INPUT⟩ 5 = .ERR_INVALID_ARGS := by
  refine ⟨by decide, by decide, by decide, by decide, by decide, by decide, by decide,
    by decide⟩

/-! ## The report-size query (C7) -/

/-- C7 (as amended).  For a non-pointer device whose first `num_reports` slots
are its allocated entries, and adequately sized input and output buffers: for
every (id, kind) without an allocated entry or with a recorded size of zero
`hid_get_report_size` stores 0 in the reply and fails with `ERR_INVALID_ARGS`,
the same error it returns for an undersized output buffer; for every
(id, kind) with a non-zero recorded bit count (a value of the size type whose
rounding does not wrap at 32 bits) it succeeds with `ceil(bits / 8)`. -/
theorem report_size_query (c : input_h) (hid : mx_hid_device) (es : List hid_report_size)
    (hcls : hid.dev_class ≠ HID_DEV_CLASS_POINTER)
    (hs : hid.sizes = table_of es) (hn : hid.num_reports = es.length)
    (hes : ∀ e ∈ es, 0 ≤ e.id)
    (inp : input_request) (f : size_field) (hk : field_of_type inp.type = some f)
    (in_len out_len : Nat) (hin : c.sizeof_get_report_size ≤ in_len)
    (hout : sizeof_report_size c ≤ out_len) :
    (entry_bits inp.id.val f es = 0 →
      hid_get_report_size c hid inp in_len out_len = (.ERR_INVALID_ARGS, .report_size 0)) ∧
    (entry_bits inp.id.val f es ≠ 0 →
      entry_bits inp.id.val f es < 2 ^ c.report_size.bits →
      entry_bits inp.id.val f es + 7 < 2 ^ 32 →
      hid_get_report_size c hid inp in_len out_len
        = (.ok (sizeof_report_size c), .report_size ((entry_bits inp.id.val f es + 7) / 8))) ∧
    (∀ out_len', out_len' < sizeof_report_size c →
      hid_get_report_size c hid inp in_len out_len' = (.ERR_INVALID_ARGS, .untouched)) := by
  have hby : hid_get_report_size_by_id c hid inp.id.val inp.type
      = to_report_size c (bits_to_bytes (entry_bits inp.id.val f es)) := by
    unfold hid_get_report_size_by_id
    rw [if_neg hcls, hs, hn, take_table_of,
      hid_get_report_size_by_id_loop_entries c inp.id.val inp.type f hk es hes]
  refine ⟨?_, ?_, ?_⟩
  · intro h0
    unfold hid_get_report_size
    rw [if_neg (by omega), if_neg (by omega)]
    have : hid_get_report_size_by_id c hid inp.id.val inp.type = 0 := by
      rw [hby, h0]
      unfold to_report_size bits_to_bytes
      cases c.report_size <;> rfl
    simp only [this, if_true]
  · intro hne h1 h2
    unfold hid_get_report_size
    rw [if_neg (by omega), if_neg (by omega)]
    have : hid_get_report_size_by_id c hid inp.id.val inp.type
        = (entry_bits inp.id.val f es + 7) / 8 := by
      rw [hby]
      have := bits_to_bytes_exact c _ h1 h2
      rwa [Nat.mod_eq_of_lt h1] at this
    have hpos : ¬ (entry_bits inp.id.val f es + 7) / 8 = 0 := by omega
    simp only [this, hpos, if_false]
  · intro out_len' h
    unfold hid_get_report_size
    rw [if_neg (by omega), if_pos h]

/-- Witness of `report_size_query`: the one-report device, queried for the
input size of report 0 (24 bits, 3 bytes). -/
theorem report_size_query_witness :
    ((one_report_device false HID_DEV_CLASS_OTHER []).dev_class ≠ HID_DEV_CLASS_POINTER ∧
      (one_report_device false HID_DEV_CLASS_OTHER []).sizes = table_of [⟨0, 24, 0, 0⟩] ∧
      (one_report_device false HID_DEV_CLASS_OTHER []).num_reports
        = [(⟨0, 24, 0, 0⟩ : hid_report_size)].length ∧
      (∀ e ∈ [(⟨0, 24, 0, 0⟩ : hid_report_size)], 0 ≤ e.id) ∧
      field_of_type (⟨0, .INPUT_REPORT_INPUT⟩ : input_request).type = some .in_size ∧
      cfg16.sizeof_get_report_size ≤ 2 ∧ sizeof_report_size cfg16 ≤ 2 ∧
      entry_bits 0 .in_size [⟨0, 24, 0, 0⟩] ≠ 0 ∧
      entry_bits 0 .in_size [⟨0, 24, 0, 0⟩] < 2 ^ cfg16.report_size.bits ∧
      entry_bits 0 .in_size [⟨0, 24, 0, 0⟩] + 7 < 2 ^ 32) ∧
    hid_get_report_size cfg16 (one_report_device false HID_DEV_CLASS_OTHER [])
        ⟨0, .INPUT_REPORT_INPUT⟩ 2 2
      = (.ok (sizeof_report_size cfg16),
          .report_size ((entry_bits 0 .in_size [⟨0, 24, 0, 0⟩] + 7) / 8)) :=
  ⟨⟨by decide, by decide, by decide, by decide, by decide, by decide, by decide, by decide,
      by decide, by decide⟩,
    (report_size_query cfg16 (one_report_device false HID_DEV_CLASS_OTHER [])
      [⟨0, 24, 0, 0⟩] (by decide) (by decide) (by decide) (by decide)
      ⟨0, .INPUT_REPORT_INPUT⟩ .in_size (by decide) 2 2 (by decide) (by decide)).2.1
      (by decide) (by decide) (by decide)⟩

/-- C7 (counterexample to the claim as stated).  On a freshly created
non-pointer device no id has an entry; the size query for (0, input) with
adequate buffers fails with `ERR_INVALID_ARGS`, which is the very status the
same query returns for an undersized output buffer, not a different error. -/
theorem report_size_not_found_counterexample :
    hid_get_report_size cfg16 (hid_create_device false HID_DEV_CLASS_OTHER)
        ⟨0, .INPUT_REPORT_INPUT⟩ 2 2
      = (.ERR_INVALID_ARGS, .report_size 0) ∧
    hid_get_report_size cfg16 (hid_create_device false HID_DEV_CLASS_OTHER)
        ⟨0, .INPUT_REPORT_INPUT⟩ 2 1
      = (.ERR_INVALID_ARGS, .untouched) ∧
    (hid_get_report_size cfg16 (hid_create_device false HID_DEV_CLASS_OTHER)
        ⟨0, .INPUT_REPORT_INPUT⟩ 2 2).1
      = (hid_get_report_size cfg16 (hid_create_device false HID_DEV_CLASS_OTHER)
        ⟨0, .INPUT_REPORT_INPUT⟩ 2 1).1 := by
  refine ⟨by decide, by decide, by decide⟩

/-! ## Undersized output buffers (C8) -/

/-- C8 (as amended).  For every query served by `hid_ioctl_instance` on a live
instance, if the caller's output buffer is smaller than the query's reply the
query fails and nothing is written to the output buffer; the status is
`ERR_INVALID_ARGS` for the protocol, descriptor-length, descriptor, report
count, report-id-list, report-size and max-report-size queries, and for get
report it is `ERR_NOT_ENOUGH_BUFFER` (`ERR_INVALID_ARGS` only when the request
header itself is too short). -/
theorem undersized_out_buf (c : input_h) (hid : mx_hid_instance) (root : mx_hid_device)
    (op : ioctl_op) (inp : input_request) (in_len out_len : Nat)
    (hlive : hid.flags &&& HID_FLAGS_DEAD = 0) (hroot : hid.root = some root)
    (hsmall : out_len < reply_size c root op inp) :
    hid_ioctl_instance c hid op inp in_len out_len
      = some (if op = .IOCTL_INPUT_GET_REPORT ∧ c.sizeof_get_report ≤ in_len
          then .ERR_NOT_ENOUGH_BUFFER else .ERR_INVALID_ARGS, .untouched) := by
  have hsz : sizeof_report_size c ≤ sizeof_int := by
    unfold sizeof_report_size sizeof_int
    cases c.report_size <;> decide
  unfold hid_ioctl_instance
  rw [if_neg (by simp [hlive]), hroot]
  cases op with
  | IOCTL_INPUT_GET_PROTOCOL =>
    simp only [reply_size] at hsmall
    simp [hid_get_protocol, hsmall]
  | IOCTL_INPUT_GET_REPORT_DESC_SIZE =>
    simp only [reply_size] at hsmall
    simp [hid_get_hid_desc_size, hsmall]
  | IOCTL_INPUT_GET_REPORT_DESC =>
    simp only [reply_size] at hsmall
    simp [hid_get_hid_desc, hsmall]
  | IOCTL_INPUT_GET_NUM_REPORTS =>
    simp only [reply_size] at hsmall
    simp [hid_get_num_reports, hsmall]
  | IOCTL_INPUT_GET_REPORT_IDS =>
    simp only [reply_size] at hsmall
    by_cases hp : root.dev_class = HID_DEV_CLASS_POINTER
    · rw [if_pos hp] at hsmall
      simp [hid_get_report_ids, hp, hsmall]
    · rw [if_neg hp] at hsmall
      simp [hid_get_report_ids, hp, hsmall]
  | IOCTL_INPUT_GET_REPORT_SIZE =>
    simp only [reply_size] at hsmall
    simp only [hid_get_report_size, hsmall, if_true]
    split_ifs <;> simp_all
  | IOCTL_INPUT_GET_MAX_REPORTSIZE =>
    simp only [reply_size] at hsmall
    have : out_len < sizeof_int := by omega
    simp [hid_get_max_reportsize, this]
  | IOCTL_INPUT_GET_REPORT =>
    simp only [reply_size] at hsmall
    have hne : ¬ hid_get_report_size_by_id c root inp.id.val inp.type = 0 := by omega
    by_cases hin : in_len < c.sizeof_get_report
    · have : ¬ c.sizeof_get_report ≤ in_len := by omega
      simp [hid_get_report, hin, this]
    · have : c.sizeof_get_report ≤ in_len := by omega
      simp [hid_get_report, hin, this, hne, hsmall]
  | IOCTL_INPUT_SET_REPORT => simp [reply_size] at hsmall
  | other => simp [reply_size] at hsmall

/-- Witness of `undersized_out_buf`: a one-octet buffer for the report count
of the one-report device. -/
theorem undersized_out_buf_witness :
    ((0 : Nat) &&& HID_FLAGS_DEAD = 0 ∧
      1 < reply_size cfg16 (one_report_device false HID_DEV_CLASS_OTHER [])
        .IOCTL_INPUT_GET_NUM_REPORTS ⟨0, .INPUT_REPORT_INPUT⟩) ∧
    hid_ioctl_instance cfg16
        ⟨some (one_report_device false HID_DEV_CLASS_OTHER []), 0, ⟨[]⟩, false⟩
        .IOCTL_INPUT_GET_NUM_REPORTS ⟨0, .INPUT_REPORT_INPUT⟩ 0 1
      = some (.ERR_INVALID_ARGS, .untouched) :=
  ⟨⟨by decide, by decide⟩,
    undersized_out_buf cfg16
      ⟨some (one_report_device false HID_DEV_CLASS_OTHER []), 0, ⟨[]⟩, false⟩
      (one_report_device false HID_DEV_CLASS_OTHER []) .IOCTL_INPUT_GET_NUM_REPORTS
      ⟨0, .INPUT_REPORT_INPUT⟩ 0 1 (by decide) rfl (by decide)⟩

/-- C8 (counterexample to the claim as stated).  On a live instance of the
one-report device the get-report query for (0, input) has a 3-byte reply; with
a 2-byte output buffer it fails with `ERR_NOT_ENOUGH_BUFFER`, not with
`ERR_INVALID_ARGS`. -/
theorem get_report_small_buf_counterexample :
    reply_size cfg16 (one_report_device false HID_DEV_CLASS_OTHER [])
        .IOCTL_INPUT_GET_REPORT ⟨0, .INPUT_REPORT_INPUT⟩ = 3 ∧
    hid_ioctl_instance cfg16
        ⟨some (one_report_device false HID_DEV_CLASS_OTHER []), 0, ⟨[]⟩, false⟩
        .IOCTL_INPUT_GET_REPORT ⟨0, .INPUT_REPORT_INPUT⟩ 2 2
      = some (.ERR_NOT_ENOUGH_BUFFER, .untouched) ∧
    hid_ioctl_instance cfg32
        ⟨some (one_report_device false HID_DEV_CLASS_OTHER []), 0, ⟨[]⟩, false⟩
        .IOCTL_INPUT_GET_REPORT ⟨0, .INPUT_REPORT_INPUT⟩ 2 2
      = some (.ERR_NOT_ENOUGH_BUFFER, .untouched) ∧
    mx_status_t.ERR_NOT_ENOUGH_BUFFER ≠ mx_status_t.ERR_INVALID_ARGS := by
  refine ⟨by decide, by decide, by decide, by decide⟩

/-! ## The max-report-size query (C9) -/

/-- Whatever the items, the device the item-level loop leaves behind
satisfies the table invariant (for the main items processed before the loop
stopped) and keeps its class. -/
theorem run_items_dev_inv (c : input_h) (items : List short_item) (st : process_state)
    (evs0 : List main_event) (hinv : table_inv c st.dev evs0) (hid : st.rpt_id < 256) :
    ∃ evs, table_inv c (run_items c items st).dev evs ∧
      (run_items c items st).dev.dev_class = st.dev.dev_class := by
  rw [run_items_dev_reached]
  have hpp : ∀ x ∈ reached_items items, ¬ is_push_pop x :=
    fun x hx => (mem_reached_items items x hx).2
  have hspec := run_items_spec c (reached_items items) hpp st evs0 hinv hid
  by_cases hle : distinct_ids (evs0 ++ main_events (regs_of st) (reached_items items))
      ≤ HID_MAX_REPORT_IDS
  · obtain ⟨st', hrun, hinv', hclass, _⟩ := hspec.1 hle
    rw [hrun]
    exact ⟨_, hinv', hclass⟩
  · obtain ⟨d, evs1, _, _, hrun, _, _, _, hinv', hclass, _⟩ := hspec.2 (by omega)
    rw [hrun]
    exact ⟨evs1, hinv', hclass⟩

theorem allocated_table_of (es : List hid_report_size) (hes : ∀ e ∈ es, 0 ≤ e.id) :
    allocated (table_of es) = es := by
  unfold allocated table_of
  rw [List.filter_append]
  have h1 : (es.filter fun e => decide (e.id ≠ -1)) = es := by
    rw [List.filter_eq_self]
    intro e he
    have := hes e he
    simp only [ne_eq, decide_not, Bool.not_eq_eq_eq_not, Bool.not_true, decide_eq_false_iff_not]
    omega
  have h2 : ((List.replicate (HID_MAX_REPORT_IDS - es.length) unset_slot).filter
      fun e => decide (e.id ≠ -1)) = [] := by
    rw [List.filter_eq_nil_iff]
    intro e he
    rw [List.eq_of_mem_replicate he]
    decide
  rw [h1, h2, List.append_nil]

theorem hid_get_report_ids_loop_entries (es : List hid_report_size)
    (hes : ∀ e ∈ es, 0 ≤ e.id ∧ e.id < 256) :
    hid_get_report_ids_loop es = some (es.map fun e => e.id.toNat) := by
  induction es with
  | nil => rfl
  | cons e es ih =>
    have he := hes e (List.mem_cons_self _ _)
    have ih' := ih (fun e' h => hes e' (List.mem_cons_of_mem _ h))
    have hpos : e.id ≥ 0 := he.1
    have hid : to_report_id e.id.toNat = e.id.toNat := by
      unfold to_report_id
      apply Nat.mod_eq_of_lt
      omega
    simp only [hid_get_report_ids_loop, hpos, if_true, ih', hid, List.map_cons]

/-- C10.  For every non-pointer device state produced by parsing any
descriptor from a freshly created device, whether parsing succeeded or
failed: the report-count query returns the number of allocated (non-unset)
entries; the report-id-list query with a buffer for at least that many ids
writes exactly the ids of the allocated entries in slot order and returns
count times `sizeof(input_report_id_t)`; and the slots below `num_reports`
all hold an id `>= 0`, so the assertion in `hid_get_report_ids` never
fires. -/
theorem parsed_report_ids (c : input_h) (b : Bool) (cls : Nat) (desc : List uint8_t)
    (hcls : cls ≠ HID_DEV_CLASS_POINTER) :
    ∃ status dev',
      hid_process_hid_report_desc c (fresh_device b cls desc) = some (status, dev') ∧
      (∀ out_len, sizeof_size_t ≤ out_len →
        hid_get_num_reports dev' out_len
          = (.ok sizeof_size_t, .size (allocated dev'.sizes).length)) ∧
      (∀ out_len, (allocated dev'.sizes).length * sizeof_report_id ≤ out_len →
        hid_get_report_ids dev' out_len
          = some (.ok ((allocated dev'.sizes).length * sizeof_report_id),
              .ids ((allocated dev'.sizes).map fun e => e.id.toNat))) ∧
      (∀ e ∈ allocated dev'.sizes, 0 ≤ e.id ∧ e.id < 256) ∧
      (∀ e ∈ dev'.sizes.take dev'.num_reports, 0 ≤ e.id) := by
  obtain ⟨items, frag, hdesc, hc, hf⟩ := exists_items desc
  obtain ⟨status, hproc⟩ := hid_process_result_dev c (fresh_device b cls desc) items frag
    (by simp [fresh_device, hdesc]) hc hf
  obtain ⟨evs, hinv, hclass⟩ := run_items_dev_inv c items
    (initial_state (fresh_device b cls desc)) [] (fresh_table_inv c b cls desc)
    (by simp [initial_state])
  refine ⟨status, _, hproc, ?_⟩
  generalize (run_items c items (initial_state (fresh_device b cls desc))).dev = dev'
    at hinv hclass
  have hcls' : dev'.dev_class ≠ HID_DEV_CLASS_POINTER := by
    rw [hclass]; exact hcls
  obtain ⟨es, hs, hlen, hn, hd, hnd, hids, hlt, hbits⟩ := hinv
  have hes : ∀ e ∈ es, 0 ≤ e.id ∧ e.id < 256 := by
    intro e he
    obtain ⟨ev', hev', h'⟩ := (hids e.id).mp (List.mem_map.mpr ⟨e, he, rfl⟩)
    have := hlt ev' hev'
    omega
  have halloc : allocated dev'.sizes = es := by
    rw [hs]; exact allocated_table_of es (fun e he => (hes e he).1)
  have htake : dev'.sizes.take dev'.num_reports = es := by
    rw [hs, hn]; exact take_table_of es
  rw [halloc, htake]
  refine ⟨?_, ?_, hes, fun e he => (hes e he).1⟩
  · intro out_len h
    unfold hid_get_num_reports
    rw [if_neg (by omega), if_neg hcls', hn]
  · intro out_len h
    unfold hid_get_report_ids
    have htake' : dev'.sizes.take es.length = es := by rw [← hn]; exact htake
    rw [if_neg hcls', hn, if_neg (by omega), htake', hid_get_report_ids_loop_entries es hes]

/-- Witness of `parsed_report_ids`: a keyboard-class device and the descriptor
`85 01 81 02 85 07 91 02 a4`, which fails at its Push item after two entries
have been allocated. -/
theorem parsed_report_ids_witness :
    HID_DEV_CLASS_KBD ≠ HID_DEV_CLASS_POINTER ∧
    (∃ status dev',
      hid_process_hid_report_desc cfg16
          (fresh_device true HID_DEV_CLASS_KBD
            [0x85, 0x01, 0x81, 0x02, 0x85, 0x07, 0x91, 0x02, 0xa4])
        = some (status, dev') ∧
      (∀ out_len, sizeof_size_t ≤ out_len →
        hid_get_num_reports dev' out_len
          = (.ok sizeof_size_t, .size (allocated dev'.sizes).length)) ∧
      (∀ out_len, (allocated dev'.sizes).length * sizeof_report_id ≤ out_len →
        hid_get_report_ids dev' out_len
          = some (.ok ((allocated dev'.sizes).length * sizeof_report_id),
              .ids ((allocated dev'.sizes).map fun e => e.id.toNat))) ∧
      (∀ e ∈ allocated dev'.sizes, 0 ≤ e.id ∧ e.id < 256) ∧
      (∀ e ∈ dev'.sizes.take dev'.num_reports, 0 ≤ e.id)) ∧
    (hid_process_hid_report_desc cfg16
        (fresh_device true HID_DEV_CLASS_KBD
          [0x85, 0x01, 0x81, 0x02, 0x85, 0x07, 0x91, 0x02, 0xa4])).map
      (fun p => (p.1, hid_get_num_reports p.2 8, hid_get_report_ids p.2 2))
      = some (.ERR_NOT_SUPPORTED, (.ok 8, .size 2), some (.ok 2, .ids [1, 7])) :=
  ⟨by decide,
    parsed_report_ids cfg16 true HID_DEV_CLASS_KBD
      [0x85, 0x01, 0x81, 0x02, 0x85, 0x07, 0x91, 0x02, 0xa4] (by decide),
    by decide⟩

/-! ## Find-or-claim on reachable tables (C11) -/

/-- The loop of `hid_find_report_id` on a table whose slots from `pre.length`
on are the entries `es` followed by `k` unset slots. -/
theorem hid_find_report_id_loop_table (r : Nat) (dev : mx_hid_device)
    (es : List hid_report_size) (k : Nat) (hes : ∀ e ∈ es, e.id ≠ -1)
    (pre : List hid_report_size)
    (h : dev.sizes = pre ++ (es ++ List.replicate k unset_slot)) :
    hid_find_report_id_loop r dev pre.length (es ++ List.replicate k unset_slot) =
      if (r : Int) ∈ (es.map fun e => e.id) then
        (((pre.length + es.findIdx fun e => decide (e.id = (r : Int)) : Nat) : Int), dev)
      else if k = 0 then (-1, dev)
      else
        (((pre.length + es.length : Nat) : Int),
          { dev with
            sizes := pre ++ (es ++ ⟨(r : Int), 0, 0, 0⟩ :: List.replicate (k - 1) unset_slot)
            num_reports := dev.num_reports + 1 }) := by
  induction es generalizing pre with
  | nil =>
    cases k with
    | zero => simp [hid_find_report_id_loop]
    | succ k =>
      have h1 : ¬ unset_slot.id = (r : Int) := by
        simp only [unset_slot]; omega
      have h2 : unset_slot.id = -1 := rfl
      simp only [List.nil_append, List.replicate_succ, hid_find_report_id_loop, List.map_nil,
        List.not_mem_nil, if_false, List.length_nil, Nat.add_zero]
      rw [if_neg h1, if_pos h2, if_neg (by omega)]
      simp only [List.nil_append, List.replicate_succ] at h
      rw [h, set_append_cons]
      simp [unset_slot]
  | cons e es ih =>
    have he : e.id ≠ -1 := hes e (List.mem_cons_self _ _)
    have hes' : ∀ e' ∈ es, e'.id ≠ -1 := fun e' h' => hes e' (List.mem_cons_of_mem _ h')
    by_cases h1 : e.id = (r : Int)
    · simp only [List.cons_append, hid_find_report_id_loop, List.map_cons, List.mem_cons]
      rw [if_pos h1, if_pos (Or.inl h1.symm)]
      simp [List.findIdx_cons, h1]
    · have h1' : ¬ (r : Int) = e.id := fun h' => h1 h'.symm
      have h' : dev.sizes = (pre ++ [e]) ++ (es ++ List.replicate k unset_slot) := by
        simp [h]
      have := ih hes' (pre ++ [e]) h'
      simp only [List.length_append, List.length_singleton, List.append_assoc,
        List.singleton_append] at this
      simp only [List.cons_append, hid_find_report_id_loop, List.map_cons, List.mem_cons,
        List.append_eq]
      rw [if_neg h1, if_neg he, this]
      simp only [h1', false_or, List.findIdx_cons, h1, decide_False, cond_false,
        List.length_cons]
      have e1 : pre.length + 1 + es.length = pre.length + (es.length + 1) := by omega
      have e2 : ∀ n, pre.length + 1 + n = pre.length + (n + 1) := by intro n; omega
      simp only [e1, e2]

theorem table_rep_create (b : Bool) (cls : Nat) : table_rep (hid_create_device b cls) [] :=
  ⟨rfl, by decide, rfl, by simp, by simp⟩

theorem table_of_succ (es : List hid_report_size) (e : hid_report_size) :
    es ++ e :: List.replicate (HID_MAX_REPORT_IDS - es.length - 1) unset_slot
      = table_of (es ++ [e]) := by
  simp only [table_of, List.length_append, List.length_singleton, List.append_assoc,
    List.singleton_append]
  congr 3

theorem table_of_unfold (es : List hid_report_size) (h : es.length < HID_MAX_REPORT_IDS) :
    table_of es
      = es ++ unset_slot :: List.replicate (HID_MAX_REPORT_IDS - es.length - 1) unset_slot := by
  unfold table_of
  have : HID_MAX_REPORT_IDS - es.length = (HID_MAX_REPORT_IDS - es.length - 1) + 1 := by omega
  rw [this, List.replicate_succ]
  simp

/-- The function `hid_find_report_id` on a table with allocated entries `es`. -/
theorem hid_find_report_id_rep (r : Nat) (d : mx_hid_device) (es : List hid_report_size)
    (h : table_rep d es) :
    hid_find_report_id r d =
      if (r : Int) ∈ (es.map fun e => e.id) then
        (((es.findIdx fun e => decide (e.id = (r : Int)) : Nat) : Int), d)
      else if es.length = HID_MAX_REPORT_IDS then (-1, d)
      else
        (((es.length : Nat) : Int),
          { d with sizes := table_of (es ++ [⟨(r : Int), 0, 0, 0⟩])
                   num_reports := d.num_reports + 1 }) := by
  obtain ⟨hs, hlen, hn, hpos, hnd⟩ := h
  have hes : ∀ e ∈ es, e.id ≠ -1 := fun e he => by have := hpos e he; omega
  have hl := hid_find_report_id_loop_table r d es (HID_MAX_REPORT_IDS - es.length) hes []
    (by simpa [table_of] using hs)
  simp only [List.length_nil, Nat.zero_add, List.nil_append] at hl
  unfold hid_find_report_id
  rw [hs]
  have hs' : hid_find_report_id_loop r d 0 (table_of es)
      = hid_find_report_id_loop r d 0
          (es ++ List.replicate (HID_MAX_REPORT_IDS - es.length) unset_slot) := rfl
  rw [hs', hl]
  by_cases hm : (r : Int) ∈ (es.map fun e => e.id)
  · rw [if_pos hm, if_pos hm]
  · rw [if_neg hm, if_neg hm]
    by_cases hfull : es.length = HID_MAX_REPORT_IDS
    · rw [if_pos hfull, if_pos (by omega)]
    · rw [if_neg hfull, if_neg (by omega), table_of_succ es _]

/-- A call of `hid_find_report_id` keeps the table representation. -/
theorem table_rep_find (r : Nat) (d : mx_hid_device) (es : List hid_report_size)
    (h : table_rep d es) : ∃ es', table_rep (hid_find_report_id r d).2 es' := by
  have hf := hid_find_report_id_rep r d es h
  obtain ⟨hs, hlen, hn, hpos, hnd⟩ := id h
  by_cases hm : (r : Int) ∈ (es.map fun e => e.id)
  · rw [if_pos hm] at hf
    rw [hf]
    exact ⟨es, h⟩
  · rw [if_neg hm] at hf
    by_cases hfull : es.length = HID_MAX_REPORT_IDS
    · rw [if_pos hfull] at hf
      rw [hf]
      exact ⟨es, h⟩
    · rw [if_neg hfull] at hf
      rw [hf]
      refine ⟨es ++ [⟨(r : Int), 0, 0, 0⟩], rfl, ?_, ?_, ?_, ?_⟩
      · simp only [List.length_append, List.length_singleton]; omega
      · simp only [List.length_append, List.length_singleton, hn]
      · intro e he
        rcases List.mem_append.mp he with he | he
        · exact hpos e he
        · simp only [List.mem_singleton] at he
          subst he
          simp
      · rw [List.map_append]
        exact List.Nodup.append hnd (List.nodup_singleton _)
          (by simp only [List.map_cons, List.map_nil, List.disjoint_singleton]; exact hm)

theorem find_reachable_rep (d : mx_hid_device) (h : find_reachable d) :
    ∃ es, table_rep d es := by
  induction h with
  | create b cls => exact ⟨[], table_rep_create b cls⟩
  | find d r _ _ ih =>
    obtain ⟨es, hes⟩ := ih
    exact table_rep_find r d es hes

theorem mem_table_of_id (es : List hid_report_size) (r : Nat) :
    (∃ e ∈ table_of es, e.id = (r : Int)) ↔ (r : Int) ∈ (es.map fun e => e.id) := by
  constructor
  · rintro ⟨e, he, hr⟩
    rcases List.mem_append.mp he with he | he
    · exact List.mem_map.mpr ⟨e, he, hr⟩
    · rw [List.eq_of_mem_replicate he] at hr
      simp only [unset_slot] at hr
      omega
  · intro h
    obtain ⟨e, he, hr⟩ := List.mem_map.mp h
    exact ⟨e, List.mem_append_left _ he, hr⟩

theorem mem_table_of_unset (es : List hid_report_size) (hes : ∀ e ∈ es, 0 ≤ e.id)
    (hlen : es.length ≤ HID_MAX_REPORT_IDS) :
    (∃ e ∈ table_of es, e.id = -1) ↔ es.length < HID_MAX_REPORT_IDS := by
  constructor
  · rintro ⟨e, he, hr⟩
    rcases List.mem_append.mp he with he | he
    · have := hes e he; omega
    · have := List.length_pos_of_mem he
      simp only [List.length_replicate] at this
      omega
  · intro h
    rw [table_of_unfold es h]
    exact ⟨unset_slot, by simp, rfl⟩

theorem findIdx_table_of_id (es : List hid_report_size) (r : Nat)
    (h : (r : Int) ∈ (es.map fun e => e.id)) :
    (table_of es).findIdx (fun e => decide (e.id = (r : Int)))
      = es.findIdx (fun e => decide (e.id = (r : Int))) := by
  unfold table_of
  rw [List.findIdx_append]
  have : es.findIdx (fun e => decide (e.id = (r : Int))) < es.length := by
    apply List.findIdx_lt_length_of_exists
    obtain ⟨e, he, hr⟩ := List.mem_map.mp h
    exact ⟨e, he, by simpa using hr⟩
  rw [if_pos this]

theorem findIdx_table_of_unset (es : List hid_report_size) (hes : ∀ e ∈ es, 0 ≤ e.id)
    (h : es.length < HID_MAX_REPORT_IDS) :
    (table_of es).findIdx (fun e => decide (e.id = -1)) = es.length := by
  rw [table_of_unfold es h, List.findIdx_append]
  have h1 : es.findIdx (fun e => decide (e.id = -1)) = es.length := by
    apply List.findIdx_eq_length_of_false
    intro e he
    have := hes e he
    simp only [decide_eq_false_iff_not]
    omega
  rw [h1, if_neg (by omega), List.findIdx_cons]
  simp [unset_slot]

/-- C11.  For every table reachable from a fresh table by calls to
`hid_find_report_id`, and every id `r` in 0..255: if some slot holds `r` the
call returns the index of the first such slot and leaves the device
unchanged; otherwise, if an unset slot exists, it returns the index of the
first unset slot, sets only that slot's id to `r` and increments
`num_reports` by one; it returns `-1` exactly when no slot holds `r` and no
slot is unset, it then leaves the device unchanged, and all 16 slots are
allocated to other ids. -/
theorem find_report_id_reachable (d : mx_hid_device) (r : Nat) (hd : find_reachable d)
    (_hr : r < 256) :
    ((∃ e ∈ d.sizes, e.id = (r : Int)) →
      hid_find_report_id r d
        = (((d.sizes.findIdx fun e => decide (e.id = (r : Int)) : Nat) : Int), d)) ∧
    ((∀ e ∈ d.sizes, e.id ≠ (r : Int)) → (∃ e ∈ d.sizes, e.id = -1) →
      hid_find_report_id r d
        = (((d.sizes.findIdx fun e => decide (e.id = -1) : Nat) : Int),
            { d with
              sizes := d.sizes.modify (fun e => { e with id := (r : Int) })
                (d.sizes.findIdx fun e => decide (e.id = -1))
              num_reports := d.num_reports + 1 })) ∧
    ((hid_find_report_id r d).1 = -1 ↔ ∀ e ∈ d.sizes, e.id ≠ (r : Int) ∧ e.id ≠ -1) ∧
    ((hid_find_report_id r d).1 = -1 → (hid_find_report_id r d).2 = d) ∧
    ((∀ e ∈ d.sizes, e.id ≠ (r : Int) ∧ e.id ≠ -1) →
      d.num_reports = HID_MAX_REPORT_IDS ∧
      (allocated d.sizes).length = HID_MAX_REPORT_IDS) := by
  obtain ⟨es, hrep⟩ := find_reachable_rep d hd
  have hf := hid_find_report_id_rep r d es hrep
  obtain ⟨hs, hlen, hn, hpos, hnd⟩ := id hrep
  have hmem := mem_table_of_id es r
  have hunset := mem_table_of_unset es hpos hlen
  rw [← hs] at hmem hunset
  have hnone : (∀ e ∈ d.sizes, e.id ≠ (r : Int) ∧ e.id ≠ -1) ↔
      (¬ (r : Int) ∈ (es.map fun e => e.id)) ∧ es.length = HID_MAX_REPORT_IDS := by
    constructor
    · intro h
      refine ⟨fun hm => ?_, ?_⟩
      · obtain ⟨e, he, hr⟩ := hmem.mpr hm
        exact (h e he).1 hr
      · by_contra hne
        obtain ⟨e, he, hr⟩ := hunset.mpr (by omega)
        exact (h e he).2 hr
    · rintro ⟨h1, h2⟩ e he
      refine ⟨fun hr => h1 (hmem.mp ⟨e, he, hr⟩), fun hr => ?_⟩
      have := hunset.mp ⟨e, he, hr⟩
      omega
  refine ⟨?_, ?_, ?_, ?_, ?_⟩
  · intro h
    have hm := hmem.mp h
    rw [hf, if_pos hm, hs, findIdx_table_of_id es r hm]
  · intro h1 h2
    have hm : ¬ (r : Int) ∈ (es.map fun e => e.id) := by
      intro hm
      obtain ⟨e, he, hr⟩ := hmem.mpr hm
      exact h1 e he hr
    have hlt := hunset.mp h2
    rw [hf, if_neg hm, if_neg (by omega), hs, findIdx_table_of_unset es hpos hlt]
    have : (table_of es).modify (fun e => { e with id := (r : Int) }) es.length
        = table_of (es ++ [⟨(r : Int), 0, 0, 0⟩]) := by
      rw [table_of_unfold es hlt, modify_append_cons, ← table_of_succ es _]
      rfl
    rw [this]
  · rw [hnone, hf]
    by_cases hm : (r : Int) ∈ (es.map fun e => e.id)
    · rw [if_pos hm]
      simp only [hm, not_true_eq_false, false_and, iff_false]
      omega
    · rw [if_neg hm]
      by_cases hfull : es.length = HID_MAX_REPORT_IDS
      · rw [if_pos hfull]
        simp [hm, hfull]
      · rw [if_neg hfull]
        simp only [hm, not_false_eq_true, hfull, and_false, iff_false]
        omega
  · intro h
    rw [hf] at h ⊢
    by_cases hm : (r : Int) ∈ (es.map fun e => e.id)
    · rw [if_pos hm]
    · rw [if_neg hm] at h ⊢
      by_cases hfull : es.length = HID_MAX_REPORT_IDS
      · rw [if_pos hfull]
      · rw [if_neg hfull] at h
        simp only at h
        omega
  · intro h
    obtain ⟨_, hfull⟩ := hnone.mp h
    refine ⟨by omega, ?_⟩
    rw [hs, allocated_table_of es hpos]
    exact hfull

/-- Witness of `find_report_id_reachable`: on the table reached from a fresh
one by claiming id 5, a lookup of 5 returns slot 0 and changes nothing, and a
lookup of 7 claims slot 1. -/
theorem find_report_id_reachable_witness :
    (find_reachable (hid_find_report_id 5 (hid_create_device false HID_DEV_CLASS_OTHER)).2 ∧
      (5 : Nat) < 256 ∧ (7 : Nat) < 256) ∧
    hid_find_report_id 5 (hid_find_report_id 5 (hid_create_device false HID_DEV_CLASS_OTHER)).2
      = (0, (hid_find_report_id 5 (hid_create_device false HID_DEV_CLASS_OTHER)).2) ∧
    ((hid_find_report_id 7
        (hid_find_report_id 5 (hid_create_device false HID_DEV_CLASS_OTHER)).2).1 = -1 ↔
      ∀ e ∈ (hid_find_report_id 5 (hid_create_device false HID_DEV_CLASS_OTHER)).2.sizes,
        e.id ≠ ((7 : Nat) : Int) ∧ e.id ≠ -1) :=
  ⟨⟨find_reachable.find _ 5 (find_reachable.create false HID_DEV_CLASS_OTHER) (by decide),
      by decide, by decide⟩,
    (find_report_id_reachable
      (hid_find_report_id 5 (hid_create_device false HID_DEV_CLASS_OTHER)).2 5
      (find_reachable.find _ 5 (find_reachable.create false HID_DEV_CLASS_OTHER) (by decide))
      (by decide)).1 (by decide),
    (find_report_id_reachable
      (hid_find_report_id 5 (hid_create_device false HID_DEV_CLASS_OTHER)).2 7
      (find_reachable.find _ 5 (find_reachable.create false HID_DEV_CLASS_OTHER) (by decide))
      (by decide)).2.2.1⟩

/-! ## The size-table invariant (C12) -/

theorem ids_kept_iff (d d' : mx_hid_device) :
    ids_kept d d' ↔ ∀ (i : Nat) (x : Int), (d.sizes.map fun e => e.id)[i]? = some x → x ≠ -1 →
      (d'.sizes.map fun e => e.id)[i]? = some x := by
  unfold ids_kept
  constructor
  · intro h i x hx hne
    rw [List.getElem?_map] at hx ⊢
    cases he : d.sizes[i]? with
    | none => rw [he] at hx; simp at hx
    | some e =>
      rw [he] at hx
      simp only [Option.map_some', Option.some.injEq] at hx
      obtain ⟨e', he', hid⟩ := h i e he (by rw [hx]; exact hne)
      rw [he']
      simp [hid, hx]
  · intro h i e he hne
    have := h i e.id (by rw [List.getElem?_map, he]; rfl) hne
    rw [List.getElem?_map] at this
    cases he' : d'.sizes[i]? with
    | none => rw [he'] at this; simp at this
    | some e' =>
      rw [he'] at this
      simp only [Option.map_some', Option.some.injEq] at this
      exact ⟨e', rfl, this⟩

theorem ids_kept_refl (d : mx_hid_device) : ids_kept d d :=
  fun _ e he _ => ⟨e, he, rfl⟩

theorem ids_kept_trans (d1 d2 d3 : mx_hid_device) (h12 : ids_kept d1 d2)
    (h23 : ids_kept d2 d3) : ids_kept d1 d3 := by
  intro i e he hne
  obtain ⟨e2, he2, hid2⟩ := h12 i e he hne
  obtain ⟨e3, he3, hid3⟩ := h23 i e2 he2 (by rw [hid2]; exact hne)
  exact ⟨e3, he3, by rw [hid3, hid2]⟩

/-- The one-pass find-or-claim changes no id that is set. -/
theorem slots_add_ids_kept (c : input_h) (r : Nat) (f : size_field) (inc : Nat)
    (l : List hid_report_size) (p : List hid_report_size × Nat)
    (h : slots_add c r f inc l = some p) (i : Nat) (x : Int)
    (hx : (l.map fun e => e.id)[i]? = some x) (hne : x ≠ -1) :
    (p.1.map fun e => e.id)[i]? = some x := by
  induction l generalizing i p with
  | nil => simp [slots_add] at h
  | cons e rest ih =>
    simp only [slots_add] at h
    by_cases h1 : e.id = (r : Int)
    · rw [if_pos h1] at h
      simp only [Option.some.injEq] at h
      subst h
      cases i with
      | zero => simpa [add_to_field_id] using hx
      | succ i => simpa using hx
    · rw [if_neg h1] at h
      by_cases h2 : e.id = -1
      · rw [if_pos h2] at h
        simp only [Option.some.injEq] at h
        subst h
        cases i with
        | zero =>
          simp only [List.map_cons, List.getElem?_cons_zero, Option.some.injEq] at hx
          exact absurd (hx ▸ h2) hne
        | succ i => simpa using hx
      · rw [if_neg h2] at h
        cases hs : slots_add c r f inc rest with
        | none => rw [hs] at h; simp at h
        | some q =>
          rw [hs] at h
          simp only [Option.some.injEq] at h
          subst h
          cases i with
          | zero => simpa using hx
          | succ i =>
            simp only [List.map_cons, List.getElem?_cons_succ] at hx ⊢
            exact ih q hs i hx

theorem map_id_modify_add (c : input_h) (f : size_field) (inc : Nat)
    (l : List hid_report_size) (n : Nat) :
    ((l.modify (add_to_field c f inc) n).map fun e => e.id) = l.map fun e => e.id := by
  induction l generalizing n with
  | nil => simp
  | cons e rest ih =>
    cases n with
    | zero => simp [add_to_field_id]
    | succ n => simp [ih]

/-- A call of `hid_find_report_id` changes no id that is set. -/
theorem hid_find_report_id_ids_kept (r : Nat) (d : mx_hid_device) :
    ids_kept d (hid_find_report_id r d).2 := by
  have hspec := hid_find_report_id_loop_spec cfg16 r .in_size 0 d d.sizes [] rfl
  simp only [List.length_nil, List.nil_append] at hspec
  unfold hid_find_report_id
  cases hs : slots_add cfg16 r .in_size 0 d.sizes with
  | none =>
    rw [hs] at hspec
    simp only at hspec
    rw [hspec]
    exact ids_kept_refl d
  | some p =>
    rw [hs] at hspec
    simp only at hspec
    have hsz := congrArg mx_hid_device.sizes hspec.2
    simp only at hsz
    rw [ids_kept_iff]
    intro i x hx hne
    have := slots_add_ids_kept cfg16 r .in_size 0 d.sizes p hs i x hx hne
    rw [← hsz, map_id_modify_add] at this
    exact this

/-- One pass through the `switch` either leaves the device alone or performs
one find-or-claim with an addition. -/
theorem hid_process_item_dev (c : input_h) (st : process_state) :
    (hid_process_item c st).dev = st.dev ∨
    ∃ f inc p, slots_add c st.rpt_id f inc st.dev.sizes = some p ∧
      (hid_process_item c st).dev
        = { st.dev with sizes := p.1, num_reports := st.dev.num_reports + p.2 } := by
  have hmain : ∀ f inc, (hid_process_main c f inc st).dev = st.dev ∨
      ∃ p, slots_add c st.rpt_id f inc st.dev.sizes = some p ∧
        (hid_process_main c f inc st).dev
          = { st.dev with sizes := p.1, num_reports := st.dev.num_reports + p.2 } := by
    intro f inc
    rw [hid_process_main_eq]
    cases hs : slots_add c st.rpt_id f inc st.dev.sizes with
    | none => exact Or.inl rfl
    | some p => exact Or.inr ⟨p, rfl, rfl⟩
  unfold hid_process_item
  simp only
  split_ifs
  all_goals first
    | exact Or.inl rfl
    | exact (hmain _ _).imp id (fun ⟨p, h1, h2⟩ => ⟨_, _, p, h1, h2⟩)

/-- One pass through the `switch` changes no id that is set. -/
theorem hid_process_item_ids_kept (c : input_h) (st : process_state) :
    ids_kept st.dev (hid_process_item c st).dev := by
  rcases hid_process_item_dev c st with h | ⟨f, inc, p, hs, h⟩
  · rw [h]; exact ids_kept_refl _
  · rw [h, ids_kept_iff]
    intro i x hx hne
    exact slots_add_ids_kept c st.rpt_id f inc st.dev.sizes p hs i x hx hne

/-- One pass through the `switch` keeps the table representation. -/
theorem table_rep_item (c : input_h) (st : process_state) (es : List hid_report_size)
    (h : table_rep st.dev es) : ∃ es', table_rep (hid_process_item c st).dev es' := by
  rcases hid_process_item_dev c st with h' | ⟨f, inc, p, hs, h'⟩
  · rw [h']; exact ⟨es, h⟩
  · obtain ⟨hsz, hlen, hn, hpos, hnd⟩ := h
    have hes : ∀ e ∈ es, e.id ≠ -1 := fun e he => by have := hpos e he; omega
    have hsa := slots_add_table c st.rpt_id f inc es (HID_MAX_REPORT_IDS - es.length) hes
    have hsz' : st.dev.sizes = es ++ List.replicate (HID_MAX_REPORT_IDS - es.length) unset_slot :=
      hsz
    rw [hsz', hsa] at hs
    have hids := entries_add_ids c st.rpt_id f inc es
    have hlen_new : (entries_add c st.rpt_id f inc es).length
        = ((entries_add c st.rpt_id f inc es).map fun e => e.id).length := by simp
    have hpos_new : ∀ e ∈ entries_add c st.rpt_id f inc es, 0 ≤ e.id := by
      intro e he
      have hm : e.id ∈ ((entries_add c st.rpt_id f inc es).map fun e => e.id) :=
        List.mem_map.mpr ⟨e, he, rfl⟩
      rw [hids] at hm
      split_ifs at hm with hmem
      · obtain ⟨e0, he0, hid0⟩ := List.mem_map.mp hm
        have := hpos e0 he0
        omega
      · rcases List.mem_append.mp hm with hm | hm
        · obtain ⟨e0, he0, hid0⟩ := List.mem_map.mp hm
          have := hpos e0 he0
          omega
        · simp only [List.mem_singleton] at hm
          omega
    rw [h']
    by_cases hm : (st.rpt_id : Int) ∈ (es.map fun e => e.id)
    · rw [if_pos hm] at hs hids
      simp only [Option.some.injEq] at hs
      subst hs
      rw [hids, List.length_map] at hlen_new
      refine ⟨entries_add c st.rpt_id f inc es, ?_, ?_, ?_, hpos_new, ?_⟩
      · simp only [table_of, hlen_new]
      · omega
      · simp only [Nat.add_zero, hn, hlen_new]
      · rw [hids]; exact hnd
    · rw [if_neg hm] at hs hids
      by_cases hk : HID_MAX_REPORT_IDS - es.length = 0
      · rw [if_pos hk] at hs
        simp at hs
      · rw [if_neg hk] at hs
        simp only [Option.some.injEq] at hs
        subst hs
        rw [hids, List.length_append, List.length_map, List.length_singleton] at hlen_new
        refine ⟨entries_add c st.rpt_id f inc es, ?_, ?_, ?_, hpos_new, ?_⟩
        · simp only [table_of, hlen_new]
          congr 2
        · omega
        · simp only [hn, hlen_new]
        · rw [hids]
          exact List.Nodup.append hnd (List.nodup_singleton _)
            (by simp only [List.disjoint_singleton]; exact hm)

theorem table_evolves_rep (c : input_h) (d d' : mx_hid_device) (es : List hid_report_size)
    (hd : table_rep d es) (h : table_evolves c d d') : ∃ es', table_rep d' es' := by
  induction h with
  | refl => exact ⟨es, hd⟩
  | find d' r _ ih =>
    obtain ⟨es', h'⟩ := ih
    exact table_rep_find r d' es' h'
  | item st _ ih =>
    obtain ⟨es', h'⟩ := ih
    exact table_rep_item c st es' h'

theorem table_evolves_ids_kept (c : input_h) (d d' : mx_hid_device)
    (h : table_evolves c d d') : ids_kept d d' := by
  induction h with
  | refl => exact ids_kept_refl d
  | find d' r _ ih => exact ids_kept_trans _ _ _ ih (hid_find_report_id_ids_kept r d')
  | item st _ ih => exact ids_kept_trans _ _ _ ih (hid_process_item_ids_kept c st)

theorem table_evolves_trans (c : input_h) (d1 d2 d3 : mx_hid_device)
    (h12 : table_evolves c d1 d2) (h23 : table_evolves c d2 d3) : table_evolves c d1 d3 := by
  induction h23 with
  | refl => exact h12
  | find d' r _ ih => exact table_evolves.find _ d' r ih
  | item st _ ih => exact table_evolves.item _ st ih

/-- The devices after the iterations of the interpreter loop are reached
from the device at its start, and a later one keeps the ids set in an
earlier one. -/
theorem hid_process_devs_loop_evolves (c : input_h) (desc : List uint8_t) (fuel buf : Nat)
    (st : process_state) :
    (∀ d ∈ hid_process_devs_loop c desc fuel buf st, table_evolves c st.dev d) ∧
    List.Pairwise ids_kept (st.dev :: hid_process_devs_loop c desc fuel buf st) := by
  induction fuel generalizing buf st with
  | zero => simp [hid_process_devs_loop]
  | succ fuel ih =>
    unfold hid_process_devs_loop
    by_cases hlt : buf < desc.length
    · rw [if_pos hlt]
      cases hp : hid_parse_short_item desc buf st.item with
      | none => simp
      | some q =>
        obtain ⟨buf', item⟩ := q
        simp only
        have hstep : table_evolves c st.dev
            (hid_process_item c { st with item := item }).dev :=
          table_evolves.item st.dev { st with item := item } (table_evolves.refl st.dev)
        cases hi : hid_process_item c { st with item := item } with
        | ret status dev =>
          rw [hi] at hstep
          simp only [process_step.dev] at hstep
          simp only [List.mem_singleton, forall_eq, List.pairwise_cons, List.not_mem_nil,
            false_implies, implies_true, List.Pairwise.nil, and_true]
          exact ⟨hstep, table_evolves_ids_kept c _ _ hstep⟩
        | cont st' =>
          rw [hi] at hstep
          simp only [process_step.dev] at hstep
          obtain ⟨ih1, ih2⟩ := ih buf' st'
          have hall : ∀ d ∈ st'.dev :: hid_process_devs_loop c desc fuel buf' st',
              table_evolves c st.dev d := by
            intro d hd
            rcases List.mem_cons.mp hd with rfl | hd
            · exact hstep
            · exact table_evolves_trans c _ _ _ hstep (ih1 d hd)
          refine ⟨hall, ?_⟩
          rw [List.pairwise_cons]
          exact ⟨fun d hd => table_evolves_ids_kept c _ _ (hall d hd), ih2⟩
    · rw [if_neg hlt]
      simp

/-- The device the interpreter loop returns is the one after its last
iteration (the device at its start when it made none). -/
theorem hid_process_loop_last (c : input_h) (desc : List uint8_t) (fuel buf : Nat)
    (st : process_state) (status : mx_status_t) (dev : mx_hid_device)
    (h : hid_process_loop c desc fuel buf st = some (status, dev)) :
    dev = ((hid_process_devs_loop c desc fuel buf st).getLast?).getD st.dev := by
  induction fuel generalizing buf st with
  | zero =>
    unfold hid_process_loop at h
    split_ifs at h
    simp only [Option.some.injEq, Prod.mk.injEq] at h
    simp [hid_process_devs_loop, h.2]
  | succ fuel ih =>
    unfold hid_process_loop at h
    unfold hid_process_devs_loop
    by_cases hlt : buf < desc.length
    · rw [if_pos hlt] at h ⊢
      cases hp : hid_parse_short_item desc buf st.item with
      | none => rw [hp] at h; simp at h
      | some q =>
        obtain ⟨buf', item⟩ := q
        rw [hp] at h
        simp only at h ⊢
        cases hi : hid_process_item c { st with item := item } with
        | ret status' dev' =>
          rw [hi] at h
          simp only [Option.some.injEq, Prod.mk.injEq] at h
          simp [h.2]
        | cont st' =>
          rw [hi] at h
          simp only at h ⊢
          have := ih buf' st' h
          rw [this, List.getLast?_cons]
          cases hl : (hid_process_devs_loop c desc fuel buf' st').getLast? with
          | none => simp
          | some d => simp
    · rw [if_neg hlt] at h ⊢
      simp only [Option.some.injEq, Prod.mk.injEq] at h
      simp [h.2]

theorem table_rep_props (d : mx_hid_device) (es : List hid_report_size) (h : table_rep d es) :
    d.sizes.length = HID_MAX_REPORT_IDS ∧
    d.num_reports = (allocated d.sizes).length ∧
    allocated d.sizes = d.sizes.take d.num_reports ∧
    ((allocated d.sizes).map fun e => e.id).Nodup := by
  obtain ⟨hs, hlen, hn, hpos, hnd⟩ := h
  have ha : allocated d.sizes = es := by rw [hs]; exact allocated_table_of es hpos
  refine ⟨?_, ?_, ?_, ?_⟩
  · rw [hs]
    simp only [table_of, List.length_append, List.length_replicate]
    omega
  · rw [ha, hn]
  · rw [ha, hs, hn, take_table_of]
  · rw [ha]; exact hnd

/-- C12.  Size-table invariant.  Starting from the table built by
`hid_create_device`, every device reached by calls of `hid_find_report_id`
and passes through the interpreter's `switch` has 16 slots, `num_reports`
equal to the number of slots whose id is not the unset sentinel, its
allocated slots exactly the slots `0..num_reports-1`, with pairwise distinct
ids, and every further step keeps each id that is set.  The devices after
every iteration of `hid_process_hid_report_desc` on any octet sequence are
reached in this way, a later one keeps the ids set in an earlier one, and the
device returned (with a success or an error status) is the last of them. -/
theorem size_table_invariant (c : input_h) (b : Bool) (cls : Nat) (desc : List uint8_t) :
    (∀ d, table_evolves c (fresh_device b cls desc) d →
      (d.sizes.length = HID_MAX_REPORT_IDS ∧
        d.num_reports = (allocated d.sizes).length ∧
        allocated d.sizes = d.sizes.take d.num_reports ∧
        ((allocated d.sizes).map fun e => e.id).Nodup) ∧
      (∀ r, ids_kept d (hid_find_report_id r d).2) ∧
      (∀ st, st.dev = d → ids_kept d (hid_process_item c st).dev) ∧
      ∀ d', table_evolves c d d' → ids_kept d d') ∧
    (∀ d ∈ hid_process_devs c (fresh_device b cls desc),
      table_evolves c (fresh_device b cls desc) d) ∧
    List.Pairwise ids_kept
      (fresh_device b cls desc :: hid_process_devs c (fresh_device b cls desc)) ∧
    ∃ status dev', hid_process_hid_report_desc c (fresh_device b cls desc)
        = some (status, dev') ∧
      dev' = ((hid_process_devs c (fresh_device b cls desc)).getLast?).getD
        (fresh_device b cls desc) := by
  have hfresh : table_rep (fresh_device b cls desc) [] :=
    ⟨rfl, by decide, rfl, by simp, by simp⟩
  have htrace := hid_process_devs_loop_evolves c desc desc.length 0
    (initial_state (fresh_device b cls desc))
  refine ⟨?_, htrace.1, htrace.2, ?_⟩
  · intro d hd
    obtain ⟨es, hrep⟩ := table_evolves_rep c _ d [] hfresh hd
    refine ⟨table_rep_props d es hrep, fun r => hid_find_report_id_ids_kept r d, ?_,
      fun d' hd' => table_evolves_ids_kept c d d' hd'⟩
    intro st hst
    rw [← hst]
    exact hid_process_item_ids_kept c st
  · obtain ⟨status, dev', hproc⟩ := hid_process_total c (fresh_device b cls desc)
    refine ⟨status, dev', hproc, ?_⟩
    exact hid_process_loop_last c desc desc.length 0
      (initial_state (fresh_device b cls desc)) status dev' hproc

/-- Witness of `size_table_invariant`: the device left by one pass through the
`switch` for an Input item on a fresh device has 16 slots, of which exactly
the first `num_reports` are allocated, with distinct ids. -/
theorem size_table_invariant_witness :
    table_evolves cfg16 (fresh_device false HID_DEV_CLASS_OTHER [])
      (hid_process_item cfg16 input_item_state).dev ∧
    ((hid_process_item cfg16 input_item_state).dev.sizes.length = HID_MAX_REPORT_IDS ∧
      (hid_process_item cfg16 input_item_state).dev.num_reports
        = (allocated (hid_process_item cfg16 input_item_state).dev.sizes).length ∧
      allocated (hid_process_item cfg16 input_item_state).dev.sizes
        = (hid_process_item cfg16 input_item_state).dev.sizes.take
            (hid_process_item cfg16 input_item_state).dev.num_reports ∧
      ((allocated (hid_process_item cfg16 input_item_state).dev.sizes).map
        fun e => e.id).Nodup) :=
  ⟨table_evolves.item _ input_item_state (table_evolves.refl _),
    ((size_table_invariant cfg16 false HID_DEV_CLASS_OTHER []).1 _
      (table_evolves.item _ input_item_state (table_evolves.refl _))).1⟩

/-! ## Get report and set report (C13) -/

theorem or_dead_and_dead (flags : Nat) :
    (flags ||| HID_FLAGS_DEAD) &&& HID_FLAGS_DEAD ≠ 0 := by
  unfold HID_FLAGS_DEAD
  rw [Nat.and_one_is_mod]
  have : (flags ||| 1) % 2 = 1 := Nat.or_mod_two_eq_one.mpr (Or.inr rfl)
  omega

theorem hid_io_closed_eq_map (instance_list : List mx_hid_instance) :
    hid_io_closed instance_list = instance_list.map hid_io_closed_instance := by
  induction instance_list with
  | nil => rfl
  | cons inst rest ih => simp [hid_io_closed, ih]

/-- C14.  For every list of registered reader instances, whatever their FIFOs
hold: after `hid_io_closed` every registered instance has its dead flag and
its readable signal set, its FIFO and root untouched, and every later
`hid_read_instance` or `hid_ioctl_instance` on it fails with
`ERR_CHANNEL_CLOSED` and leaves the instance, its FIFO and its readable
signal as they are (so the next call fails in the same way). -/
theorem detach_marks_dead (ops : fifo_h) (c : input_h) (instance_list : List mx_hid_instance) :
    (hid_io_closed instance_list).length = instance_list.length ∧
    (∀ (i : Nat) (inst : mx_hid_instance), instance_list[i]? = some inst →
      ∃ inst', (hid_io_closed instance_list)[i]? = some inst' ∧
        inst'.flags &&& HID_FLAGS_DEAD ≠ 0 ∧ inst'.readable = true ∧
        inst'.fifo = inst.fifo ∧ inst'.root = inst.root) ∧
    (∀ inst' ∈ hid_io_closed instance_list,
      ∀ (count : Nat) (op : ioctl_op) (inp : input_request) (in_len out_len : Nat),
        hid_read_instance ops inst' count = (.ERR_CHANNEL_CLOSED, [], inst') ∧
        hid_ioctl_instance c inst' op inp in_len out_len
          = some (.ERR_CHANNEL_CLOSED, .untouched)) := by
  rw [hid_io_closed_eq_map]
  refine ⟨by simp, ?_, ?_⟩
  · intro i inst hi
    refine ⟨hid_io_closed_instance inst, by simp [hi], ?_, rfl, rfl, rfl⟩
    exact or_dead_and_dead inst.flags
  · intro inst' hmem count op inp in_len out_len
    obtain ⟨inst, _, rfl⟩ := List.mem_map.mp hmem
    have hdead : (hid_io_closed_instance inst).flags &&& HID_FLAGS_DEAD ≠ 0 :=
      or_dead_and_dead inst.flags
    constructor
    · unfold hid_read_instance
      rw [if_pos hdead]
    · unfold hid_ioctl_instance
      rw [if_pos hdead]

/-- Witness of `detach_marks_dead`: of two registered readers, the one with a
full FIFO is dead and readable after detach with its FIFO as it was, and
reads and ioctls on it fail with `ERR_CHANNEL_CLOSED`. -/
theorem detach_marks_dead_witness :
    ([full_reader, idle_reader][0]? = some full_reader ∧
      hid_io_closed_instance full_reader ∈ hid_io_closed [full_reader, idle_reader]) ∧
    (∃ inst', (hid_io_closed [full_reader, idle_reader])[0]? = some inst' ∧
      inst'.flags &&& HID_FLAGS_DEAD ≠ 0 ∧ inst'.readable = true ∧
      inst'.fifo = full_reader.fifo ∧ inst'.root = full_reader.root) ∧
    hid_read_instance small_fifo (hid_io_closed_instance full_reader) 8
      = (.ERR_CHANNEL_CLOSED, [], hid_io_closed_instance full_reader) ∧
    hid_ioctl_instance cfg16 (hid_io_closed_instance full_reader)
        .IOCTL_INPUT_GET_NUM_REPORTS ⟨0, .INPUT_REPORT_INPUT⟩ 0 8
      = some (.ERR_CHANNEL_CLOSED, .untouched) :=
  ⟨⟨by decide, by decide⟩,
    (detach_marks_dead small_fifo cfg16 [full_reader, idle_reader]).2.1 0 full_reader
      (by decide),
    (detach_marks_dead small_fifo cfg16 [full_reader, idle_reader]).2.2
      (hid_io_closed_instance full_reader) (by decide) 8 .IOCTL_INPUT_GET_NUM_REPORTS
      ⟨0, .INPUT_REPORT_INPUT⟩ 0 8⟩

/-! ## Delivery (C15) -/

theorem hid_io_read_eq_map (ops : fifo_h) (instance_list : List mx_hid_instance)
    (buf : List uint8_t) :
    hid_io_read ops instance_list buf = instance_list.map (hid_io_read_instance ops buf) := by
  induction instance_list with
  | nil => rfl
  | cons inst rest ih => simp [hid_io_read, ih]

/-- C15.  For every list of registered instances and every delivered payload,
`hid_io_read` treats each instance on its own, in registry order: its FIFO
becomes the result of one `mx_hid_fifo_write` of the payload on its own FIFO,
its flags and root stay, its readable signal is unchanged when the write
returned `<= 0` and is set when the write returned `> 0` into a FIFO that was
empty.  What happens to one instance neither prevents nor alters what happens
to another: delivery to a concatenation is the concatenation of the
deliveries, and after any sequence of payloads every instance is in the state
it would have reached had it been the only one registered. -/
theorem deliver_each_instance (ops : fifo_h) (instance_list : List mx_hid_instance)
    (buf : List uint8_t) :
    hid_io_read ops instance_list buf = instance_list.map (hid_io_read_instance ops buf) ∧
    (∀ inst : mx_hid_instance,
      (hid_io_read_instance ops buf inst).fifo = (ops.write inst.fifo buf).2 ∧
      (hid_io_read_instance ops buf inst).flags = inst.flags ∧
      (hid_io_read_instance ops buf inst).root = inst.root ∧
      (status_le_zero (ops.write inst.fifo buf).1 = true →
        (hid_io_read_instance ops buf inst).readable = inst.readable) ∧
      (status_le_zero (ops.write inst.fifo buf).1 = false →
        (hid_io_read_instance ops buf inst).readable
          = if ops.size inst.fifo = 0 then true else inst.readable)) ∧
    (∀ l1 l2 : List mx_hid_instance,
      hid_io_read ops (l1 ++ l2) buf = hid_io_read ops l1 buf ++ hid_io_read ops l2 buf) ∧
    (∀ payloads : List (List uint8_t),
      payloads.foldl (hid_io_read ops) instance_list
        = instance_list.map fun inst =>
            payloads.foldl (fun i p => hid_io_read_instance ops p i) inst) := by
  refine ⟨hid_io_read_eq_map ops instance_list buf, ?_, ?_, ?_⟩
  · intro inst
    unfold hid_io_read_instance
    simp only
    refine ⟨?_, ?_, ?_, ?_, ?_⟩
    · split_ifs <;> rfl
    · split_ifs <;> rfl
    · split_ifs <;> rfl
    · intro h
      rw [if_pos h]
    · intro h
      rw [if_neg (by simp [h])]
  · intro l1 l2
    simp [hid_io_read_eq_map]
  · intro payloads
    induction payloads generalizing instance_list with
    | nil => simp
    | cons p ps ih =>
      simp only [List.foldl_cons]
      rw [ih, hid_io_read_eq_map, List.map_map]
      rfl

/-- Witness of `deliver_each_instance`: one octet delivered to a reader whose
FIFO is full (the write returns 0) and to a reader whose FIFO is empty: the
first keeps its readable signal, the second becomes readable. -/
theorem deliver_each_instance_witness :
    (status_le_zero (small_fifo.write full_reader.fifo [9]).1 = true ∧
      status_le_zero (small_fifo.write idle_reader.fifo [9]).1 = false) ∧
    (hid_io_read_instance small_fifo [9] full_reader).readable = full_reader.readable ∧
    (hid_io_read_instance small_fifo [9] idle_reader).readable
      = (if small_fifo.size idle_reader.fifo = 0 then true else idle_reader.readable) :=
  ⟨⟨by decide, by decide⟩,
    ((deliver_each_instance small_fifo [full_reader, idle_reader] [9]).2.1
      full_reader).2.2.2.1 (by decide),
    ((deliver_each_instance small_fifo [full_reader, idle_reader] [9]).2.1
      idle_reader).2.2.2.2 (by decide)⟩

/-! ## Buffer safety of the interpreter (C16) -/

/-- Called at an offset inside the descriptor, `hid_parse_short_item` makes
no read outside it, and returns an offset further on and not past the end. -/
theorem hid_parse_short_item_in_bounds (desc : List uint8_t) (buf : Nat) (item : hid_item)
    (h : buf < desc.length) :
    ∃ buf' item', hid_parse_short_item desc buf item = some (buf', item') ∧
      buf < buf' ∧ buf' ≤ desc.length := by
  have hsplit : desc = desc.take buf ++ desc[buf] :: desc.drop (buf + 1) := by
    rw [← List.drop_eq_getElem_cons h, List.take_append_drop]
  have hpre : (desc.take buf).length = buf := by
    rw [List.length_take]; omega
  by_cases ht : (desc.drop (buf + 1)).length < item_bSize desc[buf]
  · have := hid_parse_short_item_truncated (desc.take buf) (desc.drop (buf + 1)) desc[buf] ht item
    rw [← hsplit, hpre] at this
    exact ⟨_, _, this, h, le_refl _⟩
  · have hx : (⟨desc[buf], (desc.drop (buf + 1)).take (item_bSize desc[buf])⟩ :
        short_item).complete := by
      simp only [short_item.complete, List.length_take]
      omega
    have := hid_parse_short_item_complete (desc.take buf)
      ((desc.drop (buf + 1)).drop (item_bSize desc[buf])) _ hx item
    simp only [short_item.bytes, List.append_assoc, List.cons_append,
      List.take_append_drop] at this
    rw [← hsplit, hpre] at this
    refine ⟨_, _, this, ?_, ?_⟩
    · simp only [List.length_cons]; omega
    · simp only [List.length_cons, List.length_take, List.length_drop] at ht ⊢
      omega

/-- C16.  Parser buffer safety.  For every octet sequence of every length:
`hid_parse_short_item`, called at an offset below the descriptor length as
the loop does, returns without a read outside the descriptor, at an offset
that is larger and at most the length; `hid_process_hid_report_desc` returns
a status and a device on every descriptor, so neither the out-of-bounds
branch of an index nor the end of the iteration budget is ever reached; on
the empty descriptor it returns `NO_ERROR` at once. -/
theorem parser_buffer_safety (c : input_h) :
    (∀ (desc : List uint8_t) (buf : Nat) (item : hid_item), buf < desc.length →
      ∃ buf' item', hid_parse_short_item desc buf item = some (buf', item') ∧
        buf < buf' ∧ buf' ≤ desc.length) ∧
    (∀ dev : mx_hid_device,
      ∃ status dev', hid_process_hid_report_desc c dev = some (status, dev')) ∧
    (∀ dev : mx_hid_device, dev.hid_report_desc = [] →
      hid_process_hid_report_desc c dev = some (NO_ERROR, dev)) := by
  refine ⟨hid_parse_short_item_in_bounds, hid_process_total c, ?_⟩
  intro dev h
  unfold hid_process_hid_report_desc
  rw [h]
  rfl

/-- Witness of `parser_buffer_safety`: on the two octets `96 01`, an item that
declares two payload octets of which one is present, the parse at offset 0
returns inside the buffer. -/
theorem parser_buffer_safety_witness :
    0 < ([0x96, 0x01] : List uint8_t).length ∧
    ∃ buf' item', hid_parse_short_item [0x96, 0x01] 0 ⟨0, 0, 0, 0⟩ = some (buf', item') ∧
      0 < buf' ∧ buf' ≤ ([0x96, 0x01] : List uint8_t).length :=
  ⟨by decide, (parser_buffer_safety cfg16).1 [0x96, 0x01] 0 ⟨0, 0, 0, 0⟩ (by decide)⟩

/-! ## Attach (C17) -/

/-- C17.  Attach error propagation over the statuses of the collaborators.
`hid_add_device` always returns; it returns `NO_ERROR` if and only if the bus
protocol lookup, the boot-protocol switch (only for a boot device), the
descriptor fetch, the descriptor parse and `device_add` all return
`NO_ERROR`, whatever `set_idle`, the NUM LOCK `set_report` and the iotxn
allocation return; `device_add` is called if and only if everything before
it succeeded, so after a failed descriptor fetch or a failed parse the status
returned is that failure and `device_add` is never called. -/
theorem attach_error_propagation (c : input_h) (bus : bus_replies) (dev : mx_hid_device) :
    ∃ status calls dev' pstatus pdev,
      hid_add_device c bus dev = some (status, calls, dev') ∧
      hid_process_hid_report_desc c { dev with hid_report_desc := bus.descriptor }
        = some (pstatus, pdev) ∧
      (status = NO_ERROR ↔
        bus.device_get_protocol = NO_ERROR ∧
        (dev.boot_device = true → bus.set_protocol = NO_ERROR) ∧
        bus.get_descriptor = NO_ERROR ∧ pstatus = NO_ERROR ∧ bus.device_add = NO_ERROR) ∧
      (bus_call.device_add ∈ calls ↔
        bus.device_get_protocol = NO_ERROR ∧
        (dev.boot_device = true → bus.set_protocol = NO_ERROR) ∧
        bus.get_descriptor = NO_ERROR ∧ pstatus = NO_ERROR) ∧
      (bus.device_get_protocol = NO_ERROR →
        (dev.boot_device = true → bus.set_protocol = NO_ERROR) →
        bus.get_descriptor ≠ NO_ERROR →
        status = bus.get_descriptor ∧ bus_call.device_add ∉ calls) ∧
      (bus.device_get_protocol = NO_ERROR →
        (dev.boot_device = true → bus.set_protocol = NO_ERROR) →
        bus.get_descriptor = NO_ERROR → pstatus ≠ NO_ERROR →
        status = pstatus ∧ bus_call.device_add ∉ calls) := by
  obtain ⟨pstatus, pdev, hp⟩ :=
    hid_process_total c { dev with hid_report_desc := bus.descriptor }
  have hfetch : ∀ calls0 : List bus_call, bus_call.device_add ∉ calls0 →
      ∃ status calls dev',
        hid_add_device_fetch c bus dev calls0 = some (status, calls, dev') ∧
        (status = NO_ERROR ↔
          bus.get_descriptor = NO_ERROR ∧ pstatus = NO_ERROR ∧ bus.device_add = NO_ERROR) ∧
        (bus_call.device_add ∈ calls ↔ bus.get_descriptor = NO_ERROR ∧ pstatus = NO_ERROR) ∧
        (bus.get_descriptor ≠ NO_ERROR → status = bus.get_descriptor) ∧
        (bus.get_descriptor = NO_ERROR → pstatus ≠ NO_ERROR → status = pstatus) := by
    intro calls0 h0
    by_cases h1 : bus.get_descriptor = NO_ERROR
    · by_cases h2 : pstatus = NO_ERROR
      · by_cases h3 : bus.device_add = NO_ERROR
        · have hv : hid_add_device_fetch c bus dev calls0
              = some (NO_ERROR,
                  calls0 ++ [.get_descriptor, .device_init, .device_add, .set_idle]
                    ++ (hid_queue_iotxn bus).2, pdev) := by
            unfold hid_add_device_fetch
            simp only [hp]
            rw [if_neg (by simp [h1]), if_neg (by simp [h2]), if_neg (by simp [h3])]
          exact ⟨_, _, _, hv, by simp [h1, h2, h3], by simp [h1, h2], by simp [h1],
            by simp [h2]⟩
        · have hv : hid_add_device_fetch c bus dev calls0
              = some (bus.device_add,
                  calls0 ++ [.get_descriptor, .device_init, .device_add],
                  hid_cleanup_device pdev) := by
            unfold hid_add_device_fetch
            simp only [hp]
            rw [if_neg (by simp [h1]), if_neg (by simp [h2]), if_pos (by simp [h3])]
          exact ⟨_, _, _, hv, by simp [h1, h2, h3], by simp [h1, h2], by simp [h1],
            by simp [h2]⟩
      · have hv : hid_add_device_fetch c bus dev calls0
            = some (pstatus, calls0 ++ [.get_descriptor], hid_cleanup_device pdev) := by
          unfold hid_add_device_fetch
          simp only [hp]
          rw [if_neg (by simp [h1]), if_pos (by simp [h2])]
        exact ⟨_, _, _, hv, by simp [h1, h2], by simp [h1, h2, h0], by simp [h1], by simp⟩
    · have hv : hid_add_device_fetch c bus dev calls0
          = some (bus.get_descriptor, calls0 ++ [.get_descriptor],
              hid_cleanup_device { dev with hid_report_desc := bus.descriptor }) := by
        unfold hid_add_device_fetch
        simp only
        rw [if_pos (by simp [h1])]
      exact ⟨_, _, _, hv, by simp [h1], by simp [h1, h0], by simp, by simp [h1]⟩
  unfold hid_add_device
  by_cases hg : bus.device_get_protocol = NO_ERROR
  · rw [if_neg (by simp [hg])]
    by_cases hb : dev.boot_device = true
    · rw [if_pos hb]
      by_cases hsp : bus.set_protocol = NO_ERROR
      · rw [if_neg (by simp [hsp])]
        by_cases hk : dev.dev_class = HID_DEV_CLASS_KBD
        · rw [if_pos hk]
          obtain ⟨status, calls, dev', h1, h2, h3, h4, h5⟩ :=
            hfetch [.device_get_protocol, .set_protocol, .set_report] (by decide)
          refine ⟨status, calls, dev', pstatus, pdev, h1, hp, ?_, ?_, ?_, ?_⟩
          · rw [h2]; simp [hg, hsp]
          · rw [h3]; simp [hg, hsp]
          · intro _ _ h; exact ⟨h4 h, fun hm => h (h3.mp hm).1⟩
          · intro _ _ h h'; exact ⟨h5 h h', fun hm => h' (h3.mp hm).2⟩
        · rw [if_neg hk]
          obtain ⟨status, calls, dev', h1, h2, h3, h4, h5⟩ :=
            hfetch [.device_get_protocol, .set_protocol] (by decide)
          refine ⟨status, calls, dev', pstatus, pdev, h1, hp, ?_, ?_, ?_, ?_⟩
          · rw [h2]; simp [hg, hsp]
          · rw [h3]; simp [hg, hsp]
          · intro _ _ h; exact ⟨h4 h, fun hm => h (h3.mp hm).1⟩
          · intro _ _ h h'; exact ⟨h5 h h', fun hm => h' (h3.mp hm).2⟩
      · rw [if_pos (by simp [hsp])]
        refine ⟨_, _, _, pstatus, pdev, rfl, hp, ?_, ?_, ?_, ?_⟩
        · constructor
          · intro h; cases h
          · rintro ⟨_, h, _⟩; exact absurd (h hb) hsp
        · simp [hb, hsp]
        · intro _ h; exact absurd (h hb) hsp
        · intro _ h; exact absurd (h hb) hsp
    · rw [if_neg hb]
      obtain ⟨status, calls, dev', h1, h2, h3, h4, h5⟩ :=
        hfetch [.device_get_protocol] (by decide)
      refine ⟨status, calls, dev', pstatus, pdev, h1, hp, ?_, ?_, ?_, ?_⟩
      · rw [h2]; simp [hg, hb]
      · rw [h3]; simp [hg, hb]
      · intro _ _ h; exact ⟨h4 h, fun hm => h (h3.mp hm).1⟩
      · intro _ _ h h'; exact ⟨h5 h h', fun hm => h' (h3.mp hm).2⟩
  · rw [if_pos (by simp [hg])]
    refine ⟨_, _, _, pstatus, pdev, rfl, hp, ?_, ?_, ?_, ?_⟩
    · constructor
      · intro h; cases h
      · rintro ⟨h, _⟩; exact absurd h hg
    · simp [hg]
    · intro h; exact absurd h hg
    · intro h; exact absurd h hg

/-- Witness of `attach_error_propagation`: when only the descriptor fetch
fails, with `ERR_NO_MEMORY`, attach returns `ERR_NO_MEMORY` and `device_add`
is not among the calls made. -/
theorem attach_error_propagation_witness :
    (failing_fetch_bus.device_get_protocol = NO_ERROR ∧
      failing_fetch_bus.get_descriptor ≠ NO_ERROR) ∧
    ∃ calls dev',
      hid_add_device cfg16 failing_fetch_bus (hid_create_device false HID_DEV_CLASS_OTHER)
        = some (.ERR_NO_MEMORY, calls, dev') ∧
      bus_call.device_add ∉ calls := by
  obtain ⟨status, calls, dev', pstatus, pdev, h1, _, _, _, h5, _⟩ :=
    attach_error_propagation cfg16 failing_fetch_bus
      (hid_create_device false HID_DEV_CLASS_OTHER)
  obtain ⟨hs, hc⟩ := h5 (by decide) (by decide) (by decide)
  refine ⟨⟨by decide, by decide⟩, calls, dev', ?_, hc⟩
  rw [h1, hs]
  rfl

/-! ## Truncated trailing items (C18) -/

/-- The interpreter never reads the descriptor field of the device: the
Input/Output/Feature case commutes with replacing it. -/
theorem hid_process_main_set_desc (c : input_h) (f : size_field) (inc : Nat)
    (st : process_state) (desc : List uint8_t) :
    hid_process_main c f inc { st with dev := { st.dev with hid_report_desc := desc } }
      = (hid_process_main c f inc st).set_desc desc := by
  rw [hid_process_main_eq, hid_process_main_eq]
  simp only
  cases slots_add c st.rpt_id f inc st.dev.sizes <;> rfl

theorem hid_process_item_set_desc (c : input_h) (st : process_state) (desc : List uint8_t) :
    hid_process_item c { st with dev := { st.dev with hid_report_desc := desc } }
      = (hid_process_item c st).set_desc desc := by
  have hm := fun f inc => hid_process_main_set_desc c f inc st desc
  unfold hid_process_item
  simp only [hm]
  split_ifs <;> rfl

theorem run_items_set_desc (c : input_h) (items : List short_item) (st : process_state)
    (desc : List uint8_t) :
    run_items c items { st with dev := { st.dev with hid_report_desc := desc } }
      = (run_items c items st).set_desc desc := by
  induction items generalizing st with
  | nil => rfl
  | cons x xs ih =>
    have h := hid_process_item_set_desc c { st with item := item_of x } desc
    simp only [run_items]
    simp only at h
    rw [h]
    cases hid_process_item c { st with item := item_of x } with
    | ret status dev => rfl
    | cont st' => exact ih st'

theorem outcome_set_desc (p : process_step) (desc : List uint8_t) :
    (p.set_desc desc).outcome = (p.outcome.1, { p.outcome.2 with hid_report_desc := desc }) := by
  cases p <;> rfl

/-- The result of the interpreter as the outcome of the item-level loop. -/
theorem hid_process_encode_outcome (c : input_h) (dev : mx_hid_device)
    (items : List short_item) (frag : List uint8_t)
    (hd : dev.hid_report_desc = encode items ++ frag)
    (hc : ∀ x ∈ items, x.complete) (hf : truncated frag) :
    hid_process_hid_report_desc c dev
      = some (run_items c items (initial_state dev)).outcome := by
  rw [hid_process_encode c dev items frag hd hc hf]
  cases run_items c items (initial_state dev) <;> rfl

/-- The result of the interpreter on a fresh device with descriptor
`encode items ++ frag` is the outcome of the item-level loop on the fresh
device with the empty descriptor, with the descriptor put back. -/
theorem hid_process_fresh (c : input_h) (b : Bool) (cls : Nat) (items : List short_item)
    (frag : List uint8_t) (hc : ∀ x ∈ items, x.complete) (hf : truncated frag) :
    hid_process_hid_report_desc c (fresh_device b cls (encode items ++ frag))
      = some ((run_items c items (initial_state (hid_create_device b cls))).outcome.1,
          { (run_items c items (initial_state (hid_create_device b cls))).outcome.2 with
            hid_report_desc := encode items ++ frag }) := by
  rw [hid_process_encode_outcome c _ items frag rfl hc hf]
  have h := run_items_set_desc c items (initial_state (hid_create_device b cls))
    (encode items ++ frag)
  have e : initial_state (fresh_device b cls (encode items ++ frag))
      = { initial_state (hid_create_device b cls) with
          dev := { (initial_state (hid_create_device b cls)).dev with
            hid_report_desc := encode items ++ frag } } := rfl
  rw [e, h, outcome_set_desc]

/-- Claim C18: for a descriptor `encode items` of complete items followed by a
fragment `pfx :: pl` with fewer payload octets than `pfx` declares, the
interpreter returns the same status and the same device (size table and
`num_reports`; only the stored descriptor differs) as on `encode items`
alone: the fragment is parsed as a Reserved item ending the buffer, for every
type and tag; a complete item ending on the last octet of the buffer is parsed
as itself and takes part in the item-level loop. -/
theorem truncated_tail_ignored (c : input_h) (b : Bool) (cls : Nat) (items : List short_item)
    (pfx : uint8_t) (pl : List uint8_t) (hc : ∀ x ∈ items, x.complete)
    (hlt : pl.length < item_bSize pfx) :
    (∃ status d,
      hid_process_hid_report_desc c (fresh_device b cls (encode items)) = some (status, d) ∧
      hid_process_hid_report_desc c (fresh_device b cls (encode items ++ pfx :: pl))
        = some (status, { d with hid_report_desc := encode items ++ pfx :: pl })) ∧
    (∀ item, hid_parse_short_item (encode items ++ pfx :: pl) (encode items).length item
      = some ((encode items ++ pfx :: pl).length,
          { bSize := item_bSize pfx, bType := 3, bTag := item_bTag pfx, data := item.data })) ∧
    (∀ x : short_item, x.complete →
      (∀ item, hid_parse_short_item (encode items ++ x.bytes) (encode items).length item
        = some ((encode items ++ x.bytes).length, item_of x)) ∧
      hid_process_hid_report_desc c (fresh_device b cls (encode items ++ x.bytes))
        = some (run_items c (items ++ [x])
            (initial_state (fresh_device b cls (encode items ++ x.bytes)))).outcome) := by
  refine ⟨?_, fun item => hid_parse_short_item_truncated (encode items) pl pfx hlt item, ?_⟩
  · have h1 := hid_process_fresh c b cls items [] hc trivial
    have h2 := hid_process_fresh c b cls items (pfx :: pl) hc hlt
    rw [List.append_nil] at h1
    exact ⟨_, _, h1, h2⟩
  · intro x hx
    constructor
    · intro item
      have h := hid_parse_short_item_complete (encode items) [] x hx item
      simpa using h
    · have hc' : ∀ y ∈ items ++ [x], y.complete := by
        intro y hy
        rcases List.mem_append.mp hy with hy | hy
        · exact hc y hy
        · rw [List.mem_singleton.mp hy]; exact hx
      have hd : (fresh_device b cls (encode items ++ x.bytes)).hid_report_desc
          = encode (items ++ [x]) ++ [] := by
        simp [fresh_device, encode_append, encode]
      exact hid_process_encode_outcome c _ (items ++ [x]) [] hd hc' trivial

/-- Witness of `truncated_tail_ignored`: after Report Count 3, Report Size 8,
Input, the fragment `96 01` (a Report Count item declaring two payload octets,
one present) leaves status and table as they are without it. -/
theorem truncated_tail_ignored_witness :
    ((∀ x ∈ example_items, x.complete) ∧
      ([0x01] : List uint8_t).length < item_bSize 0x96) ∧
    ∃ status d,
      hid_process_hid_report_desc cfg16
          (fresh_device false HID_DEV_CLASS_OTHER (encode example_items)) = some (status, d) ∧
      hid_process_hid_report_desc cfg16
          (fresh_device false HID_DEV_CLASS_OTHER (encode example_items ++ 0x96 :: [0x01]))
        = some (status, { d with hid_report_desc := encode example_items ++ 0x96 :: [0x01] }) :=
  ⟨⟨by decide, by decide⟩,
    (truncated_tail_ignored cfg16 false HID_DEV_CLASS_OTHER example_items 0x96 [0x01]
      (by decide) (by decide)).1⟩

/-! ## Ignored items (C20) -/

/-- An ignored item leaves the registers and the device as they are. -/
theorem hid_process_item_ignored (c : input_h) (st : process_state) (x : short_item)
    (h : is_ignored x) :
    hid_process_item c { st with item := item_of x } = .cont { st with item := item_of x } := by
  unfold is_ignored at h
  unfold hid_process_item
  simp only [item_of, HID_ITEM_TYPE_MAIN, HID_ITEM_TYPE_GLOBAL, HID_ITEM_TYPE_LOCAL,
    HID_ITEM_GLOBAL_TAG_PUSH, HID_ITEM_GLOBAL_TAG_POP, HID_ITEM_GLOBAL_TAG_REPORT_SIZE,
    HID_ITEM_GLOBAL_TAG_REPORT_ID, HID_ITEM_GLOBAL_TAG_REPORT_COUNT, HID_ITEM_MAIN_TAG_INPUT,
    HID_ITEM_MAIN_TAG_OUTPUT, HID_ITEM_MAIN_TAG_FEATURE] at *
  rcases h with h | h | ⟨h, h1, h2, h3⟩ | ⟨h, h1, h2, h3, h4, h5⟩
  · simp [h]
  · simp [h]
  · simp [h, h1, h2, h3]
  · simp [h, h1, h2, h3, h4, h5]

/-- The outcome of the item-level loop does not depend on the `item` local it
starts with. -/
theorem run_items_outcome_item (c : input_h) (items : List short_item) (st : process_state)
    (item : hid_item) :
    (run_items c items { st with item := item }).outcome = (run_items c items st).outcome := by
  cases items with
  | nil => rfl
  | cons x xs => rfl

/-- Removing an ignored item from a sequence of items keeps the outcome of the
item-level loop. -/
theorem run_items_ignored (c : input_h) (xs ys : List short_item) (x : short_item)
    (h : is_ignored x) (st : process_state) :
    (run_items c (xs ++ x :: ys) st).outcome = (run_items c (xs ++ ys) st).outcome := by
  rw [run_items_append, run_items_append]
  cases run_items c xs st with
  | ret status dev => rfl
  | cont st' =>
    simp only [run_items, hid_process_item_ignored c st' x h]
    exact run_items_outcome_item c ys st' (item_of x)

/-- Claim C20: for complete items `A`, one complete ignored item `X` (Local,
Reserved type, a Main item other than Input/Output/Feature, or a Global item
other than Report Size/Report ID/Report Count/Push/Pop) and any octets `B`,
the interpreter returns on `A ++ X ++ B` the same status and the same device
(size table and `num_reports`; only the stored descriptor differs) as on
`A ++ B`; and the pass through the `switch` for `X` changes neither the
registers nor the device. -/
theorem ignored_item_no_effect (c : input_h) (b : Bool) (cls : Nat) (A : List short_item)
    (X : short_item) (B : List uint8_t) (hA : ∀ x ∈ A, x.complete) (hX : X.complete)
    (hign : is_ignored X) :
    (∃ status d,
      hid_process_hid_report_desc c (fresh_device b cls (encode A ++ B)) = some (status, d) ∧
      hid_process_hid_report_desc c (fresh_device b cls (encode A ++ X.bytes ++ B))
        = some (status, { d with hid_report_desc := encode A ++ X.bytes ++ B })) ∧
    ∀ st : process_state,
      hid_process_item c { st with item := item_of X } = .cont { st with item := item_of X } := by
  refine ⟨?_, fun st => hid_process_item_ignored c st X hign⟩
  obtain ⟨Bi, frag, hB, hBc, hf⟩ := exists_items B
  have e1 : encode A ++ B = encode (A ++ Bi) ++ frag := by
    rw [hB, encode_append, List.append_assoc]
  have e2 : encode A ++ X.bytes ++ B = encode (A ++ X :: Bi) ++ frag := by
    rw [hB, encode_append]
    simp [encode, List.append_assoc]
  have hc1 : ∀ y ∈ A ++ Bi, y.complete := by
    intro y hy
    rcases List.mem_append.mp hy with hy | hy
    · exact hA y hy
    · exact hBc y hy
  have hc2 : ∀ y ∈ A ++ X :: Bi, y.complete := by
    intro y hy
    rcases List.mem_append.mp hy with hy | hy
    · exact hA y hy
    · rcases List.mem_cons.mp hy with rfl | hy
      · exact hX
      · exact hBc y hy
  have h1 := hid_process_fresh c b cls (A ++ Bi) frag hc1 hf
  have h2 := hid_process_fresh c b cls (A ++ X :: Bi) frag hc2 hf
  rw [run_items_ignored c A Bi X hign] at h2
  rw [e1, e2]
  exact ⟨_, _, h1, h2⟩

/-- Witness of `ignored_item_no_effect`: a Usage item (Local, `09 02`) between
Report Count 3, Report Size 8 and Input changes nothing. -/
theorem ignored_item_no_effect_witness :
    ((∀ x ∈ [(⟨0x95, [0x03]⟩ : short_item), ⟨0x75, [0x08]⟩], x.complete) ∧
      (⟨0x09, [0x02]⟩ : short_item).complete ∧ is_ignored ⟨0x09, [0x02]⟩) ∧
    ∃ status d,
      hid_process_hid_report_desc cfg16
          (fresh_device false HID_DEV_CLASS_OTHER
            (encode [⟨0x95, [0x03]⟩, ⟨0x75, [0x08]⟩] ++ [0x81, 0x02])) = some (status, d) ∧
      hid_process_hid_report_desc cfg16
          (fresh_device false HID_DEV_CLASS_OTHER
            (encode [⟨0x95, [0x03]⟩, ⟨0x75, [0x08]⟩] ++ (⟨0x09, [0x02]⟩ : short_item).bytes
              ++ [0x81, 0x02]))
        = some (status,
          { d with
            hid_report_desc :=
              encode [⟨0x95, [0x03]⟩, ⟨0x75, [0x08]⟩] ++ (⟨0x09, [0x02]⟩ : short_item).bytes
                ++ [0x81, 0x02] }) :=
  ⟨⟨by decide, by decide, by decide⟩,
    (ignored_item_no_effect cfg16 false HID_DEV_CLASS_OTHER [⟨0x95, [0x03]⟩, ⟨0x75, [0x08]⟩]
      ⟨0x09, [0x02]⟩ [0x81, 0x02] (by decide) (by decide) (by decide)).1⟩

/-! ## The payload value (C19) -/

theorem lor_low_high (lo hi k : Nat) (h : lo < 2 ^ k) :
    lo ||| 2 ^ k * hi = lo + 2 ^ k * hi := by
  rw [Nat.lor_comm, ← Nat.mul_add_lt_is_or h hi, Nat.add_comm]

/-- The operand `*buf << (8*i)` for the loop counters `0..2`: the octet moved
to its position. -/
theorem shifted_octet_low (b : uint8_t) (i : Nat) (hi : i ≤ 2) :
    shifted_octet b i = 2 ^ (8 * i) * b.val := by
  have hb := b.isLt
  unfold shifted_octet
  simp only [Nat.shiftLeft_eq]
  interval_cases i <;> norm_num <;> split_ifs <;> omega

/-- The operand `*buf << 24` of the fourth payload octet: the upper 32 bits are
set when the octet is `0x80` or more. -/
theorem shifted_octet_high (b : uint8_t) :
    shifted_octet b 3 = 2 ^ 24 * (if 128 ≤ b.val then b.val + (2 ^ 40 - 2 ^ 8) else b.val) := by
  have hb := b.isLt
  unfold shifted_octet
  simp only [Nat.shiftLeft_eq]
  norm_num
  split_ifs <;> omega

/-- The accumulated `data` of a payload of at most four octets: its low 32
bits are the little-endian value of the octets, and the whole of it is that
value unless there are four octets and the last is `0x80` or more, when
`2^64 - 2^32` is added to the pattern. -/
theorem payload_data_value (pl : List uint8_t) (h : pl.length ≤ 4) :
    payload_data 0 0 pl % 2 ^ 32 = le_value pl ∧
    ((pl.length < 4 ∨ ∀ d, pl[3]? = some d → d.val < 128) →
      payload_data 0 0 pl = le_value pl) ∧
    (∀ d, pl[3]? = some d → 128 ≤ d.val →
      payload_data 0 0 pl = le_value pl + (2 ^ 64 - 2 ^ 32)) := by
  match pl, h with
  | [], _ => simp [payload_data, le_value]
  | [a], _ =>
    have ha := a.isLt
    simp only [payload_data, le_value, Nat.zero_or, shifted_octet_low a 0 (by omega)]
    simp
    omega
  | [a, b], _ =>
    have ha := a.isLt
    have hb := b.isLt
    simp only [payload_data, le_value, Nat.zero_or, shifted_octet_low a 0 (by omega),
      shifted_octet_low b 1 (by omega)]
    simp only [Nat.mul_zero, Nat.pow_zero, Nat.one_mul, Nat.mul_one]
    rw [lor_low_high a.val b.val 8 (by omega)]
    simp
    omega
  | [a, b, c], _ =>
    have ha := a.isLt
    have hb := b.isLt
    have hc := c.isLt
    simp only [payload_data, le_value, Nat.zero_or, shifted_octet_low a 0 (by omega),
      shifted_octet_low b 1 (by omega), shifted_octet_low c 2 (by omega)]
    simp only [Nat.mul_zero, Nat.pow_zero, Nat.one_mul, Nat.mul_one]
    rw [lor_low_high a.val b.val 8 (by omega),
      lor_low_high (a.val + 2 ^ 8 * b.val) c.val 16 (by omega)]
    simp
    omega
  | [a, b, c, d], _ =>
    have ha := a.isLt
    have hb := b.isLt
    have hc := c.isLt
    have hd := d.isLt
    simp only [payload_data, le_value, Nat.zero_or, shifted_octet_low a 0 (by omega),
      shifted_octet_low b 1 (by omega), shifted_octet_low c 2 (by omega),
      shifted_octet_high d]
    simp only [Nat.mul_zero, Nat.pow_zero, Nat.one_mul, Nat.mul_one]
    rw [lor_low_high a.val b.val 8 (by omega),
      lor_low_high (a.val + 2 ^ 8 * b.val) c.val 16 (by omega),
      lor_low_high (a.val + 2 ^ 8 * b.val + 2 ^ 16 * c.val) _ 24 (by omega)]
    simp
    split_ifs <;> omega

/-- The registers after a complete Report Size, Report Count or Report ID
item: the little-endian value of the payload, for Report ID reduced modulo
256. -/
theorem registers_step_value (r : registers) (x : short_item) (hx : x.complete) :
    (is_global x HID_ITEM_GLOBAL_TAG_REPORT_SIZE →
      (r.step x).rpt_size = le_value x.payload) ∧
    (is_global x HID_ITEM_GLOBAL_TAG_REPORT_COUNT →
      (r.step x).rpt_count = le_value x.payload) ∧
    (is_global x HID_ITEM_GLOBAL_TAG_REPORT_ID →
      (r.step x).rpt_id = le_value x.payload % 256) := by
  have hlen : x.payload.length ≤ 4 := by
    rw [hx]; exact item_bSize_le x.pfx
  have hv := (payload_data_value x.payload hlen).1
  have hid : payload_data 0 0 x.payload % 256 = le_value x.payload % 256 := by
    rw [← hv]; omega
  refine ⟨?_, ?_, ?_⟩
  · intro h
    unfold registers.step
    rw [if_pos h]
    exact hv
  · intro h
    have h7 : ¬ is_global x HID_ITEM_GLOBAL_TAG_REPORT_SIZE := by
      intro h'; have := h.2.symm.trans h'.2; revert this; decide
    have h8 : ¬ is_global x HID_ITEM_GLOBAL_TAG_REPORT_ID := by
      intro h'; have := h.2.symm.trans h'.2; revert this; decide
    unfold registers.step
    rw [if_neg h7, if_neg h8, if_pos h]
    exact hv
  · intro h
    have h7 : ¬ is_global x HID_ITEM_GLOBAL_TAG_REPORT_SIZE := by
      intro h'; have := h.2.symm.trans h'.2; revert this; decide
    unfold registers.step
    rw [if_neg h7, if_pos h]
    exact hid

/-- Claim C19, evaluated on the complete Report Size item `77 00 00 00 80`:
`hid_parse_short_item` consumes the five octets and leaves in `item.data` the
pattern `0xFFFFFFFF80000000`, that is `-2^31`, because `*buf << 24` is an
`int` whose sign bit is set and is sign extended for the `|=`; the sum of
`b_i * 256 ^ i` is `2^31`.  The Report Size register, assigned through the
`(uint32_t)` cast, still receives `2^31`. -/
theorem payload_high_octet_sign_extended :
    high_octet_item.complete ∧
    hid_parse_short_item high_octet_item.bytes 0 ⟨0, 0, 0, 0⟩
      = some (5, ⟨4, HID_ITEM_TYPE_GLOBAL, HID_ITEM_GLOBAL_TAG_REPORT_SIZE,
          0xFFFFFFFF80000000⟩) ∧
    int64_value (item_of high_octet_item).data = -2147483648 ∧
    le_value high_octet_item.payload = 2147483648 ∧
    (∀ c, hid_process_item c
        { initial_state (hid_create_device false HID_DEV_CLASS_OTHER) with
          item := item_of high_octet_item }
      = .cont
        { initial_state (hid_create_device false HID_DEV_CLASS_OTHER) with
          item := item_of high_octet_item, rpt_size := 2147483648 }) := by
  refine ⟨by decide, by decide, by decide, by decide, fun c => ?_⟩
  have h : (item_of high_octet_item) = ⟨4, 1, 7, 0xFFFFFFFF80000000⟩ := by decide
  rw [h]
  rfl

/-! ## Readiness of an open instance (C22) -/

/-- Deliveries and reads keep an instance alive and keep its root. -/
theorem run_reader_op_flags (ops : fifo_h) (inst : mx_hid_instance) (call : reader_op) :
    (run_reader_op ops inst call).flags = inst.flags ∧
    (run_reader_op ops inst call).root = inst.root := by
  cases call with
  | deliver buf =>
    simp only [run_reader_op, hid_io_read_instance]
    split_ifs <;> exact ⟨rfl, rfl⟩
  | read count =>
    simp only [run_reader_op, hid_read_instance]
    split_ifs <;> exact ⟨rfl, rfl⟩

/-- One call keeps the readiness invariant of an instance that is not dead,
for FIFO functions of which a write returning `> 0` leaves the FIFO
non-empty, a write returning `<= 0` leaves it as it was, and a read of an
empty FIFO leaves it empty. -/
theorem run_reader_op_readable (ops : fifo_h)
    (hpos : ∀ f buf, status_le_zero (ops.write f buf).1 = false →
      0 < ops.size (ops.write f buf).2)
    (hfail : ∀ f buf, status_le_zero (ops.write f buf).1 = true → (ops.write f buf).2 = f)
    (hread : ∀ f count, ops.size f = 0 → ops.size (ops.read f count).2.2 = 0)
    (inst : mx_hid_instance) (hlive : inst.flags &&& HID_FLAGS_DEAD = 0)
    (hinv : readable_iff_data ops inst) (call : reader_op) :
    readable_iff_data ops (run_reader_op ops inst call) := by
  unfold readable_iff_data at *
  cases call with
  | deliver buf =>
    simp only [run_reader_op, hid_io_read_instance]
    cases hw : status_le_zero (ops.write inst.fifo buf).1 with
    | true =>
      simp only [if_true]
      rw [hfail inst.fifo buf hw]
      exact hinv
    | false =>
      have h1 := hpos inst.fifo buf hw
      simp only [Bool.false_eq_true, if_false]
      by_cases he : ops.size inst.fifo = 0
      · simp [he, h1]
      · simp only [he, if_false]
        constructor
        · intro _; exact h1
        · intro _; exact hinv.mpr (by omega)
  | read count =>
    have hl : ¬ (inst.flags &&& HID_FLAGS_DEAD ≠ 0) := by simp [hlive]
    simp only [run_reader_op, hid_read_instance, hl, if_false]
    by_cases he : ops.size (ops.read inst.fifo count).2.2 = 0
    · simp [he]
    · simp only [he, if_false]
      constructor
      · intro _; omega
      · intro _
        apply hinv.mpr
        by_contra h0
        exact he (hread inst.fifo count (by omega))

/-- A sequence of calls keeps an instance alive and keeps the readiness
invariant. -/
theorem run_reader_ops_readable (ops : fifo_h)
    (hpos : ∀ f buf, status_le_zero (ops.write f buf).1 = false →
      0 < ops.size (ops.write f buf).2)
    (hfail : ∀ f buf, status_le_zero (ops.write f buf).1 = true → (ops.write f buf).2 = f)
    (hread : ∀ f count, ops.size f = 0 → ops.size (ops.read f count).2.2 = 0)
    (calls : List reader_op) (inst : mx_hid_instance)
    (hlive : inst.flags &&& HID_FLAGS_DEAD = 0) (hinv : readable_iff_data ops inst) :
    (run_reader_ops ops inst calls).flags &&& HID_FLAGS_DEAD = 0 ∧
    readable_iff_data ops (run_reader_ops ops inst calls) := by
  induction calls generalizing inst with
  | nil => exact ⟨hlive, hinv⟩
  | cons call rest ih =>
    simp only [run_reader_ops, List.foldl_cons]
    apply ih
    · rw [(run_reader_op_flags ops inst call).1]; exact hlive
    · exact run_reader_op_readable ops hpos hfail hread inst hlive hinv call

theorem mx_hid_fifo_read_empty (f : mx_hid_fifo) (count : Nat) (h : mx_hid_fifo_size f = 0) :
    mx_hid_fifo_size (mx_hid_fifo_read f count).2.2 = 0 := by
  unfold mx_hid_fifo_size mx_hid_fifo_read at *
  simp only [List.length_drop]
  omega

theorem run_reader_ops_snoc (ops : fifo_h) (inst : mx_hid_instance) (calls : List reader_op)
    (call : reader_op) :
    run_reader_ops ops inst (calls ++ [call])
      = run_reader_op ops (run_reader_ops ops inst calls) call := by
  simp [run_reader_ops, List.foldl_append]

/-- Claim C22: readiness invariant.  Let `mx_hid_fifo_write` be any function of
which a result `> 0` leaves the FIFO non-empty and a result `<= 0` leaves it
as it was.  The instance a successful `hid_open_device` registers has its
readable signal clear and an empty FIFO, and after every sequence of
deliveries (`hid_io_read`) and reads (`hid_read_instance`) on it the instance
is not dead and its readable signal is set if and only if its FIFO size is
greater than zero: a delivery that writes sets it, a delivery into an
instance whose signal is set leaves it set, a delivery that writes nothing
leaves it as it is, and after a read it is clear exactly when the read left
the FIFO empty. -/
theorem readable_iff_fifo_nonempty
    (write : mx_hid_fifo → List uint8_t → mx_status_t × mx_hid_fifo)
    (hpos : ∀ f buf, status_le_zero (write f buf).1 = false →
      0 < mx_hid_fifo_size (write f buf).2)
    (hfail : ∀ f buf, status_le_zero (write f buf).1 = true → (write f buf).2 = f)
    (hid : mx_hid_device) (instance_list : List mx_hid_instance) (calls : List reader_op) :
    ∃ inst,
      hid_open_device hid instance_list true NO_ERROR
        = some (NO_ERROR, some inst, instance_list ++ [inst]) ∧
      inst.readable = false ∧ mx_hid_fifo_size inst.fifo = 0 ∧
      ∀ s, s = run_reader_ops (fifo_with_write write) inst calls →
        s.flags &&& HID_FLAGS_DEAD = 0 ∧
        (s.readable = true ↔ 0 < mx_hid_fifo_size s.fifo) ∧
        (∀ buf, status_le_zero (write s.fifo buf).1 = false →
          (hid_io_read_instance (fifo_with_write write) buf s).readable = true) ∧
        (∀ buf, s.readable = true →
          (hid_io_read_instance (fifo_with_write write) buf s).readable = true) ∧
        (∀ buf, status_le_zero (write s.fifo buf).1 = true →
          (hid_io_read_instance (fifo_with_write write) buf s).readable = s.readable ∧
          (hid_io_read_instance (fifo_with_write write) buf s).fifo = s.fifo) ∧
        (∀ count,
          ((hid_read_instance (fifo_with_write write) s count).2.2.readable = false ↔
            mx_hid_fifo_size (hid_read_instance (fifo_with_write write) s count).2.2.fifo
              = 0)) := by
  have hread : ∀ f count, (fifo_with_write write).size f = 0 →
      (fifo_with_write write).size ((fifo_with_write write).read f count).2.2 = 0 :=
    fun f count h => mx_hid_fifo_read_empty f count h
  have hinv0 : readable_iff_data (fifo_with_write write)
      (⟨some hid, 0, mx_hid_fifo_init, false⟩ : mx_hid_instance) := by
    unfold readable_iff_data
    simp [fifo_with_write, mx_hid_fifo_size, mx_hid_fifo_init]
  have hall : ∀ cs : List reader_op,
      (run_reader_ops (fifo_with_write write) ⟨some hid, 0, mx_hid_fifo_init, false⟩ cs).flags
          &&& HID_FLAGS_DEAD = 0 ∧
      readable_iff_data (fifo_with_write write)
        (run_reader_ops (fifo_with_write write) ⟨some hid, 0, mx_hid_fifo_init, false⟩ cs) :=
    fun cs => run_reader_ops_readable (fifo_with_write write) hpos hfail hread cs _
      (Nat.zero_and _) hinv0
  refine ⟨⟨some hid, 0, mx_hid_fifo_init, false⟩, rfl, rfl, rfl, ?_⟩
  intro s hs
  have hlive := (hall calls).1
  have hinv := (hall calls).2
  rw [← hs] at hlive hinv
  have hdel : ∀ buf, readable_iff_data (fifo_with_write write)
      (hid_io_read_instance (fifo_with_write write) buf s) := by
    intro buf
    have h := (hall (calls ++ [.deliver buf])).2
    rw [run_reader_ops_snoc, ← hs] at h
    exact h
  have hrd : ∀ count, readable_iff_data (fifo_with_write write)
      (hid_read_instance (fifo_with_write write) s count).2.2 := by
    intro count
    have h := (hall (calls ++ [.read count])).2
    rw [run_reader_ops_snoc, ← hs] at h
    exact h
  refine ⟨hlive, hinv, ?_, ?_, ?_, ?_⟩
  · intro buf hw
    apply (hdel buf).mpr
    have h1 := hpos s.fifo buf hw
    simp only [hid_io_read_instance, fifo_with_write, hw, Bool.false_eq_true, if_false]
    exact h1
  · intro buf hr
    apply (hdel buf).mpr
    have hsz : 0 < mx_hid_fifo_size s.fifo := hinv.mp hr
    cases hw : status_le_zero (write s.fifo buf).1 with
    | true =>
      simp only [hid_io_read_instance, fifo_with_write, hw, if_true]
      rw [hfail s.fifo buf hw]
      exact hsz
    | false =>
      simp only [hid_io_read_instance, fifo_with_write, hw, Bool.false_eq_true, if_false]
      exact hpos s.fifo buf hw
  · intro buf hw
    have e : hid_io_read_instance (fifo_with_write write) buf s
        = { s with fifo := (write s.fifo buf).2 } := by
      simp only [hid_io_read_instance, fifo_with_write, hw, if_true]
    rw [e]
    exact ⟨rfl, hfail s.fifo buf hw⟩
  · intro count
    have h := hrd count
    unfold readable_iff_data at h
    constructor
    · intro hf
      by_contra hne
      have : (hid_read_instance (fifo_with_write write) s count).2.2.readable = true :=
        h.mpr (Nat.pos_of_ne_zero hne)
      rw [hf] at this
      exact Bool.false_ne_true this
    · intro hz
      cases hr : (hid_read_instance (fifo_with_write write) s count).2.2.readable with
      | false => rfl
      | true =>
        have := h.mp hr
        have hz' : (fifo_with_write write).size
            (hid_read_instance (fifo_with_write write) s count).2.2.fifo = 0 := hz
        omega

theorem small_fifo_write_pos (f : mx_hid_fifo) (buf : List uint8_t)
    (h : status_le_zero (small_fifo.write f buf).1 = false) :
    0 < mx_hid_fifo_size (small_fifo.write f buf).2 := by
  unfold small_fifo mx_hid_fifo_size at *
  simp only at h ⊢
  split_ifs at h ⊢ with hc
  · cases buf with
    | nil => simp [status_le_zero] at h
    | cons b rest => simp
  · simp [status_le_zero] at h

theorem small_fifo_write_fail (f : mx_hid_fifo) (buf : List uint8_t)
    (h : status_le_zero (small_fifo.write f buf).1 = true) :
    (small_fifo.write f buf).2 = f := by
  unfold small_fifo at *
  simp only at h ⊢
  split_ifs at h ⊢ with hc
  · cases buf with
    | nil => simp
    | cons b rest => simp [status_le_zero] at h
  · rfl

/-- Witness of `readable_iff_fifo_nonempty`: with a FIFO of four octets that
rejects what does not fit, after a delivery of two octets and a read of one
the signal of a freshly opened instance is set exactly when its FIFO holds
octets. -/
theorem readable_iff_fifo_nonempty_witness :
    ((∀ f buf, status_le_zero (small_fifo.write f buf).1 = false →
        0 < mx_hid_fifo_size (small_fifo.write f buf).2) ∧
      (∀ f buf, status_le_zero (small_fifo.write f buf).1 = true →
        (small_fifo.write f buf).2 = f)) ∧
    ∃ inst,
      hid_open_device (hid_create_device false HID_DEV_CLASS_OTHER) [] true NO_ERROR
        = some (NO_ERROR, some inst, [] ++ [inst]) ∧
      ((run_reader_ops (fifo_with_write small_fifo.write) inst
          [.deliver [1, 2], .read 1]).readable = true ↔
        0 < mx_hid_fifo_size (run_reader_ops (fifo_with_write small_fifo.write) inst
          [.deliver [1, 2], .read 1]).fifo) := by
  obtain ⟨inst, h1, _, _, h⟩ :=
    readable_iff_fifo_nonempty small_fifo.write small_fifo_write_pos small_fifo_write_fail
      (hid_create_device false HID_DEV_CLASS_OTHER) [] [.deliver [1, 2], .read 1]
  exact ⟨⟨small_fifo_write_pos, small_fifo_write_fail⟩, inst, h1, (h _ rfl).2.1⟩

/-! ## The failure path of open (C23) -/

/-- Whenever `calloc` succeeds and `device_add_instance` fails,
`hid_open_device` faults inside `hid_cleanup_instance`. -/
theorem hid_open_device_add_failure (hid : mx_hid_device)
    (instance_list : List mx_hid_instance) (status : mx_status_t) (h : status ≠ NO_ERROR) :
    hid_open_device hid instance_list true status = none := by
  unfold hid_open_device
  simp only [hid_create_instance, if_true]
  rw [if_pos h]
  rfl

theorem eraseIdx_length_append {α : Type} (l : List α) (x : α) :
    (l ++ [x]).eraseIdx l.length = l := by
  induction l with
  | nil => rfl
  | cons y ys ih => simp [List.eraseIdx_cons_succ, ih]

/-- Claim C23, evaluated on the path of `hid_open_device` on which `calloc`
succeeds and `device_add_instance` returns `ERR_NO_MEMORY`, for every device
and registry: `hid_cleanup_instance` is called on the instance that
`hid_create_instance` made, whose root is still unset, whose dead flag is
clear and whose node was never added to the registry, and dereferences the
`NULL` root (the outcome `none`).  When `device_add_instance` succeeds the
root is set, the instance is appended to the registry, and
`hid_cleanup_instance` on it removes its node again, leaving the registry as
it was before the open. -/
theorem open_failure_cleanup_unset_root (hid : mx_hid_device)
    (instance_list : List mx_hid_instance) :
    (∃ inst, (hid_create_instance true).2 = some inst ∧ inst.root = none ∧
      inst.flags &&& HID_FLAGS_DEAD = 0 ∧
      ∀ node, hid_cleanup_instance instance_list inst node = none) ∧
    hid_open_device hid instance_list true .ERR_NO_MEMORY = none ∧
    (∃ inst,
      hid_open_device hid instance_list true NO_ERROR
        = some (NO_ERROR, some inst, instance_list ++ [inst]) ∧
      inst.root = some hid ∧ inst ∈ instance_list ++ [inst] ∧
      (instance_list ++ [inst])[instance_list.length]? = some inst ∧
      hid_cleanup_instance (instance_list ++ [inst]) inst (some instance_list.length)
        = some instance_list) := by
  refine ⟨⟨_, rfl, rfl, rfl, fun _ => rfl⟩, rfl, ⟨_, rfl, rfl, ?_, ?_, ?_⟩⟩
  · simp
  · simp
  · unfold hid_cleanup_instance list_delete
    rw [if_pos (Nat.zero_and _)]
    simp only [eraseIdx_length_append]

/-! ## Lock order (C21) -/

theorem lock_discipline_append (held : List lock_id) (t1 t2 : List lock_event)
    (h1 : lock_discipline held t1) (h2 : lock_discipline [] t2) :
    lock_discipline held (t1 ++ t2) := by
  induction t1 generalizing held with
  | nil =>
    have : held = [] := h1
    subst this
    exact h2
  | cons e rest ih =>
    cases e with
    | mtx_lock l => exact ⟨h1.1, ih _ h1.2⟩
    | mtx_unlock l => exact ⟨h1.1, ih _ h1.2⟩

theorem registry_pair_discipline :
    lock_discipline [] [.mtx_lock .instance_lock, .mtx_unlock .instance_lock] :=
  ⟨Or.inl rfl, List.mem_singleton.mpr rfl, by simp [lock_discipline]⟩

/-- The loop of `hid_io_read` runs with `instance_lock` held and takes and
drops one FIFO lock at a time. -/
theorem hid_io_read_loop_discipline (registry : List Nat) :
    lock_discipline [.instance_lock]
      (hid_io_read_loop_locks registry ++ [.mtx_unlock .instance_lock]) := by
  induction registry with
  | nil =>
    exact ⟨List.mem_singleton.mpr rfl, by simp [lock_discipline]⟩
  | cons i rest ih =>
    refine ⟨Or.inr ⟨rfl, ?_⟩, List.mem_cons_self _ _, ?_⟩
    · intro h hh
      rw [List.mem_singleton.mp hh]
      rfl
    · simpa using ih

theorem hid_io_read_discipline (registry : List Nat) :
    lock_discipline [] (hid_io_read_locks registry) := by
  unfold hid_io_read_locks
  rw [List.append_assoc]
  exact ⟨Or.inl rfl, hid_io_read_loop_discipline registry⟩

theorem hid_read_instance_discipline (i : Nat) (hid : mx_hid_instance) :
    lock_discipline [] (hid_read_instance_locks i hid) ∧
    only_lock (.fifo_lock i) (hid_read_instance_locks i hid) := by
  unfold hid_read_instance_locks only_lock
  split_ifs
  · exact ⟨rfl, by simp⟩
  · refine ⟨⟨Or.inl rfl, List.mem_singleton.mpr rfl, by simp [lock_discipline]⟩, ?_⟩
    intro e he
    simpa using he

theorem hid_cleanup_instance_discipline (dev : mx_hid_instance) (tr : List lock_event)
    (h : hid_cleanup_instance_locks dev = some tr) :
    lock_discipline [] tr ∧ only_lock .instance_lock tr := by
  unfold hid_cleanup_instance_locks at h
  split_ifs at h
  · cases hr : dev.root with
    | none => simp [hr] at h
    | some root =>
      simp only [hr, Option.some.injEq] at h
      subst h
      refine ⟨registry_pair_discipline, ?_⟩
      intro e he
      simpa using he
  · simp only [Option.some.injEq] at h
    subst h
    exact ⟨rfl, by simp [only_lock]⟩

theorem hid_open_device_discipline (calloc_ok : Bool) (status : mx_status_t)
    (tr : List lock_event) (h : hid_open_device_locks calloc_ok status = some tr) :
    lock_discipline [] tr ∧ only_lock .instance_lock tr := by
  unfold hid_open_device_locks at h
  cases hc : (hid_create_instance calloc_ok).2 with
  | none =>
    simp only [hc, Option.some.injEq] at h
    subst h
    exact ⟨rfl, by simp [only_lock]⟩
  | some inst =>
    simp only [hc] at h
    split_ifs at h
    · exact hid_cleanup_instance_discipline inst tr h
    · simp only [Option.some.injEq] at h
      subst h
      refine ⟨registry_pair_discipline, ?_⟩
      intro e he
      simpa using he

/-- Every sequence of calls of the core keeps the lock discipline. -/
theorem core_calls_discipline (t : List lock_event) (h : core_calls t) :
    lock_discipline [] t := by
  induction h with
  | done => rfl
  | deliver registry t _ ih =>
    exact lock_discipline_append _ _ _ (hid_io_read_discipline registry) ih
  | detach t _ ih => exact lock_discipline_append _ _ _ registry_pair_discipline ih
  | read i hid t _ ih =>
    exact lock_discipline_append _ _ _ (hid_read_instance_discipline i hid).1 ih
  | close dev tr t htr _ ih =>
    exact lock_discipline_append _ _ _ (hid_cleanup_instance_discipline dev tr htr).1 ih
  | opened calloc_ok status tr t htr _ ih =>
    exact lock_discipline_append _ _ _ (hid_open_device_discipline calloc_ok status tr htr).1 ih

/-- A step of a thread keeps the lock discipline of every thread. -/
theorem thread_step_discipline (ts ts' : List thread) (i : Nat)
    (hinv : ∀ t ∈ ts, lock_discipline t.held t.rest) (h : thread_step ts i = some ts') :
    ∀ t ∈ ts', lock_discipline t.held t.rest := by
  unfold thread_step at h
  cases hi : ts[i]? with
  | none => simp [hi] at h
  | some u =>
    have hu : u ∈ ts := List.getElem?_mem hi
    have hdu := hinv u hu
    simp only [hi] at h
    cases hr : u.rest with
    | nil => simp [hr] at h
    | cons e rest =>
      rw [hr] at hdu
      simp only [hr] at h
      cases e with
      | mtx_lock l =>
        simp only at h
        split_ifs at h
        simp only [Option.some.injEq] at h
        subst h
        intro t ht
        rcases List.mem_or_eq_of_mem_set ht with ht | rfl
        · exact hinv t ht
        · exact hdu.2
      | mtx_unlock l =>
        simp only [Option.some.injEq] at h
        subst h
        intro t ht
        rcases List.mem_or_eq_of_mem_set ht with ht | rfl
        · exact hinv t ht
        · exact hdu.2

theorem reachable_discipline (ts0 ts : List thread)
    (h0 : ∀ t ∈ ts0, lock_discipline t.held t.rest) (h : reachable ts0 ts) :
    ∀ t ∈ ts, lock_discipline t.held t.rest := by
  induction h with
  | start => exact h0
  | step ts ts' i _ hstep ih => exact thread_step_discipline ts ts' i ih hstep

/-- Threads that keep the lock discipline are never all blocked: while one of
them has a mutex call left, one of them can make its next call. -/
theorem thread_step_progress (ts : List thread)
    (hinv : ∀ t ∈ ts, lock_discipline t.held t.rest) (hun : ∃ t ∈ ts, t.rest ≠ []) :
    ∃ i ts', thread_step ts i = some ts' := by
  by_contra hno
  push_neg at hno
  have hblocked : ∀ u ∈ ts, u.rest ≠ [] →
      ∃ l r, u.rest = .mtx_lock l :: r ∧ ∃ v ∈ ts, l ∈ v.held := by
    intro u hu hne
    obtain ⟨i, hi⟩ := List.getElem?_of_mem hu
    cases hr : u.rest with
    | nil => exact absurd hr hne
    | cons e r =>
      cases e with
      | mtx_lock l =>
        refine ⟨l, r, rfl, ?_⟩
        by_contra hfree
        apply hno i (ts.set i ⟨l :: u.held, r⟩)
        have hany : ¬ (ts.any (fun v => decide (l ∈ v.held)) = true) := by
          rw [List.any_eq_true]
          rintro ⟨v, hv, hl⟩
          exact hfree ⟨v, hv, of_decide_eq_true hl⟩
        unfold thread_step
        simp only [hi, hr]
        rw [if_neg hany]
      | mtx_unlock l =>
        exfalso
        apply hno i (ts.set i ⟨u.held.erase l, r⟩)
        unfold thread_step
        simp only [hi, hr]
  have hheld : ∀ u ∈ ts, u.held ≠ [] → u.rest ≠ [] := by
    intro u hu hh hr
    have hd := hinv u hu
    rw [hr] at hd
    exact hh hd
  obtain ⟨t, ht, htne⟩ := hun
  obtain ⟨l, r, _, u, hu, hlu⟩ := hblocked t ht htne
  have hune : u.held ≠ [] := List.ne_nil_of_mem hlu
  obtain ⟨l', r', hr', v, hv, hlv⟩ := hblocked u hu (hheld u hu hune)
  have hdu := hinv u hu
  rw [hr'] at hdu
  rcases hdu.1 with h | ⟨hf, _⟩
  · exact hune h
  · have hvne : v.held ≠ [] := List.ne_nil_of_mem hlv
    obtain ⟨l'', r'', hr'', _⟩ := hblocked v hv (hheld v hv hvne)
    have hdv := hinv v hv
    rw [hr''] at hdv
    rcases hdv.1 with h | ⟨_, hall⟩
    · exact hvne h
    · have hnf := hall l' hlv
      rw [hf] at hnf
      exact Bool.noConfusion hnf

/-- Claim C21: lock ordering.  The mutex calls of `hid_io_read`,
`hid_io_closed`, `hid_read_instance`, and of every `hid_cleanup_instance` and
`hid_open_device` that returns, keep the lock discipline: `instance_lock` is
locked only while nothing is held, a FIFO lock is locked only while nothing
or only `instance_lock` is held (so when both are held `instance_lock` was
locked first), and every mutex locked is unlocked before the function
returns.  `hid_read_instance` touches only the FIFO lock of its instance;
`hid_io_closed`, `hid_open_device` and `hid_cleanup_instance` touch only
`instance_lock`.  (`hid_open_device` returns unless `calloc` succeeds and
`device_add_instance` fails.)  Hence threads that each run any sequence of
these calls never deadlock: in every reachable state of every interleaving,
while some thread has a mutex call left, some thread can make its next
call. -/
theorem lock_order_no_deadlock :
    (∀ registry, lock_discipline [] (hid_io_read_locks registry)) ∧
    (lock_discipline [] hid_io_closed_locks ∧ only_lock .instance_lock hid_io_closed_locks) ∧
    (∀ i hid, lock_discipline [] (hid_read_instance_locks i hid) ∧
      only_lock (.fifo_lock i) (hid_read_instance_locks i hid)) ∧
    (∀ dev tr, hid_cleanup_instance_locks dev = some tr →
      lock_discipline [] tr ∧ only_lock .instance_lock tr) ∧
    (∀ calloc_ok status tr, hid_open_device_locks calloc_ok status = some tr →
      lock_discipline [] tr ∧ only_lock .instance_lock tr) ∧
    (∀ calloc_ok status,
      hid_open_device_locks calloc_ok status = none ↔ calloc_ok = true ∧ status ≠ NO_ERROR) ∧
    (∀ held rest, lock_discipline held (.mtx_lock .instance_lock :: rest) → held = []) ∧
    (∀ held i rest, lock_discipline held (.mtx_lock (.fifo_lock i) :: rest) →
      ∀ h ∈ held, h = .instance_lock) ∧
    (∀ ts0 : List thread, (∀ t ∈ ts0, t.held = [] ∧ core_calls t.rest) →
      ∀ ts, reachable ts0 ts →
        (∀ t ∈ ts, lock_discipline t.held t.rest) ∧
        ((∃ t ∈ ts, t.rest ≠ []) → ∃ i ts', thread_step ts i = some ts')) := by
  refine ⟨hid_io_read_discipline, ⟨registry_pair_discipline, ?_⟩,
    hid_read_instance_discipline, hid_cleanup_instance_discipline,
    hid_open_device_discipline, ?_, ?_, ?_, ?_⟩
  · intro e he
    simpa [hid_io_closed_locks] using he
  · intro calloc_ok status
    cases calloc_ok with
    | false => simp [hid_open_device_locks, hid_create_instance]
    | true =>
      by_cases hs : status = NO_ERROR
      · simp [hid_open_device_locks, hid_create_instance, hs]
      · simp [hid_open_device_locks, hid_create_instance, hs, hid_cleanup_instance_locks,
          HID_FLAGS_DEAD]
  · intro held rest h
    rcases h.1 with h1 | ⟨h1, _⟩
    · exact h1
    · exact Bool.noConfusion h1
  · intro held i rest h x hx
    rcases h.1 with h1 | ⟨_, h1⟩
    · rw [h1] at hx
      exact absurd hx (List.not_mem_nil _)
    · have := h1 x hx
      cases x with
      | instance_lock => rfl
      | fifo_lock j => exact Bool.noConfusion this
  · intro ts0 h0 ts hts
    have hinv0 : ∀ t ∈ ts0, lock_discipline t.held t.rest := by
      intro t ht
      obtain ⟨h1, h2⟩ := h0 t ht
      rw [h1]
      exact core_calls_discipline t.rest h2
    have hinv := reachable_discipline ts0 ts hinv0 hts
    exact ⟨hinv, thread_step_progress ts hinv⟩

/-- Witness of `lock_order_no_deadlock`: a thread delivering to two instances
and a thread reading from the first; when the deliverer holds `instance_lock`
and the first FIFO lock the reader is blocked, and a step exists. -/
theorem lock_order_no_deadlock_witness :
    ((∀ t ∈ deliver_and_read, t.held = [] ∧ core_calls t.rest) ∧
      reachable deliver_and_read deliver_holds_fifo ∧
      (∃ t ∈ deliver_holds_fifo, t.rest ≠ []) ∧
      thread_step deliver_holds_fifo 1 = none) ∧
    ∃ i ts', thread_step deliver_holds_fifo i = some ts' := by
  have h0 : ∀ t ∈ deliver_and_read, t.held = [] ∧ core_calls t.rest := by
    intro t ht
    simp only [deliver_and_read, List.mem_cons, List.mem_singleton, List.not_mem_nil,
      or_false] at ht
    rcases ht with rfl | rfl
    · exact ⟨rfl, by simpa using core_calls.deliver [0, 1] [] core_calls.done⟩
    · exact ⟨rfl, by simpa using core_calls.read 0 idle_reader [] core_calls.done⟩
  have hr : reachable deliver_and_read deliver_holds_fifo :=
    reachable.step _ _ 0 (reachable.step _ _ 0 reachable.start rfl) (by decide)
  have hun : ∃ t ∈ deliver_holds_fifo, t.rest ≠ [] :=
    ⟨_, List.mem_cons_self _ _, by decide⟩
  exact ⟨⟨h0, hr, hun, by decide⟩,
    (lock_order_no_deadlock.2.2.2.2.2.2.2.2 deliver_and_read h0 deliver_holds_fifo hr).2 hun⟩

end Hid
